import Mathlib

/-!
Verification development for the Polygeist kernel-lowering pass family
implemented in lib/polygeist/Passes/ParallelLower.cpp.  The file gives a
shallow embedding of the data the passes manipulate (module symbol tables,
runtime-call sites, gpu launch bodies, the inlining closure work-list) and
of the transformations themselves (callMalloc, GetOrCreateFreeFunction,
the ConvertCudaRTtoCPU / ConvertCudaRTtoHipRT / ConvertCudaRTtoGPU
rewrites, the ParallelLower launch lowering and its device-intrinsic
closure builder, and the call inliner), and proves the specification's
claims about them.
-/

/-! ## Module symbol model

MLIR symbol lookup (SymbolTableCollection::lookupSymbolIn and
ModuleOp::lookupSymbol) resolves a name to the module-level operation
defining it.  We model a module body as the ordered list of its top-level
symbol operations; a symbol table built by walking the body binds each name
to the first operation carrying it.  `dyn_cast` kind tests are modelled by
the `SymKind` tag. -/

inductive SymKind where
  | funcOp      -- func::FuncOp
  | llvmFuncOp  -- LLVM::LLVMFuncOp
  | otherSym    -- any other symbol-defining operation
deriving DecidableEq, Repr

structure SymDecl where
  name : String
  kind : SymKind
deriving DecidableEq, Repr

structure SymModule where
  decls : List SymDecl
deriving DecidableEq, Repr

def lookupSymbolIn (m : SymModule) (nm : String) : Option SymDecl :=
  m.decls.find? (fun d => d.name == nm)

def countName (m : SymModule) (nm : String) : Nat :=
  (m.decls.filter (fun d => d.name == nm)).length

/-- Embedding of `callMalloc` (ParallelLower.cpp lines 188-217): look for a
`func::FuncOp` named "malloc" and call it; otherwise, if no
`LLVM::LLVMFuncOp` of that name exists, create an external one at the start
of the module body; finally look the name up again and call the
`LLVM::LLVMFuncOp` it resolves to.  The returned declaration is the one the
emitted call targets.  (The process-wide mutex only serialises concurrent
invocations and has no sequential behaviour.) -/
def callMalloc (m : SymModule) : SymModule × SymDecl :=
  match lookupSymbolIn m "malloc" with
  | some d =>
    if d.kind = SymKind.funcOp then
      -- first dyn_cast succeeds: emit func::CallOp to d and return
      (m, d)
    else if d.kind = SymKind.llvmFuncOp then
      -- creation guard fails (an LLVM::LLVMFuncOp exists); final lookup finds d
      (m, d)
    else
      -- a symbol of another kind: both dyn_casts fail, a fresh external
      -- declaration is inserted at the start of the module body and the
      -- final lookup resolves to it
      let newDecl : SymDecl := { name := "malloc", kind := SymKind.llvmFuncOp }
      ({ decls := newDecl :: m.decls }, newDecl)
  | none =>
      let newDecl : SymDecl := { name := "malloc", kind := SymKind.llvmFuncOp }
      ({ decls := newDecl :: m.decls }, newDecl)

/-- Embedding of `GetOrCreateFreeFunction` (ParallelLower.cpp lines
218-237): if the name "free" resolves to an `LLVM::LLVMFuncOp`, return it;
otherwise create an external `LLVM::LLVMFuncOp` declaration at the start of
the module body and return that.  Note the routine only re-checks for the
LLVM kind: a same-named symbol of any other kind does not stop creation. -/
def GetOrCreateFreeFunction (m : SymModule) : SymModule × SymDecl :=
  match lookupSymbolIn m "free" with
  | some d =>
    if d.kind = SymKind.llvmFuncOp then
      (m, d)
    else
      let newDecl : SymDecl := { name := "free", kind := SymKind.llvmFuncOp }
      ({ decls := newDecl :: m.decls }, newDecl)
  | none =>
      let newDecl : SymDecl := { name := "free", kind := SymKind.llvmFuncOp }
      ({ decls := newDecl :: m.decls }, newDecl)

/-! ### C7 helper lemmas -/

theorem countName_eq_zero_of_lookup_none {m : SymModule} {nm : String}
    (h : lookupSymbolIn m nm = none) : countName m nm = 0 := by
  unfold countName
  unfold lookupSymbolIn at h
  have hall := List.find?_eq_none.mp h
  have : m.decls.filter (fun d => d.name == nm) = [] := by
    apply List.filter_eq_nil_iff.mpr
    intro d hd
    exact hall d hd
  simp [this]

theorem lookup_some_facts {m : SymModule} {nm : String} {d : SymDecl}
    (h : lookupSymbolIn m nm = some d) : d ∈ m.decls ∧ d.name = nm := by
  unfold lookupSymbolIn at h
  refine ⟨List.mem_of_find?_eq_some h, ?_⟩
  have := List.find?_some h
  simpa [beq_iff_eq] using this

theorem countName_pos_of_lookup_some {m : SymModule} {nm : String} {d : SymDecl}
    (h : lookupSymbolIn m nm = some d) : 1 ≤ countName m nm := by
  obtain ⟨hmem, hname⟩ := lookup_some_facts h
  unfold countName
  have : d ∈ m.decls.filter (fun d => d.name == nm) :=
    List.mem_filter.mpr ⟨hmem, by simp [hname]⟩
  exact List.length_pos.mpr (List.ne_nil_of_mem this)

theorem countName_cons_same (ds : List SymDecl) (d : SymDecl) (nm : String)
    (h : d.name = nm) : countName ⟨d :: ds⟩ nm = countName ⟨ds⟩ nm + 1 := by
  unfold countName
  simp [List.filter_cons, h]

/-- Claim C7 counterexample: on a module whose only symbol named "free" is a
high-level `func::FuncOp` declaration, invoking the free
declaration-or-lookup routine twice leaves TWO declarations named "free"
(the routine only re-checks for the LLVM kind before creating), refuting
"invoking either twice on the same module leaves exactly one external
declaration of that name in the module". -/
theorem C7_counterexample :
    countName
      (GetOrCreateFreeFunction
        (GetOrCreateFreeFunction ⟨[⟨"free", SymKind.funcOp⟩]⟩).1).1 "free" = 2 := by
  decide

/-- Claim C7 (amended): the malloc routine is idempotent whenever every
pre-existing declaration named "malloc" is of one of the two kinds it
re-checks (func::FuncOp or LLVM::LLVMFuncOp) and names are unique, and the
free routine is idempotent whenever every pre-existing declaration named
"free" is of the one kind it re-checks (LLVM::LLVMFuncOp) and names are
unique: two invocations leave exactly one declaration of the name, the
second invocation changes nothing, and it resolves to the declaration the
first invocation resolved to. -/
theorem C7_declaration_synthesis_idempotent (m : SymModule)
    (hm1 : countName m "malloc" ≤ 1)
    (hmk : ∀ d ∈ m.decls, d.name = "malloc" →
      d.kind = SymKind.funcOp ∨ d.kind = SymKind.llvmFuncOp)
    (hf1 : countName m "free" ≤ 1)
    (hfk : ∀ d ∈ m.decls, d.name = "free" → d.kind = SymKind.llvmFuncOp) :
    (countName (callMalloc m).1 "malloc" = 1 ∧
      callMalloc (callMalloc m).1 = callMalloc m) ∧
    (countName (GetOrCreateFreeFunction m).1 "free" = 1 ∧
      GetOrCreateFreeFunction (GetOrCreateFreeFunction m).1 =
        GetOrCreateFreeFunction m) := by
  constructor
  · -- malloc part
    cases hlook : lookupSymbolIn m "malloc" with
    | some d =>
      obtain ⟨hmem, hname⟩ := lookup_some_facts hlook
      have hkind := hmk d hmem hname
      have hcall : callMalloc m = (m, d) := by
        rcases hkind with hk | hk <;> simp [callMalloc, hlook, hk]
      have hcount : countName m "malloc" = 1 :=
        le_antisymm hm1 (countName_pos_of_lookup_some hlook)
      rw [hcall]
      exact ⟨hcount, by rw [hcall]⟩
    | none =>
      have hcount0 : countName m "malloc" = 0 :=
        countName_eq_zero_of_lookup_none hlook
      have hcall : callMalloc m =
          (⟨⟨"malloc", SymKind.llvmFuncOp⟩ :: m.decls⟩,
            ⟨"malloc", SymKind.llvmFuncOp⟩) := by
        simp [callMalloc, hlook]
      have hlook2 :
          lookupSymbolIn ⟨⟨"malloc", SymKind.llvmFuncOp⟩ :: m.decls⟩ "malloc" =
            some ⟨"malloc", SymKind.llvmFuncOp⟩ := by
        simp [lookupSymbolIn, List.find?]
      constructor
      · rw [hcall]
        have hstep := countName_cons_same m.decls ⟨"malloc", SymKind.llvmFuncOp⟩
          "malloc" rfl
        have hz : countName ⟨m.decls⟩ "malloc" = 0 := hcount0
        rw [hstep, hz]
      · rw [hcall]
        simp [callMalloc, hlook2]
  · -- free part
    cases hlook : lookupSymbolIn m "free" with
    | some d =>
      obtain ⟨hmem, hname⟩ := lookup_some_facts hlook
      have hkind := hfk d hmem hname
      have hcall : GetOrCreateFreeFunction m = (m, d) := by
        simp [GetOrCreateFreeFunction, hlook, hkind]
      have hcount : countName m "free" = 1 :=
        le_antisymm hf1 (countName_pos_of_lookup_some hlook)
      rw [hcall]
      exact ⟨hcount, by rw [hcall]⟩
    | none =>
      have hcount0 : countName m "free" = 0 :=
        countName_eq_zero_of_lookup_none hlook
      have hcall : GetOrCreateFreeFunction m =
          (⟨⟨"free", SymKind.llvmFuncOp⟩ :: m.decls⟩,
            ⟨"free", SymKind.llvmFuncOp⟩) := by
        simp [GetOrCreateFreeFunction, hlook]
      have hlook2 :
          lookupSymbolIn ⟨⟨"free", SymKind.llvmFuncOp⟩ :: m.decls⟩ "free" =
            some ⟨"free", SymKind.llvmFuncOp⟩ := by
        simp [lookupSymbolIn, List.find?]
      constructor
      · rw [hcall]
        have hstep := countName_cons_same m.decls ⟨"free", SymKind.llvmFuncOp⟩
          "free" rfl
        have hz : countName ⟨m.decls⟩ "free" = 0 := hcount0
        rw [hstep, hz]
      · rw [hcall]
        simp [GetOrCreateFreeFunction, hlook2]

/-- Witness for C7 (amended) at the empty module. -/
theorem C7_declaration_synthesis_witness :
    (countName (callMalloc ⟨[]⟩).1 "malloc" = 1 ∧
      callMalloc (callMalloc ⟨[]⟩).1 = callMalloc ⟨[]⟩) ∧
    (countName (GetOrCreateFreeFunction ⟨[]⟩).1 "free" = 1 ∧
      GetOrCreateFreeFunction (GetOrCreateFreeFunction ⟨[]⟩).1 =
        GetOrCreateFreeFunction ⟨[]⟩) :=
  C7_declaration_synthesis_idempotent ⟨[]⟩ (by decide) (by decide) (by decide)
    (by decide)

/-! ## Fixed vocabulary of cudart symbols and the HIP name translation

Transcription of the tables at ParallelLower.cpp lines 1001-1400 and of the
string helpers at lines 858-892.  `std::regex_replace(name, regex("cuda"),
"hip")` replaces every occurrence of the literal substring "cuda"; we
implement that replacement on character lists with an explicit fuel equal to
the string length (each loop step consumes at least one character). -/

def replaceSubstrFuel (pat rep : List Char) : Nat → List Char → List Char
  | 0, s => s
  | _ + 1, [] => []
  | fuel + 1, c :: rest =>
    if !pat.isEmpty && pat.isPrefixOf (c :: rest) then
      rep ++ replaceSubstrFuel pat rep fuel ((c :: rest).drop pat.length)
    else c :: replaceSubstrFuel pat rep fuel rest

def replaceSubstr (pat rep s : List Char) : List Char :=
  replaceSubstrFuel pat rep s.length s

def cudartSymbols : List String := [
  "cudaGetDevice",
  "cudaWaitExternalSemaphoresAsync_ptsz",
  "cudaStreamAddCallback",
  "cudaMemcpyArrayToArray",
  "cudaDeviceReset",
  "cudaGraphAddEventRecordNode",
  "cudaGetSurfaceObjectResourceDesc",
  "cudaGraphicsSubResourceGetMappedArray",
  "cudaMemRangeGetAttributes",
  "cudaGraphAddKernelNode",
  "cudaGraphDestroy",
  "cudaGraphAddExternalSemaphoresSignalNode",
  "cudaGraphExecChildGraphNodeSetParams",
  "cudaEGLStreamConsumerReleaseFrame",
  "__cudaRegisterManagedVar",
  "cudaMemcpy2DFromArray",
  "cudaEventRecord_ptsz",
  "cudaSetDoubleForHost",
  "cudaGraphExternalSemaphoresWaitNodeSetParams",
  "cudaMemPoolSetAttribute",
  "cudaDeviceFlushGPUDirectRDMAWrites",
  "cudaDestroyExternalMemory",
  "cudaDeviceGetGraphMemAttribute",
  "cudaEGLStreamConsumerConnect",
  "cudaGraphUpload",
  "cudaDestroyTextureObject",
  "cudaHostGetFlags",
  "cudaStreamQuery_ptsz",
  "cudaHostGetDevicePointer",
  "cudaPointerGetAttributes",
  "cudaWaitExternalSemaphoresAsync_v2",
  "cudaFuncSetAttribute",
  "cudaDeviceGetSharedMemConfig",
  "cudaGetDeviceFlags",
  "cudaGraphGetNodes",
  "cudaGraphMemAllocNodeGetParams",
  "cudaMemcpy3D",
  "cudaMemcpy2DArrayToArray",
  "cudaBindTextureToArray",
  "cudaDeviceDisablePeerAccess",
  "cudaGraphMemsetNodeGetParams",
  "cudaGraphExecExternalSemaphoresWaitNodeSetParams",
  "cudaGraphNodeGetDependentNodes",
  "cudaEventDestroy",
  "cudaDeviceCanAccessPeer",
  "cudaArrayGetInfo",
  "cudaMemcpyAsync",
  "cudaStreamEndCapture_ptsz",
  "cudaGraphMemFreeNodeGetParams",
  "cudaGraphExecMemcpyNodeSetParams1D",
  "cudaOccupancyMaxActiveBlocksPerMultiprocessor",
  "cudaGraphAddChildGraphNode",
  "cudaGraphicsGLRegisterImage",
  "cudaGraphExecMemcpyNodeSetParamsToSymbol",
  "cudaProfilerInitialize",
  "cudaWaitExternalSemaphoresAsync",
  "cudaMalloc3DArray",
  "cudaGraphKernelNodeSetParams",
  "cudaProfilerStart",
  "cudaGraphChildGraphNodeGetGraph",
  "cudaGetErrorString",
  "cudaMemset",
  "cudaGraphMemcpyNodeSetParamsFromSymbol",
  "cudaMemset3D",
  "cudaGraphExecMemcpyNodeSetParamsFromSymbol",
  "cudaMemcpyArrayToArray_ptds",
  "cudaMemcpy2D",
  "cudaGraphDestroyNode",
  "cudaStreamWaitEvent",
  "cudaMemcpy2DToArrayAsync_ptsz",
  "cudaGraphEventRecordNodeGetEvent",
  "cudaSetDoubleForDevice",
  "cudaLaunchCooperativeKernel_ptsz",
  "cudaLaunchKernel",
  "cudaFuncSetSharedMemConfig",
  "cudaPeekAtLastError",
  "cudaMemcpy3DAsync_ptsz",
  "cudaEventCreate",
  "cudaMemPrefetchAsync_ptsz",
  "cudaMalloc",
  "cudaMemPoolSetAccess",
  "cudaBindTexture2D",
  "cudaMemPoolTrimTo",
  "cudaThreadGetLimit",
  "cudaGraphMemsetNodeSetParams",
  "cudaGLRegisterBufferObject",
  "cudaGraphicsVDPAURegisterOutputSurface",
  "cudaOccupancyMaxActiveBlocksPerMultiprocessorWithFlags",
  "cudaEventCreateFromEGLSync",
  "cudaGraphExternalSemaphoresSignalNodeGetParams",
  "cudaMemPoolExportPointer",
  "cudaGraphNodeFindInClone",
  "cudaGetTextureAlignmentOffset",
  "cudaSignalExternalSemaphoresAsync_v2_ptsz",
  "cudaGraphKernelNodeGetAttribute",
  "cudaHostUnregister",
  "cudaStreamSetAttribute",
  "cudaLaunchHostFunc",
  "__cudaRegisterFatBinaryEnd",
  "cudaGetTextureObjectResourceDesc",
  "cudaGraphExternalSemaphoresSignalNodeSetParams",
  "cudaMemPoolImportFromShareableHandle",
  "cudaStreamDestroy",
  "cudaMalloc3D",
  "cudaGLSetGLDevice",
  "cudaGraphRetainUserObject",
  "cudaGraphExecExternalSemaphoresSignalNodeSetParams",
  "cudaMemAdvise",
  "cudaEventRecordWithFlags",
  "cudaMemcpy3DPeerAsync_ptsz",
  "cudaGraphExecMemcpyNodeSetParams",
  "cudaProfilerStop",
  "cudaFreeMipmappedArray",
  "cudaStreamCopyAttributes_ptsz",
  "cudaMemcpyFromArray",
  "cudaMemcpy3DPeer",
  "cudaMemPoolImportPointer",
  "cudaMemPoolCreate",
  "cudaCreateTextureObject",
  "cudaGraphExecDestroy",
  "cudaMemGetInfo",
  "cudaStreamGetFlags",
  "cudaGetMipmappedArrayLevel",
  "cudaMemset2DAsync_ptsz",
  "cudaMemcpyAsync_ptsz",
  "cudaCreateSurfaceObject",
  "cudaMemRangeGetAttribute",
  "cudaStreamCopyAttributes",
  "cudaMemcpyToSymbol",
  "cudaMemcpy3D_ptds",
  "cudaGLUnregisterBufferObject",
  "cudaGraphInstantiate",
  "cudaStreamBeginCapture",
  "cudaDestroySurfaceObject",
  "cudaMemcpy3DAsync",
  "cudaFuncGetAttributes",
  "cudaStreamIsCapturing_ptsz",
  "cudaChooseDevice",
  "cudaGraphExecMemsetNodeSetParams",
  "cudaArrayGetPlane",
  "__cudaPopCallConfiguration",
  "cudaThreadSetCacheConfig",
  "cudaStreamAttachMemAsync_ptsz",
  "cudaGLMapBufferObjectAsync",
  "cudaMemcpyFromArrayAsync_ptsz",
  "cudaMemcpy2DFromArrayAsync_ptsz",
  "cudaMemcpyToArrayAsync_ptsz",
  "cudaArrayGetSparseProperties",
  "cudaExternalMemoryGetMappedMipmappedArray",
  "cudaGraphClone",
  "cudaStreamGetPriority_ptsz",
  "cudaRuntimeGetVersion",
  "cudaMemPoolDestroy",
  "cudaGraphMemcpyNodeSetParamsToSymbol",
  "cudaGraphExecUpdate",
  "cudaEGLStreamConsumerDisconnect",
  "cudaGetSymbolAddress",
  "__cudaRegisterVar",
  "cudaStreamGetCaptureInfo",
  "cudaMemcpy3DPeerAsync",
  "cudaMemcpyPeer",
  "cudaDeviceGetByPCIBusId",
  "cudaEGLStreamProducerDisconnect",
  "cudaEGLStreamConsumerAcquireFrame",
  "__cudaRegisterTexture",
  "cudaGraphicsVDPAURegisterVideoSurface",
  "cudaDeviceSetCacheConfig",
  "cudaMemcpyFromArrayAsync",
  "cudaGraphEventRecordNodeSetEvent",
  "cudaGraphAddMemcpyNode",
  "cudaDeviceGetDefaultMemPool",
  "cudaStreamSynchronize_ptsz",
  "cudaBindSurfaceToArray",
  "cudaMallocAsync",
  "cudaGraphGetEdges",
  "cudaGetDriverEntryPoint_ptsz",
  "cudaGraphMemcpyNodeSetParams1D",
  "cudaGraphKernelNodeCopyAttributes",
  "cudaVDPAUSetVDPAUDevice",
  "cudaDeviceGraphMemTrim",
  "cudaGraphicsResourceGetMappedMipmappedArray",
  "cudaThreadSynchronize",
  "cudaDeviceGetTexture1DLinearMaxWidth",
  "cudaDeviceSynchronize",
  "cudaMemcpyFromSymbolAsync",
  "cudaSetValidDevices",
  "cudaOccupancyAvailableDynamicSMemPerBlock",
  "cudaStreamSetAttribute_ptsz",
  "cudaMemcpyFromSymbol",
  "cudaStreamEndCapture",
  "cudaImportExternalMemory",
  "__cudaRegisterSurface",
  "cudaThreadSetLimit",
  "cudaGLMapBufferObject",
  "cudaBindTextureToMipmappedArray",
  "cudaGraphUpload_ptsz",
  "cudaGLGetDevices",
  "cudaGraphAddMemAllocNode",
  "cudaMemsetAsync",
  "cudaGLUnmapBufferObjectAsync",
  "cudaUserObjectRetain",
  "cudaGraphNodeGetDependencies",
  "cudaStreamCreateWithPriority",
  "cudaStreamGetCaptureInfo_ptsz",
  "cudaStreamGetAttribute",
  "cudaStreamAttachMemAsync",
  "cudaGetDeviceCount",
  "cudaMemset3D_ptds",
  "cudaFreeAsync",
  "cudaUserObjectRelease",
  "cudaCreateChannelDesc",
  "cudaGetSurfaceReference",
  "cudaGetChannelDesc",
  "cudaGraphDebugDotPrint",
  "cudaEGLStreamProducerPresentFrame",
  "cudaEventQuery",
  "cudaStreamBeginCapture_ptsz",
  "cudaMallocMipmappedArray",
  "cudaThreadExchangeStreamCaptureMode",
  "cudaStreamGetFlags_ptsz",
  "cudaStreamUpdateCaptureDependencies_ptsz",
  "cudaGraphicsGLRegisterBuffer",
  "cudaDeviceGetNvSciSyncAttributes",
  "cudaEGLStreamProducerReturnFrame",
  "cudaIpcOpenEventHandle",
  "cudaMemPoolGetAccess",
  "cudaGraphicsResourceGetMappedPointer",
  "cudaMallocFromPoolAsync",
  "cudaCtxResetPersistingL2Cache",
  "cudaMemcpyFromSymbol_ptds",
  "cudaDeviceEnablePeerAccess",
  "cudaEGLStreamConsumerConnectWithFlags",
  "cudaGraphInstantiateWithFlags",
  "__cudaRegisterHostVar",
  "cudaGetLastError",
  "cudaMemcpy3DPeer_ptds",
  "cudaGraphAddMemsetNode",
  "cudaEGLStreamProducerConnect",
  "cudaExternalMemoryGetMappedBuffer",
  "cudaGetExportTable",
  "cudaMallocManaged",
  "cudaThreadExit",
  "cudaDeviceGetMemPool",
  "cudaGraphicsMapResources",
  "cudaGraphEventWaitNodeGetEvent",
  "cudaDeviceGetCacheConfig",
  "cudaStreamQuery",
  "cudaGraphGetRootNodes",
  "cudaGraphMemcpyNodeSetParams",
  "cudaDeviceSetGraphMemAttribute",
  "cudaHostAlloc",
  "cudaMemcpy2DAsync",
  "cudaFreeHost",
  "cudaGLUnmapBufferObject",
  "cudaGraphAddEmptyNode",
  "cudaMemcpyToArray",
  "cudaMemcpy2DFromArrayAsync",
  "cudaMemset_ptds",
  "cudaDeviceSetSharedMemConfig",
  "cudaGraphicsResourceSetMapFlags",
  "cudaIpcGetEventHandle",
  "cudaGraphAddEventWaitNode",
  "cudaGraphKernelNodeSetAttribute",
  "cudaEventRecordWithFlags_ptsz",
  "cudaGraphicsUnregisterResource",
  "cudaGraphHostNodeSetParams",
  "cudaGetSymbolSize",
  "cudaMemcpyToArray_ptds",
  "cudaMemcpyToArrayAsync",
  "cudaGraphicsUnmapResources",
  "cudaSetDevice",
  "cudaMemcpyFromSymbolAsync_ptsz",
  "cudaMemcpyToSymbol_ptds",
  "cudaGraphKernelNodeGetParams",
  "cudaIpcGetMemHandle",
  "cudaMipmappedArrayGetSparseProperties",
  "cudaMemcpy",
  "cudaFreeArray",
  "cudaLaunchKernel_ptsz",
  "cudaStreamWaitEvent_ptsz",
  "cudaGraphCreate",
  "cudaDeviceGetStreamPriorityRange",
  "__cudaUnregisterFatBinary",
  "cudaGraphEventWaitNodeSetEvent",
  "cudaDeviceGetPCIBusId",
  "cudaMemPoolExportToShareableHandle",
  "cudaDeviceGetAttribute",
  "cudaStreamAddCallback_ptsz",
  "cudaGraphicsEGLRegisterImage",
  "cudaMemset3DAsync_ptsz",
  "cudaMemsetAsync_ptsz",
  "cudaGLSetBufferObjectMapFlags",
  "cudaMemcpy2DToArrayAsync",
  "cudaMemcpy2DToArray",
  "cudaVDPAUGetDevice",
  "cudaUnbindTexture",
  "cudaGetFuncBySymbol",
  "cudaGraphAddHostNode",
  "cudaSignalExternalSemaphoresAsync_ptsz",
  "cudaStreamCreateWithFlags",
  "__cudaInitModule",
  "cudaGraphExecEventRecordNodeSetEvent",
  "cudaMemPrefetchAsync",
  "cudaFuncSetCacheConfig",
  "cudaStreamGetAttribute_ptsz",
  "cudaDeviceSetLimit",
  "cudaDriverGetVersion",
  "cudaGraphExternalSemaphoresWaitNodeGetParams",
  "cudaGraphMemcpyNodeGetParams",
  "cudaGetTextureReference",
  "cudaDeviceSetMemPool",
  "cudaSignalExternalSemaphoresAsync",
  "cudaSetDeviceFlags",
  "cudaMemcpy2D_ptds",
  "cudaGraphLaunch_ptsz",
  "cudaMemset3DAsync",
  "cudaEventCreateWithFlags",
  "cudaStreamCreate",
  "cudaMallocAsync_ptsz",
  "cudaEventElapsedTime",
  "cudaGraphLaunch",
  "cudaGetTextureObjectTextureDesc",
  "cudaStreamGetCaptureInfo_v2",
  "__cudaRegisterFunction",
  "cudaGraphAddDependencies",
  "cudaMemset2D",
  "cudaGraphExecKernelNodeSetParams",
  "cudaDeviceGetP2PAttribute",
  "cudaDestroyExternalSemaphore",
  "cudaFreeAsync_ptsz",
  "__cudaRegisterFatBinary",
  "cudaGraphAddMemcpyNodeToSymbol",
  "cudaStreamUpdateCaptureDependencies",
  "cudaGraphAddMemFreeNode",
  "cudaDeviceGetLimit",
  "cudaStreamGetCaptureInfo_v2_ptsz",
  "__cudaPushCallConfiguration",
  "cudaMemcpy2DFromArray_ptds",
  "cudaGetTextureObjectResourceViewDesc",
  "cudaGraphNodeGetType",
  "cudaMemcpyToSymbolAsync",
  "cudaSignalExternalSemaphoresAsync_v2",
  "cudaMallocFromPoolAsync_ptsz",
  "cudaLaunchCooperativeKernel",
  "cudaStreamIsCapturing",
  "cudaHostRegister",
  "cudaGraphAddExternalSemaphoresWaitNode",
  "cudaGraphExecEventWaitNodeSetEvent",
  "cudaIpcOpenMemHandle",
  "cudaLaunchCooperativeKernelMultiDevice",
  "cudaMemcpy_ptds",
  "cudaMemcpy2DAsync_ptsz",
  "cudaGetDeviceProperties",
  "cudaImportExternalSemaphore",
  "cudaMemcpyToSymbolAsync_ptsz",
  "cudaBindTexture",
  "cudaGraphicsResourceGetMappedEglFrame",
  "cudaIpcCloseMemHandle",
  "cudaWaitExternalSemaphoresAsync_v2_ptsz",
  "cudaGraphHostNodeGetParams",
  "cudaStreamSynchronize",
  "cudaEventSynchronize",
  "cudaUserObjectCreate",
  "cudaGetErrorName",
  "cudaThreadGetCacheConfig",
  "cudaGraphRemoveDependencies",
  "cudaStreamGetPriority",
  "cudaMemset2DAsync",
  "cudaMemcpy2DArrayToArray_ptds",
  "cudaGraphReleaseUserObject",
  "cudaFree",
  "cudaGetDriverEntryPoint",
  "cudaMemcpy2DToArray_ptds",
  "cudaGraphAddMemcpyNodeFromSymbol",
  "cudaMemPoolGetAttribute",
  "cudaMemset2D_ptds",
  "cudaGraphAddMemcpyNode1D",
  "cudaMallocHost",
  "cudaGraphExecHostNodeSetParams",
  "cudaMallocArray",
  "cudaLaunchHostFunc_ptsz",
  "cudaMemcpyFromArray_ptds",
  "cudaEventRecord",
  "cudaMemcpyPeerAsync",
  "cudaMallocPitch"
]


def inequivalentCudartSymbols : List String := ["cudaGetDeviceProperties"]

/-- Embedding of `isCudartCall` (lines 863-871): binary search over the
sorted copy of `cudartSymbols` is membership in the list. -/
def isCudartCall (name : String) : Bool := cudartSymbols.contains name

/-- Embedding of `getHipName` (lines 874-880): the hard-coded exception
cudaThreadSynchronize -> hipDeviceSynchronize, otherwise replace every
occurrence of "cuda" by "hip". -/
def getHipName (name : String) : String :=
  if name = "cudaThreadSynchronize" then "hipDeviceSynchronize"
  else ⟨replaceSubstr "cuda".toList "hip".toList name.toList⟩

/-- Embedding of `isHipCallEquivalent` (lines 883-891): not in the
no-equivalent list. -/
def isHipCallEquivalent (name : String) : Bool :=
  !(inequivalentCudartSymbols.contains name)

/-! ## Runtime-call retargeting: call-level module model

The three ConvertCudaRT passes walk every `LLVM::CallOp` and `func::CallOp`
of the module.  For the HIP and GPU passes only a call's callee name, its
result types and the module's declarations matter, so those passes are
modelled over a module carrying its declaration list and the ordered list
of its call sites. -/

inductive MTy where
  | int (w : Nat)
  | index
  | memref (elem : Nat) (space : Nat)
  | llvmPtr (elem : Nat) (space : Nat)
  | other (code : Nat)
deriving DecidableEq, Repr

inductive CallKind where
  | funcCall  -- func::CallOp
  | llvmCall  -- LLVM::CallOp
deriving DecidableEq, Repr

inductive RTCall where
  | active (kind : CallKind) (callee : String) (results : List MTy)
  | erasedWithSuccess (ty : MTy)
deriving DecidableEq, Repr

structure RTModule where
  decls : List SymDecl
  calls : List RTCall
  warnings : List String
deriving DecidableEq, Repr

def countDeclName (ds : List SymDecl) (nm : String) : Nat :=
  (ds.filter (fun d => d.name == nm)).length

def lookupSymbolKind (ds : List SymDecl) (nm : String) (k : SymKind) :
    Option SymDecl :=
  match ds.find? (fun d => d.name == nm) with
  | some d => if d.kind = k then some d else none
  | none => none

/-- Embedding of `replaceCallWithSuccess` (lines 699-703): the type for the
zero constant that replaces all uses of the call is read from
`call->getResult(0)`; a call with zero results makes that access out of
bounds (`none`) — the code has no guard. -/
def replaceCallWithSuccess (results : List MTy) : Option MTy :=
  match results.head? with
  | none => none
  | some t => some t

/-- Embedding of `replaceCallOpWithHipCall` (lines 896-917), acting on a
`func::CallOp`: for an equivalent name, assert that the callee has a
`func::FuncOp` declaration (`none` models the assertion failure), derive the
hip name, clone the declaration under the new name at the end of the module
body unless one already exists, and retarget the call; for a no-equivalent
name, emit a warning and replace the call with a success constant. -/
def replaceCallOpWithHipCall (decls : List SymDecl) (warnings : List String)
    (callee : String) (results : List MTy) :
    Option (List SymDecl × List String × RTCall) :=
  if isHipCallEquivalent callee then
    match lookupSymbolKind decls callee SymKind.funcOp with
    | none => none
    | some _ =>
      let hipName := getHipName callee
      let decls2 :=
        if (lookupSymbolKind decls hipName SymKind.funcOp).isSome then decls
        else decls ++ [⟨hipName, SymKind.funcOp⟩]
      some (decls2, warnings, RTCall.active CallKind.funcCall hipName results)
  else
    match replaceCallWithSuccess results with
    | none => none
    | some t =>
      some (decls, warnings ++ [callee], RTCall.erasedWithSuccess t)

/-- Embedding of `replaceLLVMCallOpWithHipCall` (lines 918-939), acting on
an `LLVM::CallOp`.  The handler looks the callee up as a `func::FuncOp`
(assertion on failure) but, when the hip-named `LLVM::LLVMFuncOp` is
missing, clones that func::FuncOp and `cast`s the clone to
`LLVM::LLVMFuncOp`, which always aborts — modelled as `none`. -/
def replaceLLVMCallOpWithHipCall (decls : List SymDecl)
    (warnings : List String) (callee : String) (results : List MTy) :
    Option (List SymDecl × List String × RTCall) :=
  if isHipCallEquivalent callee then
    match lookupSymbolKind decls callee SymKind.funcOp with
    | none => none
    | some _ =>
      let hipName := getHipName callee
      if (lookupSymbolKind decls hipName SymKind.llvmFuncOp).isSome then
        some (decls, warnings, RTCall.active CallKind.llvmCall hipName results)
      else
        none
  else
    match replaceCallWithSuccess results with
    | none => none
    | some t =>
      some (decls, warnings ++ [callee], RTCall.erasedWithSuccess t)

/-- The first walk of ConvertCudaRTtoHipRT (lines 941-948): every
`LLVM::CallOp` whose callee name is a cudart symbol is handled; all other
calls are untouched. -/
def hipWalkLLVM (decls : List SymDecl) (warnings : List String) :
    List RTCall → Option (List SymDecl × List String × List RTCall)
  | [] => some (decls, warnings, [])
  | RTCall.active CallKind.llvmCall callee results :: rest =>
    if isCudartCall callee then
      match replaceLLVMCallOpWithHipCall decls warnings callee results with
      | none => none
      | some (d2, w2, c2) =>
        match hipWalkLLVM d2 w2 rest with
        | none => none
        | some (d3, w3, rest2) => some (d3, w3, c2 :: rest2)
    else
      match hipWalkLLVM decls warnings rest with
      | none => none
      | some (d3, w3, rest2) =>
        some (d3, w3, RTCall.active CallKind.llvmCall callee results :: rest2)
  | c :: rest =>
    match hipWalkLLVM decls warnings rest with
    | none => none
    | some (d3, w3, rest2) => some (d3, w3, c :: rest2)

/-- The second walk of ConvertCudaRTtoHipRT (lines 950-955): every
`func::CallOp` whose callee name is a cudart symbol is handled. -/
def hipWalkFunc (decls : List SymDecl) (warnings : List String) :
    List RTCall → Option (List SymDecl × List String × List RTCall)
  | [] => some (decls, warnings, [])
  | RTCall.active CallKind.funcCall callee results :: rest =>
    if isCudartCall callee then
      match replaceCallOpWithHipCall decls warnings callee results with
      | none => none
      | some (d2, w2, c2) =>
        match hipWalkFunc d2 w2 rest with
        | none => none
        | some (d3, w3, rest2) => some (d3, w3, c2 :: rest2)
    else
      match hipWalkFunc decls warnings rest with
      | none => none
      | some (d3, w3, rest2) =>
        some (d3, w3, RTCall.active CallKind.funcCall callee results :: rest2)
  | c :: rest =>
    match hipWalkFunc decls warnings rest with
    | none => none
    | some (d3, w3, rest2) => some (d3, w3, c :: rest2)

/-- Embedding of `ConvertCudaRTtoHipRT::runOnOperation` (lines 895-963):
the LLVM-call walk followed by the func-call walk.  (The final
NVVM-barrier-to-ROCDL-barrier walk touches no call operation and no
declaration, so it is invisible at this model's granularity.) -/
def ConvertCudaRTtoHipRTRun (m : RTModule) : Option RTModule :=
  match hipWalkLLVM m.decls m.warnings m.calls with
  | none => none
  | some (d1, w1, cs1) =>
    match hipWalkFunc d1 w1 cs1 with
    | none => none
    | some (d2, w2, cs2) => some ⟨d2, cs2, w2⟩

/-! ## ConvertCudaRTtoGPU -/

/-- Embedding of the per-call handler of `ConvertCudaRTtoGPU::runOnOperation`
(lines 966-983): the name dispatch has only empty branches, so every branch
returns the module unchanged. -/
def convertCudaRTtoGPUReplaceWithOp (m : RTModule) (callee : String) :
    RTModule :=
  if callee = "cudaMemcpy" then m
  else if callee = "cudaMemcpyAsync" then m
  else if callee = "cudaMemcpyToSymbol" then m
  else if callee = "cudaMemset" then m
  else if callee = "cudaMallocHost" then m
  else if callee = "cudaMalloc" then m
  else if callee = "cudaFreeHost" then m
  else if callee = "cudaFree" then m
  else if callee = "cudaDeviceSynchronize" || callee = "cudaThreadSynchronize"
    then m
  else m

/-- Embedding of the walks of `ConvertCudaRTtoGPU::runOnOperation` (lines
984-997): the handler is applied to every call whose callee is a cudart
symbol. -/
def ConvertCudaRTtoGPURun (m : RTModule) : RTModule :=
  m.calls.foldl
    (fun acc c =>
      match c with
      | RTCall.active _ callee _ =>
        if isCudartCall callee then convertCudaRTtoGPUReplaceWithOp acc callee
        else acc
      | _ => acc) m

/-! ### C9: the GPU retargeting pass is the identity -/

/-- Claim C9: the ConvertCudaRTtoGPU pass is an identity transformation:
its per-call handler consists only of empty branches, and the pass leaves
every input module completely unchanged. -/
theorem C9_convert_gpu_identity :
    (∀ (m : RTModule) (callee : String),
      convertCudaRTtoGPUReplaceWithOp m callee = m) ∧
    ∀ m : RTModule, ConvertCudaRTtoGPURun m = m := by
  have hid : ∀ (m : RTModule) (callee : String),
      convertCudaRTtoGPUReplaceWithOp m callee = m := by
    intro m callee
    unfold convertCudaRTtoGPUReplaceWithOp
    split_ifs <;> rfl
  refine ⟨hid, ?_⟩
  intro m
  show List.foldl _ m m.calls = m
  generalize m.calls = cs
  induction cs generalizing m with
  | nil => rfl
  | cons c rest ih =>
    rw [List.foldl_cons]
    cases c with
    | active k callee res =>
      have hacc :
          (if isCudartCall callee then convertCudaRTtoGPUReplaceWithOp m callee
            else m) = m := by
        rw [hid]
        exact ite_self m
      dsimp only
      rw [hacc]
      exact ih m
    | erasedWithSuccess t => exact ih m

/-! ### List helper lemmas for declaration counting and lookup -/

theorem find?_append_left {α : Type} {l1 : List α} (l2 : List α)
    {p : α → Bool} {a : α} (h : l1.find? p = some a) :
    (l1 ++ l2).find? p = some a := by
  induction l1 with
  | nil => simp [List.find?] at h
  | cons x xs ih =>
    rw [List.cons_append]
    by_cases hx : p x
    · rw [List.find?_cons_of_pos _ hx] at h ⊢
      exact h
    · rw [List.find?_cons_of_neg _ (by simpa using hx)] at h ⊢
      exact ih h

theorem find?_append_none {α : Type} {l1 l2 : List α} {p : α → Bool}
    (h : l1.find? p = none) : (l1 ++ l2).find? p = l2.find? p := by
  induction l1 with
  | nil => simp
  | cons x xs ih =>
    rw [List.cons_append]
    by_cases hx : p x
    · rw [List.find?_cons_of_pos _ hx] at h
      exact absurd h (by simp)
    · rw [List.find?_cons_of_neg _ (by simpa using hx)] at h ⊢
      exact ih h

theorem countDeclName_append (a b : List SymDecl) (nm : String) :
    countDeclName (a ++ b) nm = countDeclName a nm + countDeclName b nm := by
  unfold countDeclName
  rw [List.filter_append, List.length_append]

theorem countDeclName_eq_zero_iff (ds : List SymDecl) (nm : String) :
    countDeclName ds nm = 0 ↔ ∀ d ∈ ds, d.name ≠ nm := by
  unfold countDeclName
  rw [List.length_eq_zero, List.filter_eq_nil_iff]
  constructor
  · intro h d hd
    have := h d hd
    simpa using this
  · intro h d hd
    simpa using h d hd

theorem countDeclName_pos_of_mem {ds : List SymDecl} {d : SymDecl}
    (hmem : d ∈ ds) {nm : String} (hname : d.name = nm) :
    1 ≤ countDeclName ds nm := by
  unfold countDeclName
  have : d ∈ ds.filter (fun d => d.name == nm) :=
    List.mem_filter.mpr ⟨hmem, by simp [hname]⟩
  exact List.length_pos.mpr (List.ne_nil_of_mem this)

theorem find?_eq_none_of_countDeclName_zero {ds : List SymDecl} {nm : String}
    (h : countDeclName ds nm = 0) :
    ds.find? (fun d => d.name == nm) = none := by
  apply List.find?_eq_none.mpr
  intro d hd
  have := (countDeclName_eq_zero_iff ds nm).mp h d hd
  simpa using this

theorem lookupSymbolKind_some_facts {ds : List SymDecl} {nm : String}
    {k : SymKind} {d : SymDecl} (h : lookupSymbolKind ds nm k = some d) :
    d ∈ ds ∧ d.name = nm ∧ d.kind = k := by
  unfold lookupSymbolKind at h
  cases hfind : ds.find? (fun d => d.name == nm) with
  | none => rw [hfind] at h; exact absurd h (by simp)
  | some e =>
    rw [hfind] at h
    dsimp only at h
    by_cases hk : e.kind = k
    · rw [if_pos hk] at h
      cases h
      refine ⟨List.mem_of_find?_eq_some hfind, ?_, hk⟩
      have := List.find?_some hfind
      simpa [beq_iff_eq] using this
    · rw [if_neg hk] at h
      exact absurd h (by simp)

theorem lookupSymbolKind_append_left {ds : List SymDecl} (app : List SymDecl)
    {nm : String} {k : SymKind} {d : SymDecl}
    (h : lookupSymbolKind ds nm k = some d) :
    lookupSymbolKind (ds ++ app) nm k = some d := by
  unfold lookupSymbolKind at h ⊢
  cases hfind : ds.find? (fun d => d.name == nm) with
  | none => rw [hfind] at h; exact absurd h (by simp)
  | some e =>
    rw [hfind] at h
    rw [find?_append_left app hfind]
    exact h

theorem lookupSymbolKind_isSome_of_kinds {ds : List SymDecl} {nm : String}
    {k : SymKind} (hpos : 1 ≤ countDeclName ds nm)
    (hk : ∀ d ∈ ds, d.name = nm → d.kind = k) :
    (lookupSymbolKind ds nm k).isSome := by
  have : ∃ d ∈ ds, (fun d => d.name == nm) d := by
    unfold countDeclName at hpos
    have hne : ds.filter (fun d => d.name == nm) ≠ [] := by
      intro hnil
      rw [hnil] at hpos
      simp at hpos
    obtain ⟨d, hd⟩ := List.exists_mem_of_ne_nil _ hne
    exact ⟨d, (List.mem_filter.mp hd).1, (List.mem_filter.mp hd).2⟩
  have hfind : (ds.find? (fun d => d.name == nm)).isSome :=
    List.find?_isSome.mpr this
  cases hf : ds.find? (fun d => d.name == nm) with
  | none => rw [hf] at hfind; simp at hfind
  | some e =>
    have hename : e.name = nm := by
      have := List.find?_some hf
      simpa [beq_iff_eq] using this
    have hekind : e.kind = k := hk e (List.mem_of_find?_eq_some hf) hename
    unfold lookupSymbolKind
    rw [hf]
    dsimp only
    rw [if_pos hekind]
    simp

/-! ### C3: the CUDA-to-HIP vendor rename policy -/

/-- Preconditions under which the HIP conversion pass completes on a call.
A cudart-equivalent `func::CallOp` needs the `func::FuncOp` declaration its
handler asserts, and (for the cloned declaration to be fresh) no
declaration under the hip name yet.  A cudart-equivalent `LLVM::CallOp`
needs the `func::FuncOp` declaration its handler asserts and an
`LLVM::LLVMFuncOp` already present under the hip name: when that is
missing the handler clones the func::FuncOp and `cast`s the clone to
`LLVM::LLVMFuncOp`, which always aborts.  A no-equivalent call of either
kind needs a first result for the success constant. -/
def HipCallOK (base : List SymDecl) : RTCall → Prop
  | RTCall.active CallKind.funcCall callee results =>
      isCudartCall callee = true →
        (isHipCallEquivalent callee = true →
          (lookupSymbolKind base callee SymKind.funcOp).isSome ∧
          countDeclName base (getHipName callee) = 0) ∧
        (isHipCallEquivalent callee = false → results ≠ [])
  | RTCall.active CallKind.llvmCall callee results =>
      isCudartCall callee = true →
        (isHipCallEquivalent callee = true →
          (lookupSymbolKind base callee SymKind.funcOp).isSome ∧
          (lookupSymbolKind base (getHipName callee)
            SymKind.llvmFuncOp).isSome) ∧
        (isHipCallEquivalent callee = false → results ≠ [])
  | RTCall.erasedWithSuccess _ => True

instance hipCallOKDecidable (base : List SymDecl) (c : RTCall) :
    Decidable (HipCallOK base c) := by
  unfold HipCallOK
  cases c with
  | active k callee results => cases k <;> infer_instance
  | erasedWithSuccess t => infer_instance

/-- What the func-call walk does to one `func::CallOp`, stated against the
final module declarations `dsF` and warnings `wsF`: an allow-listed call
with a vendor equivalent is retargeted to `getHipName` of its callee and
exactly one declaration under that new name exists; an allow-listed call
without an equivalent is replaced by a success constant of its first
result type and a warning is emitted; every other call is untouched. -/
def hipFuncRel (dsF : List SymDecl) (wsF : List String) :
    RTCall → RTCall → Prop
  | RTCall.active CallKind.funcCall callee results, c2 =>
      (isCudartCall callee = true →
        (isHipCallEquivalent callee = true →
          c2 = RTCall.active CallKind.funcCall (getHipName callee) results ∧
          countDeclName dsF (getHipName callee) = 1) ∧
        (isHipCallEquivalent callee = false →
          (∃ t ts, results = t :: ts ∧ c2 = RTCall.erasedWithSuccess t) ∧
          callee ∈ wsF)) ∧
      (isCudartCall callee = false →
        c2 = RTCall.active CallKind.funcCall callee results)
  | c, c2 => c2 = c

/-- What the LLVM-call walk does to one `LLVM::CallOp`, stated against the
final warnings `wsF`: an allow-listed call with a vendor equivalent is
retargeted to `getHipName` of its callee (the walk completes only when the
hip-named LLVM declaration already exists, so no declaration is created);
an allow-listed call without an equivalent is replaced by a success
constant and a warning is emitted; every other call is untouched. -/
def hipLLVMRel (ds0 : List SymDecl) (wsF : List String) :
    RTCall → RTCall → Prop
  | RTCall.active CallKind.llvmCall callee results, c2 =>
      (isCudartCall callee = true →
        (isHipCallEquivalent callee = true →
          c2 = RTCall.active CallKind.llvmCall (getHipName callee) results ∧
          1 ≤ countDeclName ds0 (getHipName callee)) ∧
        (isHipCallEquivalent callee = false →
          (∃ t ts, results = t :: ts ∧ c2 = RTCall.erasedWithSuccess t) ∧
          callee ∈ wsF)) ∧
      (isCudartCall callee = false →
        c2 = RTCall.active CallKind.llvmCall callee results)
  | c, c2 => c2 = c

/-- What the whole HIP pass does to one call, stated against the original
declarations `ds0`, the final declarations `dsF` and the final warnings
`wsF`: a func-dialect allow-listed call with a vendor equivalent is
renamed and exactly one declaration under the new name remains; an
LLVM-dialect allow-listed call with a vendor equivalent is renamed with no
declaration created under the new name (the pass completes only because
one already existed); an allow-listed call without an equivalent, of
either dialect, becomes a success constant with a warning; every other
call is untouched. -/
def hipRel (ds0 dsF : List SymDecl) (wsF : List String) :
    RTCall → RTCall → Prop
  | RTCall.active CallKind.funcCall callee results, c2 =>
      (isCudartCall callee = true →
        (isHipCallEquivalent callee = true →
          c2 = RTCall.active CallKind.funcCall (getHipName callee) results ∧
          countDeclName dsF (getHipName callee) = 1) ∧
        (isHipCallEquivalent callee = false →
          (∃ t ts, results = t :: ts ∧ c2 = RTCall.erasedWithSuccess t) ∧
          callee ∈ wsF)) ∧
      (isCudartCall callee = false →
        c2 = RTCall.active CallKind.funcCall callee results)
  | RTCall.active CallKind.llvmCall callee results, c2 =>
      (isCudartCall callee = true →
        (isHipCallEquivalent callee = true →
          c2 = RTCall.active CallKind.llvmCall (getHipName callee) results ∧
          countDeclName dsF (getHipName callee) =
            countDeclName ds0 (getHipName callee)) ∧
        (isHipCallEquivalent callee = false →
          (∃ t ts, results = t :: ts ∧ c2 = RTCall.erasedWithSuccess t) ∧
          callee ∈ wsF)) ∧
      (isCudartCall callee = false →
        c2 = RTCall.active CallKind.llvmCall callee results)
  | RTCall.erasedWithSuccess t, c2 => c2 = RTCall.erasedWithSuccess t

theorem replaceHip_equiv_found {decls : List SymDecl} {ws : List String}
    {callee : String} {results : List MTy} {d : SymDecl}
    (hequiv : isHipCallEquivalent callee = true)
    (hlook : lookupSymbolKind decls callee SymKind.funcOp = some d) :
    replaceCallOpWithHipCall decls ws callee results =
      some
        ((if (lookupSymbolKind decls (getHipName callee) SymKind.funcOp).isSome
            then decls
            else decls ++ [⟨getHipName callee, SymKind.funcOp⟩]),
          ws, RTCall.active CallKind.funcCall (getHipName callee) results) := by
  unfold replaceCallOpWithHipCall
  rw [if_pos hequiv, hlook]

theorem replaceHip_nonequiv {decls : List SymDecl} {ws : List String}
    {callee : String} {t : MTy} {ts : List MTy}
    (hequiv : isHipCallEquivalent callee = false) :
    replaceCallOpWithHipCall decls ws callee (t :: ts) =
      some (decls, ws ++ [callee], RTCall.erasedWithSuccess t) := by
  unfold replaceCallOpWithHipCall
  rw [if_neg (by simp [hequiv])]
  rfl

theorem hipWalkLLVM_id :
    ∀ (cs : List RTCall) (ds : List SymDecl) (ws : List String),
    (∀ c ∈ cs, ∀ callee results,
      c = RTCall.active CallKind.llvmCall callee results →
      isCudartCall callee = false) →
    hipWalkLLVM ds ws cs = some (ds, ws, cs) := by
  intro cs
  induction cs with
  | nil => intro ds ws _; rfl
  | cons c rest ih =>
    intro ds ws h
    have hrest : hipWalkLLVM ds ws rest = some (ds, ws, rest) :=
      ih ds ws (fun c2 hc2 callee results he =>
        h c2 (List.mem_cons_of_mem _ hc2) callee results he)
    cases c with
    | active k callee results =>
      cases k with
      | llvmCall =>
        have hfalse : isCudartCall callee = false :=
          h _ (List.mem_cons_self _ _) callee results rfl
        simp only [hipWalkLLVM, hfalse, Bool.false_eq_true, if_false, hrest]
      | funcCall =>
        simp only [hipWalkLLVM, hrest]
    | erasedWithSuccess t =>
      simp only [hipWalkLLVM, hrest]


theorem hipWalkFunc_spec (base : List SymDecl) :
    ∀ (cs : List RTCall) (app : List SymDecl) (ws : List String),
    (∀ d ∈ app, d.kind = SymKind.funcOp) →
    (∀ nm, countDeclName base nm = 0 → countDeclName app nm ≤ 1) →
    (∀ d ∈ app, countDeclName base d.name = 0) →
    (∀ c ∈ cs, ∀ callee results,
      c = RTCall.active CallKind.funcCall callee results →
      HipCallOK base c) →
    ∃ app2 ws2 cs2,
      hipWalkFunc (base ++ app) ws cs =
        some (base ++ app2, ws ++ ws2, cs2) ∧
      (∃ t, app2 = app ++ t) ∧
      (∀ d ∈ app2, d.kind = SymKind.funcOp) ∧
      (∀ nm, countDeclName base nm = 0 → countDeclName app2 nm ≤ 1) ∧
      (∀ d ∈ app2, countDeclName base d.name = 0) ∧
      List.Forall₂ (hipFuncRel (base ++ app2) (ws ++ ws2)) cs cs2 := by
  intro cs
  induction cs with
  | nil =>
    intro app ws h1 h2 h3 _
    exact ⟨app, [], [], by simp [hipWalkFunc], ⟨[], by simp⟩, h1, h2, h3,
      by simp [List.Forall₂.nil]⟩
  | cons c rest ih =>
    intro app ws h1 h2 h3 hcs
    have hcsrest : ∀ c2 ∈ rest, ∀ callee results,
        c2 = RTCall.active CallKind.funcCall callee results →
        HipCallOK base c2 :=
      fun c2 hc2 => hcs c2 (List.mem_cons_of_mem _ hc2)
    cases c with
    | erasedWithSuccess t =>
      obtain ⟨app2, ws2, cs2, heq, hext, k1, k2, k3, hrel⟩ :=
        ih app ws h1 h2 h3 hcsrest
      refine ⟨app2, ws2, RTCall.erasedWithSuccess t :: cs2, ?_, hext, k1, k2,
        k3, ?_⟩
      · simp only [hipWalkFunc, heq]
      · exact List.Forall₂.cons rfl hrel
    | active k callee results =>
      cases k with
      | llvmCall =>
        obtain ⟨app2, ws2, cs2, heq, hext, k1, k2, k3, hrel⟩ :=
          ih app ws h1 h2 h3 hcsrest
        refine ⟨app2, ws2,
          RTCall.active CallKind.llvmCall callee results :: cs2, ?_, hext, k1,
          k2, k3, ?_⟩
        · simp only [hipWalkFunc, heq]
        · exact List.Forall₂.cons rfl hrel
      | funcCall =>
        by_cases hcud : isCudartCall callee = true
        · have hOK := hcs _ (List.mem_cons_self _ _) callee results rfl
          unfold HipCallOK at hOK
          obtain ⟨hOKeq, hOKne⟩ := hOK hcud
          by_cases hequiv : isHipCallEquivalent callee = true
          · -- vendor-equivalent allow-listed call: retarget to the hip name
            obtain ⟨hlookB, hhip0⟩ := hOKeq hequiv
            obtain ⟨d, hd⟩ := Option.isSome_iff_exists.mp hlookB
            have hlookCur :
                lookupSymbolKind (base ++ app) callee SymKind.funcOp = some d :=
              lookupSymbolKind_append_left app hd
            by_cases hpre : (lookupSymbolKind (base ++ app) (getHipName callee)
                SymKind.funcOp).isSome = true
            · -- hip-named declaration already present: no clone
              have hge1 : 1 ≤ countDeclName app (getHipName callee) := by
                obtain ⟨e, he⟩ := Option.isSome_iff_exists.mp hpre
                obtain ⟨hemem, hename, _⟩ := lookupSymbolKind_some_facts he
                rcases List.mem_append.mp hemem with hb | ha
                · exact absurd ((countDeclName_eq_zero_iff base _).mp hhip0
                    e hb hename) (by simp)
                · exact countDeclName_pos_of_mem ha hename
              obtain ⟨app2, ws2, cs2, heq, ⟨t2, ht2⟩, k1, k2, k3, hrel⟩ :=
                ih app ws h1 h2 h3 hcsrest
              refine ⟨app2, ws2,
                RTCall.active CallKind.funcCall (getHipName callee) results
                  :: cs2, ?_, ⟨t2, ht2⟩, k1, k2, k3, ?_⟩
              · simp only [hipWalkFunc, hcud, if_true,
                  replaceHip_equiv_found hequiv hlookCur, if_pos hpre, heq]
              · refine List.Forall₂.cons ?_ hrel
                refine ⟨fun _ => ⟨fun _ => ⟨rfl, ?_⟩, fun hne => ?_⟩,
                  fun hne => ?_⟩
                · have hle : countDeclName app2 (getHipName callee) ≤ 1 :=
                    k2 _ hhip0
                  have hmono : countDeclName app (getHipName callee) ≤
                      countDeclName app2 (getHipName callee) := by
                    rw [ht2, countDeclName_append]
                    omega
                  have hone : countDeclName app2 (getHipName callee) = 1 := by
                    omega
                  rw [countDeclName_append, hhip0, hone]
                · rw [hequiv] at hne
                  exact absurd hne (by simp)
                · rw [hcud] at hne
                  exact absurd hne (by simp)
            · -- hip-named declaration missing: clone it at the module end
              have happzero : countDeclName app (getHipName callee) = 0 := by
                by_contra hnz
                have hge : 1 ≤ countDeclName app (getHipName callee) :=
                  Nat.pos_of_ne_zero hnz
                have hgecur : 1 ≤ countDeclName (base ++ app)
                    (getHipName callee) := by
                  rw [countDeclName_append]
                  omega
                have hkinds : ∀ e ∈ base ++ app, e.name = getHipName callee →
                    e.kind = SymKind.funcOp := by
                  intro e hemem hename
                  rcases List.mem_append.mp hemem with hb | ha
                  · exact absurd ((countDeclName_eq_zero_iff base _).mp hhip0
                      e hb hename) (by simp)
                  · exact h1 e ha
                exact hpre (lookupSymbolKind_isSome_of_kinds hgecur hkinds)
              have h1' : ∀ e ∈ app ++ [⟨getHipName callee, SymKind.funcOp⟩],
                  e.kind = SymKind.funcOp := by
                intro e he
                rcases List.mem_append.mp he with ha | hx
                · exact h1 e ha
                · rw [List.mem_singleton.mp hx]
              have h2' : ∀ nm, countDeclName base nm = 0 →
                  countDeclName (app ++ [⟨getHipName callee, SymKind.funcOp⟩])
                    nm ≤ 1 := by
                intro nm hnm
                rw [countDeclName_append]
                by_cases hnmhip : nm = getHipName callee
                · have hx : countDeclName
                      [(⟨getHipName callee, SymKind.funcOp⟩ : SymDecl)] nm
                      = 1 := by
                    simp [countDeclName, hnmhip]
                  rw [hx, hnmhip, happzero]
                · have hx : countDeclName
                      [(⟨getHipName callee, SymKind.funcOp⟩ : SymDecl)] nm
                      = 0 := by
                    simp [countDeclName]
                    intro hcontra
                    exact absurd hcontra.symm hnmhip
                  have hb := h2 nm hnm
                  omega
              have h3' : ∀ e ∈ app ++ [⟨getHipName callee, SymKind.funcOp⟩],
                  countDeclName base e.name = 0 := by
                intro e he
                rcases List.mem_append.mp he with ha | hx
                · exact h3 e ha
                · rw [List.mem_singleton.mp hx]
                  exact hhip0
              obtain ⟨app2, ws2, cs2, heq, ⟨t2, ht2⟩, k1, k2, k3, hrel⟩ :=
                ih (app ++ [⟨getHipName callee, SymKind.funcOp⟩]) ws h1' h2'
                  h3' hcsrest
              refine ⟨app2, ws2,
                RTCall.active CallKind.funcCall (getHipName callee) results
                  :: cs2, ?_,
                ⟨⟨getHipName callee, SymKind.funcOp⟩ :: t2, by
                  rw [ht2, List.append_assoc]
                  rfl⟩, k1, k2, k3, ?_⟩
              · rw [← List.append_assoc] at heq
                simp only [hipWalkFunc, hcud, if_true,
                  replaceHip_equiv_found hequiv hlookCur, if_neg hpre, heq]
              · refine List.Forall₂.cons ?_ hrel
                refine ⟨fun _ => ⟨fun _ => ⟨rfl, ?_⟩, fun hne => ?_⟩,
                  fun hne => ?_⟩
                · have hle : countDeclName app2 (getHipName callee) ≤ 1 :=
                    k2 _ hhip0
                  have happ1 : countDeclName
                      (app ++ [⟨getHipName callee, SymKind.funcOp⟩])
                      (getHipName callee) = 1 := by
                    rw [countDeclName_append, happzero]
                    simp [countDeclName]
                  have hmono : (1 : Nat) ≤
                      countDeclName app2 (getHipName callee) := by
                    rw [ht2, countDeclName_append, happ1]
                    omega
                  have hone : countDeclName app2 (getHipName callee) = 1 := by
                    omega
                  rw [countDeclName_append, hhip0, hone]
                · rw [hequiv] at hne
                  exact absurd hne (by simp)
                · rw [hcud] at hne
                  exact absurd hne (by simp)
          · -- allow-listed name with no vendor equivalent
            have hef : isHipCallEquivalent callee = false := by
              simpa using hequiv
            have hres : results ≠ [] := hOKne hef
            cases results with
            | nil => exact absurd rfl hres
            | cons t ts =>
              obtain ⟨app2, ws2, cs2, heq, hext, k1, k2, k3, hrel⟩ :=
                ih app (ws ++ [callee]) h1 h2 h3 hcsrest
              rw [List.append_assoc] at heq hrel
              refine ⟨app2, [callee] ++ ws2,
                RTCall.erasedWithSuccess t :: cs2, ?_, hext, k1, k2, k3, ?_⟩
              · simp only [hipWalkFunc, hcud, if_true,
                  replaceHip_nonequiv hef, heq]
              · refine List.Forall₂.cons ?_ hrel
                refine ⟨fun _ => ⟨fun heqv => ?_, fun _ => ?_⟩, fun hne => ?_⟩
                · rw [hef] at heqv
                  exact absurd heqv (by simp)
                · exact ⟨⟨t, ts, rfl, rfl⟩, by simp⟩
                · rw [hcud] at hne
                  exact absurd hne (by simp)
        · -- callee not in the cudart allow-list: untouched
          have hcf : isCudartCall callee = false := by
            simpa using hcud
          obtain ⟨app2, ws2, cs2, heq, hext, k1, k2, k3, hrel⟩ :=
            ih app ws h1 h2 h3 hcsrest
          refine ⟨app2, ws2,
            RTCall.active CallKind.funcCall callee results :: cs2, ?_, hext,
            k1, k2, k3, ?_⟩
          · simp only [hipWalkFunc, hcf, Bool.false_eq_true, if_false, heq]
          · refine List.Forall₂.cons ?_ hrel
            refine ⟨fun hne => ?_, fun _ => rfl⟩
            rw [hcf] at hne
            exact absurd hne (by simp)

theorem countDeclName_pos_exists {ds : List SymDecl} {nm : String}
    (h : countDeclName ds nm ≠ 0) : ∃ d ∈ ds, d.name = nm := by
  by_contra hcon
  push_neg at hcon
  exact h ((countDeclName_eq_zero_iff ds nm).mpr hcon)

theorem forall2_trans {α β γ : Type} {r : α → β → Prop} {s : β → γ → Prop}
    {t : α → γ → Prop} (h : ∀ a b c, r a b → s b c → t a c) :
    ∀ {l1 : List α} {l2 : List β} {l3 : List γ},
      List.Forall₂ r l1 l2 → List.Forall₂ s l2 l3 →
      List.Forall₂ t l1 l3 := by
  intro l1 l2 l3 h1
  induction h1 generalizing l3 with
  | nil =>
    intro h2
    cases h2
    exact List.Forall₂.nil
  | cons hab hrest ih =>
    intro h2
    cases h2 with
    | cons hbc hrest2 => exact List.Forall₂.cons (h _ _ _ hab hbc) (ih hrest2)

theorem forall2_mem_right {α β : Type} {r : α → β → Prop} :
    ∀ {l1 : List α} {l2 : List β}, List.Forall₂ r l1 l2 →
      ∀ b ∈ l2, ∃ a ∈ l1, r a b := by
  intro l1 l2 h
  induction h with
  | nil => intro b hb; exact absurd hb (List.not_mem_nil b)
  | cons hab hrest ih =>
    intro b hb
    rcases List.mem_cons.mp hb with rfl | hb2
    · exact ⟨_, List.mem_cons_self _ _, hab⟩
    · obtain ⟨a, ha, har⟩ := ih b hb2
      exact ⟨a, List.mem_cons_of_mem _ ha, har⟩

theorem replaceHipLLVM_equiv {decls : List SymDecl} {ws : List String}
    {callee : String} {results : List MTy} {d : SymDecl}
    (hequiv : isHipCallEquivalent callee = true)
    (hlook : lookupSymbolKind decls callee SymKind.funcOp = some d)
    (hhip : (lookupSymbolKind decls (getHipName callee)
      SymKind.llvmFuncOp).isSome = true) :
    replaceLLVMCallOpWithHipCall decls ws callee results =
      some (decls, ws,
        RTCall.active CallKind.llvmCall (getHipName callee) results) := by
  unfold replaceLLVMCallOpWithHipCall
  rw [if_pos hequiv, hlook]
  dsimp only
  rw [if_pos hhip]

theorem replaceHipLLVM_nonequiv {decls : List SymDecl} {ws : List String}
    {callee : String} {t : MTy} {ts : List MTy}
    (hequiv : isHipCallEquivalent callee = false) :
    replaceLLVMCallOpWithHipCall decls ws callee (t :: ts) =
      some (decls, ws ++ [callee], RTCall.erasedWithSuccess t) := by
  unfold replaceLLVMCallOpWithHipCall
  rw [if_neg (by simp [hequiv])]
  rfl

theorem hipWalkLLVM_spec :
    ∀ (cs : List RTCall) (ds : List SymDecl) (ws : List String),
    (∀ c ∈ cs, ∀ callee results,
      c = RTCall.active CallKind.llvmCall callee results →
      HipCallOK ds c) →
    ∃ ws2 cs2, hipWalkLLVM ds ws cs = some (ds, ws ++ ws2, cs2) ∧
      List.Forall₂ (hipLLVMRel ds (ws ++ ws2)) cs cs2 := by
  intro cs
  induction cs with
  | nil =>
    intro ds ws _
    exact ⟨[], [], by simp [hipWalkLLVM], List.Forall₂.nil⟩
  | cons c rest ih =>
    intro ds ws hcs
    have hcsrest : ∀ c2 ∈ rest, ∀ callee results,
        c2 = RTCall.active CallKind.llvmCall callee results →
        HipCallOK ds c2 :=
      fun c2 hc2 => hcs c2 (List.mem_cons_of_mem _ hc2)
    cases c with
    | erasedWithSuccess t =>
      obtain ⟨ws2, cs2, heq, hrel⟩ := ih ds ws hcsrest
      refine ⟨ws2, RTCall.erasedWithSuccess t :: cs2, ?_, ?_⟩
      · simp only [hipWalkLLVM, heq]
      · exact List.Forall₂.cons rfl hrel
    | active k callee results =>
      cases k with
      | funcCall =>
        obtain ⟨ws2, cs2, heq, hrel⟩ := ih ds ws hcsrest
        refine ⟨ws2, RTCall.active CallKind.funcCall callee results :: cs2,
          ?_, ?_⟩
        · simp only [hipWalkLLVM, heq]
        · exact List.Forall₂.cons rfl hrel
      | llvmCall =>
        by_cases hcud : isCudartCall callee = true
        · have hOK := hcs _ (List.mem_cons_self _ _) callee results rfl
          unfold HipCallOK at hOK
          obtain ⟨hOKeq, hOKne⟩ := hOK hcud
          by_cases hequiv : isHipCallEquivalent callee = true
          · obtain ⟨hlookB, hhipB⟩ := hOKeq hequiv
            obtain ⟨d, hd⟩ := Option.isSome_iff_exists.mp hlookB
            have hpos : 1 ≤ countDeclName ds (getHipName callee) := by
              obtain ⟨e, he⟩ := Option.isSome_iff_exists.mp hhipB
              obtain ⟨hemem, hename, _⟩ := lookupSymbolKind_some_facts he
              exact countDeclName_pos_of_mem hemem hename
            obtain ⟨ws2, cs2, heq, hrel⟩ := ih ds ws hcsrest
            refine ⟨ws2,
              RTCall.active CallKind.llvmCall (getHipName callee) results
                :: cs2, ?_, ?_⟩
            · simp only [hipWalkLLVM, hcud, if_true,
                replaceHipLLVM_equiv hequiv hd hhipB, heq]
            · refine List.Forall₂.cons ?_ hrel
              refine ⟨fun _ => ⟨fun _ => ⟨rfl, hpos⟩, fun hne => ?_⟩,
                fun hne => ?_⟩
              · rw [hequiv] at hne
                exact absurd hne (by simp)
              · rw [hcud] at hne
                exact absurd hne (by simp)
          · have hef : isHipCallEquivalent callee = false := by
              simpa using hequiv
            have hres : results ≠ [] := hOKne hef
            cases results with
            | nil => exact absurd rfl hres
            | cons t ts =>
              obtain ⟨ws2, cs2, heq, hrel⟩ := ih ds (ws ++ [callee]) hcsrest
              rw [List.append_assoc] at heq hrel
              refine ⟨[callee] ++ ws2,
                RTCall.erasedWithSuccess t :: cs2, ?_, ?_⟩
              · simp only [hipWalkLLVM, hcud, if_true,
                  replaceHipLLVM_nonequiv hef, heq]
              · refine List.Forall₂.cons ?_ hrel
                refine ⟨fun _ => ⟨fun heqv => ?_, fun _ => ?_⟩,
                  fun hne => ?_⟩
                · rw [hef] at heqv
                  exact absurd heqv (by simp)
                · exact ⟨⟨t, ts, rfl, rfl⟩, by simp⟩
                · rw [hcud] at hne
                  exact absurd hne (by simp)
        · have hcf : isCudartCall callee = false := by simpa using hcud
          obtain ⟨ws2, cs2, heq, hrel⟩ := ih ds ws hcsrest
          refine ⟨ws2,
            RTCall.active CallKind.llvmCall callee results :: cs2, ?_, ?_⟩
          · simp only [hipWalkLLVM, hcf, Bool.false_eq_true, if_false, heq]
          · refine List.Forall₂.cons ?_ hrel
            refine ⟨fun hne => ?_, fun _ => rfl⟩
            rw [hcf] at hne
            exact absurd hne (by simp)

def C3llvmModule : RTModule :=
  ⟨[⟨"cudaMalloc", SymKind.funcOp⟩],
    [RTCall.active CallKind.llvmCall "cudaMalloc" [MTy.int 32]], []⟩

/-- C3 counterexample: an LLVM-dialect call to the allow-listed,
vendor-equivalent cudaMalloc, with the callee's declaration present but no
hip-named LLVM declaration, is not renamed: the handler at lines 918-939
clones the func::FuncOp and `cast`s the clone to LLVM::LLVMFuncOp, which
always aborts, so the pass does not complete (modelled as `none`) —
contradicting the claimed rename of every allow-listed call with a vendor
equivalent. -/
theorem C3_counterexample :
    isCudartCall "cudaMalloc" = true ∧
      isHipCallEquivalent "cudaMalloc" = true ∧
      ConvertCudaRTtoHipRTRun C3llvmModule = none := by
  decide

/-- Claim C3 (amended): in the CUDA-to-HIP policy, every allow-listed
func-dialect call with a vendor equivalent has its callee renamed by the
fixed substitution `getHipName` (cudaMalloc becomes hipMalloc; the single
hard-coded exception cudaThreadSynchronize becomes hipDeviceSynchronize)
and a cloned declaration under the new name exists exactly once after the
pass; an allow-listed LLVM-dialect call with a vendor equivalent is
renamed only when an LLVM declaration under the new name already exists
(otherwise the clone-and-cast aborts, see `C3_counterexample`), and then
no declaration is created; every allow-listed call without an equivalent,
of either dialect, is replaced by a success constant with a warning and no
renamed declaration. -/
theorem C3_cuda_to_hip_rename (m : RTModule)
    (hcs : ∀ c ∈ m.calls, HipCallOK m.decls c) :
    getHipName "cudaMalloc" = "hipMalloc" ∧
    getHipName "cudaThreadSynchronize" = "hipDeviceSynchronize" ∧
    ∃ m2, ConvertCudaRTtoHipRTRun m = some m2 ∧
      List.Forall₂ (hipRel m.decls m2.decls m2.warnings)
        m.calls m2.calls := by
  refine ⟨by decide, by decide, ?_⟩
  obtain ⟨ws1, mid, hllvm, hrel1⟩ :=
    hipWalkLLVM_spec m.calls m.decls m.warnings
      (fun c hc _ _ _ => hcs c hc)
  have hmidOK : ∀ c ∈ mid, ∀ callee results,
      c = RTCall.active CallKind.funcCall callee results →
      HipCallOK m.decls c := by
    intro c hc callee results heqc
    obtain ⟨a, ha, har⟩ := forall2_mem_right hrel1 c hc
    cases a with
    | active k acallee aresults =>
      cases k with
      | funcCall =>
        have heq2 : c = RTCall.active CallKind.funcCall acallee aresults :=
          har
        rw [heq2]
        exact hcs _ ha
      | llvmCall =>
        by_cases hcud : isCudartCall acallee = true
        · by_cases heqv : isHipCallEquivalent acallee = true
          · have hc2 := (har.1 hcud).1 heqv
            rw [heqc] at hc2
            simp at hc2
          · obtain ⟨⟨t, ts, _, hc2⟩, _⟩ :=
              (har.1 hcud).2 (by simpa using heqv)
            rw [heqc] at hc2
            simp at hc2
        · have hc2 := har.2 (by simpa using hcud)
          rw [heqc] at hc2
          simp at hc2
    | erasedWithSuccess t =>
      have heq2 : c = RTCall.erasedWithSuccess t := har
      rw [heqc] at heq2
      simp at heq2
  obtain ⟨app2, ws2, cs2, heq, hext, k1, k2, k3, hrel2⟩ :=
    hipWalkFunc_spec m.decls mid [] (m.warnings ++ ws1) (by simp)
      (fun nm _ => by simp [countDeclName]) (by simp) hmidOK
  rw [List.append_nil] at heq
  refine ⟨⟨m.decls ++ app2, cs2, (m.warnings ++ ws1) ++ ws2⟩, ?_, ?_⟩
  · unfold ConvertCudaRTtoHipRTRun
    rw [hllvm]
    dsimp only
    rw [heq]
  · dsimp only
    refine forall2_trans ?_ hrel1 hrel2
    intro a b c hab hbc
    cases a with
    | erasedWithSuccess t =>
      have hba : b = RTCall.erasedWithSuccess t := hab
      rw [hba] at hbc
      exact hbc
    | active k callee results =>
      cases k with
      | funcCall =>
        have hba : b = RTCall.active CallKind.funcCall callee results := hab
        rw [hba] at hbc
        exact hbc
      | llvmCall =>
        refine ⟨fun hcud => ⟨fun heqv => ?_, fun hne => ?_⟩,
          fun hnc => ?_⟩
        · obtain ⟨hbeq, hpos⟩ := (hab.1 hcud).1 heqv
          rw [hbeq] at hbc
          have hcb : c =
              RTCall.active CallKind.llvmCall (getHipName callee) results :=
            hbc
          refine ⟨hcb, ?_⟩
          have happ0 : countDeclName app2 (getHipName callee) = 0 := by
            by_contra hnz
            obtain ⟨d, hd, hdn⟩ := countDeclName_pos_exists hnz
            have hzero := k3 d hd
            rw [hdn] at hzero
            omega
          rw [countDeclName_append, happ0]
          omega
        · obtain ⟨⟨t, ts, hres, hbeq⟩, hwmem⟩ := (hab.1 hcud).2 hne
          rw [hbeq] at hbc
          have hcb : c = RTCall.erasedWithSuccess t := hbc
          refine ⟨⟨t, ts, hres, hcb⟩, ?_⟩
          exact List.mem_append.mpr (Or.inl hwmem)
        · have hbeq : b = RTCall.active CallKind.llvmCall callee results :=
            hab.2 hnc
          rw [hbeq] at hbc
          exact hbc

def C3witnessModule : RTModule :=
  ⟨[⟨"cudaMalloc", SymKind.funcOp⟩,
      ⟨"cudaGetDeviceProperties", SymKind.funcOp⟩,
      ⟨"cudaFree", SymKind.funcOp⟩,
      ⟨"hipFree", SymKind.llvmFuncOp⟩],
    [RTCall.active CallKind.funcCall "cudaMalloc" [MTy.int 32],
      RTCall.active CallKind.funcCall "cudaGetDeviceProperties"
        [MTy.int 32],
      RTCall.active CallKind.llvmCall "cudaFree" [MTy.int 32],
      RTCall.active CallKind.llvmCall "cudaGetDeviceProperties"
        [MTy.int 32]], []⟩

/-- Witness for C3 on a module holding func-dialect cudaMalloc and
cudaGetDeviceProperties calls and LLVM-dialect cudaFree (with the hipFree
LLVM declaration already present) and cudaGetDeviceProperties calls. -/
theorem C3_cuda_to_hip_rename_witness :
    getHipName "cudaMalloc" = "hipMalloc" ∧
    getHipName "cudaThreadSynchronize" = "hipDeviceSynchronize" ∧
    ∃ m2, ConvertCudaRTtoHipRTRun C3witnessModule = some m2 ∧
      List.Forall₂ (hipRel C3witnessModule.decls m2.decls m2.warnings)
        C3witnessModule.calls m2.calls :=
  C3_cuda_to_hip_rename C3witnessModule (by decide)

/-! ## ConvertCudaRTtoCPU: op-level model

The CPU retargeting policy (lines 705-854) rewrites a matched call into a
short straight-line sequence of newly built operations; we model SSA values
as typed identifiers and the rewrite of one call as the list of operations
now standing at the call site, the substitution applied by
`replaceAllUsesWith`, the updated declaration list and the next fresh value
id. -/

structure TypedVal where
  id : Nat
  ty : MTy
deriving DecidableEq, Repr

inductive MOp where
  | callOp (kind : CallKind) (callee : Option String)
      (operands : List TypedVal) (results : List TypedVal)
  | constantIntOp (result : TypedVal) (value : Int)
  | memref2PointerOp (result : TypedVal) (operand : TypedVal)
  | llvmMemcpyOp (dst src len isVolatile : TypedVal)
  | llvmMemsetOp (dst val len isVolatile : TypedVal)
  | llvmGEPOp (result : TypedVal) (base : TypedVal) (indices : List TypedVal)
  | truncIOp (result : TypedVal) (operand : TypedVal)
  | extUIOp (result : TypedVal) (operand : TypedVal)
  | llvmStoreOp (value ptr : TypedVal)
  | genericOp (code : Nat) (operands : List TypedVal)
deriving DecidableEq, Repr

def isMemrefTy : MTy → Bool
  | MTy.memref _ _ => true
  | _ => false

/-- The `dyn_cast<MemRefType>` guard used on the dst/src/memset operands
(e.g. lines 718-724): a structured-memory operand is wrapped in a
`polygeist::Memref2PointerOp` producing a raw pointer with the same element
type and memory space; any other operand is used as is. -/
def memrefToPointer (fresh : Nat) (v : TypedVal) :
    TypedVal × List MOp × Nat :=
  match v.ty with
  | MTy.memref elem space =>
    (⟨fresh, MTy.llvmPtr elem space⟩,
      [MOp.memref2PointerOp ⟨fresh, MTy.llvmPtr elem space⟩ v], fresh + 1)
  | _ => (v, [], fresh)

structure CPUReplaceResult where
  decls : List SymDecl
  ops : List MOp
  subst : List (Nat × Nat)
  fresh : Nat
deriving DecidableEq, Repr

/-- The names matched by the dispatch chain of the CPU policy's `replace`
lambda (lines 714, 739, 767, 787, 804, 817-818, 828-829). -/
def cpuMatchedNames : List String :=
  ["cudaMemcpy", "cudaMemcpyAsync", "cudaMemcpyToSymbol", "cudaMemset",
    "cudaMalloc", "cudaMallocHost", "cudaFree", "cudaFreeHost",
    "cudaDeviceSynchronize", "cudaThreadSynchronize", "cudaGetLastError",
    "cudaPeekAtLastError"]

/-- Embedding of the `replace` lambda of `ConvertCudaRTtoCPU::runOnOperation`
(lines 712-838).  Out-of-bounds operand/result accesses, a
`replaceAllUsesWith` with mismatched result counts, and the
`cast<IntegerType>` failures are modelled as `none` (the code has no
guards and would abort).  An unmatched callee falls through the whole
chain: the call is left in place, nothing else changes. -/
def cudaRTtoCPUReplace (decls : List SymDecl) (fresh : Nat) (callee : String)
    (kind : CallKind) (operands : List TypedVal) (results : List TypedVal) :
    Option CPUReplaceResult :=
  if callee = "cudaMemcpy" || callee = "cudaMemcpyAsync" then
    match results, operands[0]?, operands[1]?, operands[2]? with
    | [r0], some dst, some src, some len =>
      let falsev : TypedVal := ⟨fresh, MTy.int 1⟩
      let dconv := memrefToPointer (fresh + 1) dst
      let sconv := memrefToPointer dconv.2.2 src
      let zero : TypedVal := ⟨sconv.2.2, r0.ty⟩
      some ⟨decls,
        [MOp.constantIntOp falsev 0] ++ dconv.2.1 ++ sconv.2.1 ++
          [MOp.llvmMemcpyOp dconv.1 sconv.1 len falsev,
            MOp.constantIntOp zero 0],
        [(r0.id, zero.id)], sconv.2.2 + 1⟩
    | _, _, _, _ => none
  else if callee = "cudaMemcpyToSymbol" then
    match results, operands[0]?, operands[1]?, operands[2]?, operands[3]? with
    | [r0], some dst, some src, some len, some off =>
      let falsev : TypedVal := ⟨fresh, MTy.int 1⟩
      let dconv := memrefToPointer (fresh + 1) dst
      let sconv := memrefToPointer dconv.2.2 src
      let gep : TypedVal := ⟨sconv.2.2, dconv.1.ty⟩
      let zero : TypedVal := ⟨sconv.2.2 + 1, r0.ty⟩
      some ⟨decls,
        [MOp.constantIntOp falsev 0] ++ dconv.2.1 ++ sconv.2.1 ++
          [MOp.llvmGEPOp gep dconv.1 [off],
            MOp.llvmMemcpyOp gep sconv.1 len falsev,
            MOp.constantIntOp zero 0],
        [(r0.id, zero.id)], sconv.2.2 + 2⟩
    | _, _, _, _, _ => none
  else if callee = "cudaMemset" then
    match results, operands[0]?, operands[1]?, operands[2]? with
    | [r0], some dst, some value, some len =>
      let falsev : TypedVal := ⟨fresh, MTy.int 1⟩
      let dconv := memrefToPointer (fresh + 1) dst
      let tr : TypedVal := ⟨dconv.2.2, MTy.int 8⟩
      let zero : TypedVal := ⟨dconv.2.2 + 1, r0.ty⟩
      some ⟨decls,
        [MOp.constantIntOp falsev 0] ++ dconv.2.1 ++
          [MOp.truncIOp tr value, MOp.llvmMemsetOp dconv.1 tr len falsev,
            MOp.constantIntOp zero 0],
        [(r0.id, zero.id)], dconv.2.2 + 2⟩
    | _, _, _, _ => none
  else if callee = "cudaMalloc" || callee = "cudaMallocHost" then
    match results, operands[0]?, operands[1]? with
    | [r0], some outp, some szv =>
      match r0.ty, szv.ty with
      | MTy.int w0, MTy.int w =>
        let ext := if w < 64 then
            ((⟨fresh, MTy.int 64⟩ : TypedVal),
              [MOp.extUIOp ⟨fresh, MTy.int 64⟩ szv], fresh + 1)
          else (szv, [], fresh)
        let mall := callMalloc ⟨decls⟩
        let alloc : TypedVal := ⟨ext.2.2, MTy.llvmPtr 8 0⟩
        let mallKind := if mall.2.kind = SymKind.funcOp then CallKind.funcCall
          else CallKind.llvmCall
        let retv : TypedVal := ⟨ext.2.2 + 1, MTy.int w0⟩
        some ⟨mall.1.decls,
          ext.2.1 ++
            [MOp.callOp mallKind (some "malloc") [ext.1] [alloc],
              MOp.llvmStoreOp alloc outp, MOp.constantIntOp retv 0],
          [(r0.id, retv.id)], ext.2.2 + 2⟩
      | _, _ => none
    | _, _, _ => none
  else if callee = "cudaFree" || callee = "cudaFreeHost" then
    match results, operands[0]? with
    | [r0], some ptr =>
      match r0.ty with
      | MTy.int w0 =>
        let fr := GetOrCreateFreeFunction ⟨decls⟩
        let retv : TypedVal := ⟨fresh, MTy.int w0⟩
        some ⟨fr.1.decls,
          [MOp.callOp CallKind.llvmCall (some "free") [ptr] [],
            MOp.constantIntOp retv 0],
          [(r0.id, retv.id)], fresh + 1⟩
      | _ => none
    | _, _ => none
  else if callee = "cudaDeviceSynchronize" || callee = "cudaThreadSynchronize"
    then
    match results with
    | [r0] =>
      match r0.ty with
      | MTy.int w0 =>
        let retv : TypedVal := ⟨fresh, MTy.int w0⟩
        some ⟨decls, [MOp.constantIntOp retv 0], [(r0.id, retv.id)], fresh + 1⟩
      | _ => none
    | _ => none
  else if callee = "cudaGetLastError" || callee = "cudaPeekAtLastError" then
    match results with
    | [r0] =>
      match r0.ty with
      | MTy.int w0 =>
        let retv : TypedVal := ⟨fresh, MTy.int w0⟩
        some ⟨decls, [MOp.constantIntOp retv 0], [(r0.id, retv.id)], fresh + 1⟩
      | _ => none
    | _ => none
  else
    some ⟨decls, [MOp.callOp kind (some callee) operands results], [], fresh⟩

def substTypedVal (s : List (Nat × Nat)) (v : TypedVal) : TypedVal :=
  match s.lookup v.id with
  | some j => ⟨j, v.ty⟩
  | none => v

/-- `replaceAllUsesWith`: rewrite every operand edge of an operation through
the substitution (result ids are definitions, not uses, and stay). -/
def substMOp (s : List (Nat × Nat)) : MOp → MOp
  | MOp.callOp k c ops res => MOp.callOp k c (ops.map (substTypedVal s)) res
  | MOp.constantIntOp r v => MOp.constantIntOp r v
  | MOp.memref2PointerOp r o => MOp.memref2PointerOp r (substTypedVal s o)
  | MOp.llvmMemcpyOp a b c d =>
    MOp.llvmMemcpyOp (substTypedVal s a) (substTypedVal s b)
      (substTypedVal s c) (substTypedVal s d)
  | MOp.llvmMemsetOp a b c d =>
    MOp.llvmMemsetOp (substTypedVal s a) (substTypedVal s b)
      (substTypedVal s c) (substTypedVal s d)
  | MOp.llvmGEPOp r b is =>
    MOp.llvmGEPOp r (substTypedVal s b) (is.map (substTypedVal s))
  | MOp.truncIOp r o => MOp.truncIOp r (substTypedVal s o)
  | MOp.extUIOp r o => MOp.extUIOp r (substTypedVal s o)
  | MOp.llvmStoreOp v p =>
    MOp.llvmStoreOp (substTypedVal s v) (substTypedVal s p)
  | MOp.genericOp c os => MOp.genericOp c (os.map (substTypedVal s))

def applySubst (s : List (Nat × Nat)) (ops : List MOp) : List MOp :=
  ops.map (substMOp s)

/-- The first walk of ConvertCudaRTtoCPU (lines 840-844): rewrite every
`LLVM::CallOp` that has a callee; the use replacement of each rewrite is
applied to the whole body, as `replaceAllUsesWith` does.  The fuel is the
number of remaining operations (each step consumes one). -/
def cpuWalkLLVM (decls : List SymDecl) (fresh : Nat) (processed : List MOp) :
    Nat → List MOp → Option (List SymDecl × Nat × List MOp)
  | _, [] => some (decls, fresh, processed)
  | 0, _ :: _ => none
  | fuel + 1, op :: rest =>
    match op with
    | MOp.callOp CallKind.llvmCall (some callee) operands results =>
      match cudaRTtoCPUReplace decls fresh callee CallKind.llvmCall operands
          results with
      | none => none
      | some r =>
        cpuWalkLLVM r.decls r.fresh (applySubst r.subst processed ++ r.ops)
          fuel (applySubst r.subst rest)
    | _ => cpuWalkLLVM decls fresh (processed ++ [op]) fuel rest

/-- The second walk of ConvertCudaRTtoCPU (line 846): rewrite every
`func::CallOp`. -/
def cpuWalkFunc (decls : List SymDecl) (fresh : Nat) (processed : List MOp) :
    Nat → List MOp → Option (List SymDecl × Nat × List MOp)
  | _, [] => some (decls, fresh, processed)
  | 0, _ :: _ => none
  | fuel + 1, op :: rest =>
    match op with
    | MOp.callOp CallKind.funcCall (some callee) operands results =>
      match cudaRTtoCPUReplace decls fresh callee CallKind.funcCall operands
          results with
      | none => none
      | some r =>
        cpuWalkFunc r.decls r.fresh (applySubst r.subst processed ++ r.ops)
          fuel (applySubst r.subst rest)
    | _ => cpuWalkFunc decls fresh (processed ++ [op]) fuel rest

structure CPUModule where
  decls : List SymDecl
  body : List MOp
  fresh : Nat
deriving DecidableEq, Repr

/-- Embedding of `ConvertCudaRTtoCPU::runOnOperation` (lines 705-854): the
LLVM-call walk, then the func-call walk.  (The final fold/canonicalize
sweep runs with an empty pattern set.) -/
def ConvertCudaRTtoCPURun (m : CPUModule) : Option CPUModule :=
  match cpuWalkLLVM m.decls m.fresh [] m.body.length m.body with
  | none => none
  | some (d1, f1, b1) =>
    match cpuWalkFunc d1 f1 [] b1.length b1 with
    | none => none
    | some (d2, f2, b2) => some ⟨d2, b2, f2⟩

def isMemcpyOp : MOp → Bool
  | MOp.llvmMemcpyOp _ _ _ _ => true
  | _ => false

def isCallMOp : MOp → Bool
  | MOp.callOp _ _ _ _ => true
  | _ => false

/-- `v` is the raw-pointer view of `orig` built by the CPU policy: either
`orig` already was a raw value (no conversion emitted), or a
`Memref2PointerOp` in the emitted ops turns `orig` into the pointer `v`
with the same element type and memory space. -/
def ptrView (ops : List MOp) (orig v : TypedVal) : Prop :=
  (isMemrefTy orig.ty = false ∧ v = orig) ∨
  (∃ e s, orig.ty = MTy.memref e s ∧ v.ty = MTy.llvmPtr e s ∧
    MOp.memref2PointerOp v orig ∈ ops)

theorem isMemrefTy_true_iff (t : MTy) :
    isMemrefTy t = true ↔ ∃ e s, t = MTy.memref e s := by
  cases t <;> simp [isMemrefTy]

theorem memrefToPointer_of_memref (f : Nat) (v : TypedVal) (e s : Nat)
    (h : v.ty = MTy.memref e s) :
    memrefToPointer f v =
      (⟨f, MTy.llvmPtr e s⟩,
        [MOp.memref2PointerOp ⟨f, MTy.llvmPtr e s⟩ v], f + 1) := by
  unfold memrefToPointer
  rw [h]

theorem memrefToPointer_of_not_memref (f : Nat) (v : TypedVal)
    (h : isMemrefTy v.ty = false) : memrefToPointer f v = (v, [], f) := by
  obtain ⟨vid, vty⟩ := v
  cases vty <;> first
    | rfl
    | simp [isMemrefTy] at h

theorem cudaRTtoCPUReplace_memcpy_eq (decls : List SymDecl) (fresh : Nat)
    {callee : String} (kind : CallKind) (dst src len : TypedVal)
    (more : List TypedVal) (r0 : TypedVal)
    (hname : callee = "cudaMemcpy" ∨ callee = "cudaMemcpyAsync") :
    cudaRTtoCPUReplace decls fresh callee kind (dst :: src :: len :: more)
      [r0] =
      some ⟨decls,
        [MOp.constantIntOp ⟨fresh, MTy.int 1⟩ 0] ++
          (memrefToPointer (fresh + 1) dst).2.1 ++
          (memrefToPointer (memrefToPointer (fresh + 1) dst).2.2 src).2.1 ++
          [MOp.llvmMemcpyOp (memrefToPointer (fresh + 1) dst).1
              (memrefToPointer (memrefToPointer (fresh + 1) dst).2.2 src).1
              len ⟨fresh, MTy.int 1⟩,
            MOp.constantIntOp
              ⟨(memrefToPointer (memrefToPointer (fresh + 1) dst).2.2
                  src).2.2, r0.ty⟩ 0],
        [(r0.id,
          (memrefToPointer (memrefToPointer (fresh + 1) dst).2.2 src).2.2)],
        (memrefToPointer (memrefToPointer (fresh + 1) dst).2.2 src).2.2 + 1⟩
      := by
  rcases hname with rfl | rfl <;>
    simp only [cudaRTtoCPUReplace, List.getElem?_cons_zero,
      List.getElem?_cons_succ, String.reduceEq, decide_True, decide_False,
      Bool.true_or, Bool.or_true, Bool.or_false, Bool.false_or, if_true,
      ite_true, if_false, ite_false]

/-- Claim C6: a cudaMemcpy / cudaMemcpyAsync call with a structured-memory
destination or source is rewritten to exactly one low-level memory-copy
intrinsic whose volatility operand is the constant false, operating on
raw-pointer views of destination and source; the call's single result is
substituted by a zero constant of the original result type, the call itself
is gone from the rewritten site, and no declaration changes. -/
theorem C6_memcpy_to_llvm_intrinsic (decls : List SymDecl) (fresh : Nat)
    (callee : String) (kind : CallKind) (dst src len : TypedVal)
    (more : List TypedVal) (r0 : TypedVal)
    (hname : callee = "cudaMemcpy" ∨ callee = "cudaMemcpyAsync")
    (hmem : isMemrefTy dst.ty = true ∨ isMemrefTy src.ty = true) :
    ∃ r, cudaRTtoCPUReplace decls fresh callee kind
        (dst :: src :: len :: more) [r0] = some r ∧
      (r.ops.filter isMemcpyOp).length = 1 ∧
      (∃ dst2 src2,
        MOp.llvmMemcpyOp dst2 src2 len ⟨fresh, MTy.int 1⟩ ∈ r.ops ∧
        MOp.constantIntOp ⟨fresh, MTy.int 1⟩ 0 ∈ r.ops ∧
        ptrView r.ops dst dst2 ∧ ptrView r.ops src src2) ∧
      (∃ z : TypedVal, z.ty = r0.ty ∧ MOp.constantIntOp z 0 ∈ r.ops ∧
        r.subst = [(r0.id, z.id)]) ∧
      r.decls = decls ∧
      (∀ op ∈ r.ops, isCallMOp op = false) := by
  clear hmem
  refine ⟨_, cudaRTtoCPUReplace_memcpy_eq decls fresh kind dst src len more
    r0 hname, ?_⟩
  by_cases hd : isMemrefTy dst.ty = true
  · obtain ⟨ed, sd, hdty⟩ := (isMemrefTy_true_iff _).mp hd
    rw [memrefToPointer_of_memref (fresh + 1) dst ed sd hdty]
    by_cases hs : isMemrefTy src.ty = true
    · obtain ⟨es, ss, hsty⟩ := (isMemrefTy_true_iff _).mp hs
      rw [memrefToPointer_of_memref (fresh + 1 + 1) src es ss hsty]
      refine ⟨by simp [isMemcpyOp],
        ⟨⟨fresh + 1, MTy.llvmPtr ed sd⟩, ⟨fresh + 1 + 1, MTy.llvmPtr es ss⟩,
          by simp, by simp,
          Or.inr ⟨ed, sd, hdty, rfl, by simp⟩,
          Or.inr ⟨es, ss, hsty, rfl, by simp⟩⟩,
        ⟨⟨fresh + 1 + 1 + 1, r0.ty⟩, rfl, by simp, rfl⟩, rfl, ?_⟩
      intro op hop
      simp only [List.mem_append, List.mem_cons, List.not_mem_nil,
        List.mem_singleton, or_false, false_or, or_assoc] at hop
      rcases hop with rfl | rfl | rfl | rfl | rfl <;> rfl
    · have hs2 : isMemrefTy src.ty = false := by simpa using hs
      rw [memrefToPointer_of_not_memref (fresh + 1 + 1) src hs2]
      refine ⟨by simp [isMemcpyOp],
        ⟨⟨fresh + 1, MTy.llvmPtr ed sd⟩, src,
          by simp, by simp,
          Or.inr ⟨ed, sd, hdty, rfl, by simp⟩,
          Or.inl ⟨hs2, rfl⟩⟩,
        ⟨⟨fresh + 1 + 1, r0.ty⟩, rfl, by simp, rfl⟩, rfl, ?_⟩
      intro op hop
      simp only [List.mem_append, List.mem_cons, List.not_mem_nil,
        List.mem_singleton, or_false, false_or, or_assoc] at hop
      rcases hop with rfl | rfl | rfl | rfl <;> rfl
  · have hd2 : isMemrefTy dst.ty = false := by simpa using hd
    rw [memrefToPointer_of_not_memref (fresh + 1) dst hd2]
    by_cases hs : isMemrefTy src.ty = true
    · obtain ⟨es, ss, hsty⟩ := (isMemrefTy_true_iff _).mp hs
      rw [memrefToPointer_of_memref (fresh + 1) src es ss hsty]
      refine ⟨by simp [isMemcpyOp],
        ⟨dst, ⟨fresh + 1, MTy.llvmPtr es ss⟩,
          by simp, by simp,
          Or.inl ⟨hd2, rfl⟩,
          Or.inr ⟨es, ss, hsty, rfl, by simp⟩⟩,
        ⟨⟨fresh + 1 + 1, r0.ty⟩, rfl, by simp, rfl⟩, rfl, ?_⟩
      intro op hop
      simp only [List.mem_append, List.mem_cons, List.not_mem_nil,
        List.mem_singleton, or_false, false_or, or_assoc] at hop
      rcases hop with rfl | rfl | rfl | rfl <;> rfl
    · have hs2 : isMemrefTy src.ty = false := by simpa using hs
      rw [memrefToPointer_of_not_memref (fresh + 1) src hs2]
      refine ⟨by simp [isMemcpyOp],
        ⟨dst, src, by simp, by simp, Or.inl ⟨hd2, rfl⟩, Or.inl ⟨hs2, rfl⟩⟩,
        ⟨⟨fresh + 1, r0.ty⟩, rfl, by simp, rfl⟩, rfl, ?_⟩
      intro op hop
      simp only [List.mem_append, List.mem_cons, List.not_mem_nil,
        List.mem_singleton, or_false, false_or, or_assoc] at hop
      rcases hop with rfl | rfl | rfl <;> rfl

/-- Witness for C6: a cudaMemcpy whose destination is a memref and whose
source is already a raw pointer. -/
theorem C6_memcpy_to_llvm_intrinsic_witness :
    ∃ r, cudaRTtoCPUReplace [] 10 "cudaMemcpy" CallKind.funcCall
        [⟨1, MTy.memref 32 0⟩, ⟨2, MTy.llvmPtr 32 0⟩, ⟨3, MTy.int 64⟩]
        [⟨4, MTy.int 32⟩] = some r ∧
      (r.ops.filter isMemcpyOp).length = 1 ∧
      (∃ dst2 src2,
        MOp.llvmMemcpyOp dst2 src2 ⟨3, MTy.int 64⟩ ⟨10, MTy.int 1⟩ ∈ r.ops ∧
        MOp.constantIntOp ⟨10, MTy.int 1⟩ 0 ∈ r.ops ∧
        ptrView r.ops ⟨1, MTy.memref 32 0⟩ dst2 ∧
        ptrView r.ops ⟨2, MTy.llvmPtr 32 0⟩ src2) ∧
      (∃ z : TypedVal, z.ty = MTy.int 32 ∧ MOp.constantIntOp z 0 ∈ r.ops ∧
        r.subst = [(4, z.id)]) ∧
      r.decls = [] ∧
      (∀ op ∈ r.ops, isCallMOp op = false) :=
  C6_memcpy_to_llvm_intrinsic [] 10 "cudaMemcpy" CallKind.funcCall
    ⟨1, MTy.memref 32 0⟩ ⟨2, MTy.llvmPtr 32 0⟩ ⟨3, MTy.int 64⟩ []
    ⟨4, MTy.int 32⟩ (Or.inl rfl) (Or.inl rfl)

/-! ### C8: unrecognized call names are left untouched -/

theorem cudaRTtoCPUReplace_unmatched (ds : List SymDecl) (f : Nat)
    (callee : String) (k : CallKind) (ops : List TypedVal)
    (res : List TypedVal) (hni : callee ∉ cpuMatchedNames) :
    cudaRTtoCPUReplace ds f callee k ops res =
      some ⟨ds, [MOp.callOp k (some callee) ops res], [], f⟩ := by
  simp only [cpuMatchedNames, List.mem_cons, List.not_mem_nil, or_false,
    not_or] at hni
  obtain ⟨h1, h2, h3, h4, h5, h6, h7, h8, h9, h10, h11, h12⟩ := hni
  unfold cudaRTtoCPUReplace
  simp only [h1, h2, h3, h4, h5, h6, h7, h8, h9, h10, h11, h12, decide_False,
    Bool.or_self, Bool.false_eq_true, if_false, ite_false]

theorem substTypedVal_nil (v : TypedVal) : substTypedVal [] v = v := rfl

theorem substMOp_nil (op : MOp) : substMOp [] op = op := by
  have hmap : ∀ l : List TypedVal, l.map (substTypedVal []) = l := by
    intro l
    rw [show substTypedVal [] = id from funext substTypedVal_nil, List.map_id]
  cases op <;> simp [substMOp, substTypedVal_nil, hmap]

theorem applySubst_nil (ops : List MOp) : applySubst [] ops = ops := by
  unfold applySubst
  rw [show substMOp [] = id from funext substMOp_nil, List.map_id]

theorem cpuWalkLLVM_id (ds : List SymDecl) (f : Nat) :
    ∀ (body : List MOp) (processed : List MOp) (fuel : Nat),
    body.length ≤ fuel →
    (∀ op ∈ body, ∀ k c ops res, op = MOp.callOp k (some c) ops res →
      c ∉ cpuMatchedNames) →
    cpuWalkLLVM ds f processed fuel body = some (ds, f, processed ++ body) := by
  intro body
  induction body with
  | nil =>
    intro processed fuel _ _
    cases fuel <;> simp [cpuWalkLLVM]
  | cons op rest ih =>
    intro processed fuel hfuel hok
    cases fuel with
    | zero => simp at hfuel
    | succ fuel =>
      have hfuel2 : rest.length ≤ fuel := by
        simp at hfuel
        omega
      have hokrest : ∀ op2 ∈ rest, ∀ k c ops res,
          op2 = MOp.callOp k (some c) ops res → c ∉ cpuMatchedNames :=
        fun op2 h2 => hok op2 (List.mem_cons_of_mem _ h2)
      cases op with
      | callOp k c ops res =>
        cases k with
        | llvmCall =>
          cases c with
          | some callee =>
            have hni : callee ∉ cpuMatchedNames :=
              hok _ (List.mem_cons_self _ _) _ callee ops res rfl
            simp only [cpuWalkLLVM,
              cudaRTtoCPUReplace_unmatched ds f callee CallKind.llvmCall ops
                res hni, applySubst_nil]
            rw [ih _ fuel hfuel2 hokrest]
            simp
          | none =>
            simp only [cpuWalkLLVM]
            rw [ih _ fuel hfuel2 hokrest]
            simp
        | funcCall =>
          simp only [cpuWalkLLVM]
          rw [ih _ fuel hfuel2 hokrest]
          simp
      | constantIntOp r v =>
        simp only [cpuWalkLLVM]
        rw [ih _ fuel hfuel2 hokrest]
        simp
      | memref2PointerOp r o =>
        simp only [cpuWalkLLVM]
        rw [ih _ fuel hfuel2 hokrest]
        simp
      | llvmMemcpyOp a b c d =>
        simp only [cpuWalkLLVM]
        rw [ih _ fuel hfuel2 hokrest]
        simp
      | llvmMemsetOp a b c d =>
        simp only [cpuWalkLLVM]
        rw [ih _ fuel hfuel2 hokrest]
        simp
      | llvmGEPOp r b is =>
        simp only [cpuWalkLLVM]
        rw [ih _ fuel hfuel2 hokrest]
        simp
      | truncIOp r o =>
        simp only [cpuWalkLLVM]
        rw [ih _ fuel hfuel2 hokrest]
        simp
      | extUIOp r o =>
        simp only [cpuWalkLLVM]
        rw [ih _ fuel hfuel2 hokrest]
        simp
      | llvmStoreOp v p =>
        simp only [cpuWalkLLVM]
        rw [ih _ fuel hfuel2 hokrest]
        simp
      | genericOp cd os =>
        simp only [cpuWalkLLVM]
        rw [ih _ fuel hfuel2 hokrest]
        simp

theorem cpuWalkFunc_id (ds : List SymDecl) (f : Nat) :
    ∀ (body : List MOp) (processed : List MOp) (fuel : Nat),
    body.length ≤ fuel →
    (∀ op ∈ body, ∀ k c ops res, op = MOp.callOp k (some c) ops res →
      c ∉ cpuMatchedNames) →
    cpuWalkFunc ds f processed fuel body = some (ds, f, processed ++ body) := by
  intro body
  induction body with
  | nil =>
    intro processed fuel _ _
    cases fuel <;> simp [cpuWalkFunc]
  | cons op rest ih =>
    intro processed fuel hfuel hok
    cases fuel with
    | zero => simp at hfuel
    | succ fuel =>
      have hfuel2 : rest.length ≤ fuel := by
        simp at hfuel
        omega
      have hokrest : ∀ op2 ∈ rest, ∀ k c ops res,
          op2 = MOp.callOp k (some c) ops res → c ∉ cpuMatchedNames :=
        fun op2 h2 => hok op2 (List.mem_cons_of_mem _ h2)
      cases op with
      | callOp k c ops res =>
        cases k with
        | funcCall =>
          cases c with
          | some callee =>
            have hni : callee ∉ cpuMatchedNames :=
              hok _ (List.mem_cons_self _ _) _ callee ops res rfl
            simp only [cpuWalkFunc,
              cudaRTtoCPUReplace_unmatched ds f callee CallKind.funcCall ops
                res hni, applySubst_nil]
            rw [ih _ fuel hfuel2 hokrest]
            simp
          | none =>
            simp only [cpuWalkFunc]
            rw [ih _ fuel hfuel2 hokrest]
            simp
        | llvmCall =>
          simp only [cpuWalkFunc]
          rw [ih _ fuel hfuel2 hokrest]
          simp
      | constantIntOp r v =>
        simp only [cpuWalkFunc]
        rw [ih _ fuel hfuel2 hokrest]
        simp
      | memref2PointerOp r o =>
        simp only [cpuWalkFunc]
        rw [ih _ fuel hfuel2 hokrest]
        simp
      | llvmMemcpyOp a b c d =>
        simp only [cpuWalkFunc]
        rw [ih _ fuel hfuel2 hokrest]
        simp
      | llvmMemsetOp a b c d =>
        simp only [cpuWalkFunc]
        rw [ih _ fuel hfuel2 hokrest]
        simp
      | llvmGEPOp r b is =>
        simp only [cpuWalkFunc]
        rw [ih _ fuel hfuel2 hokrest]
        simp
      | truncIOp r o =>
        simp only [cpuWalkFunc]
        rw [ih _ fuel hfuel2 hokrest]
        simp
      | extUIOp r o =>
        simp only [cpuWalkFunc]
        rw [ih _ fuel hfuel2 hokrest]
        simp
      | llvmStoreOp v p =>
        simp only [cpuWalkFunc]
        rw [ih _ fuel hfuel2 hokrest]
        simp
      | genericOp cd os =>
        simp only [cpuWalkFunc]
        rw [ih _ fuel hfuel2 hokrest]
        simp

theorem hipWalkFunc_id :
    ∀ (cs : List RTCall) (ds : List SymDecl) (ws : List String),
    (∀ c ∈ cs, ∀ callee results,
      c = RTCall.active CallKind.funcCall callee results →
      isCudartCall callee = false) →
    hipWalkFunc ds ws cs = some (ds, ws, cs) := by
  intro cs
  induction cs with
  | nil => intro ds ws _; rfl
  | cons c rest ih =>
    intro ds ws h
    have hrest : hipWalkFunc ds ws rest = some (ds, ws, rest) :=
      ih ds ws (fun c2 hc2 callee results he =>
        h c2 (List.mem_cons_of_mem _ hc2) callee results he)
    cases c with
    | active k callee results =>
      cases k with
      | funcCall =>
        have hfalse : isCudartCall callee = false :=
          h _ (List.mem_cons_self _ _) callee results rfl
        simp only [hipWalkFunc, hfalse, Bool.false_eq_true, if_false, hrest]
      | llvmCall =>
        simp only [hipWalkFunc, hrest]
    | erasedWithSuccess t =>
      simp only [hipWalkFunc, hrest]

/-- Claim C8: both retargeting policies are total over their dispatch
tables.  In the CPU policy, a call whose callee is not one of the matched
names falls through the whole chain, leaving the call with its operands,
results and uses unchanged and no error; a module without recognized
callees passes through the pass unchanged.  In the vendor-rename policy,
any call whose name is not in the cudart allow-list is skipped by both
walks, and a module without cudart callees is unchanged. -/
theorem C8_unrecognized_names_untouched :
    (∀ (ds : List SymDecl) (f : Nat) (callee : String) (k : CallKind)
        (ops : List TypedVal) (res : List TypedVal),
      callee ∉ cpuMatchedNames →
      cudaRTtoCPUReplace ds f callee k ops res =
        some ⟨ds, [MOp.callOp k (some callee) ops res], [], f⟩) ∧
    (∀ m : CPUModule,
      (∀ op ∈ m.body, ∀ k c ops res, op = MOp.callOp k (some c) ops res →
        c ∉ cpuMatchedNames) →
      ConvertCudaRTtoCPURun m = some m) ∧
    (∀ m : RTModule,
      (∀ c ∈ m.calls, ∀ k callee res, c = RTCall.active k callee res →
        isCudartCall callee = false) →
      ConvertCudaRTtoHipRTRun m = some m) := by
  refine ⟨cudaRTtoCPUReplace_unmatched, ?_, ?_⟩
  · intro m hok
    unfold ConvertCudaRTtoCPURun
    rw [cpuWalkLLVM_id m.decls m.fresh m.body [] m.body.length le_rfl hok]
    dsimp only
    rw [List.nil_append]
    rw [cpuWalkFunc_id m.decls m.fresh m.body [] m.body.length le_rfl hok]
    dsimp only
    rw [List.nil_append]
  · intro m hok
    unfold ConvertCudaRTtoHipRTRun
    rw [hipWalkLLVM_id m.calls m.decls m.warnings
      (fun c hc callee results he => hok c hc _ callee results he)]
    dsimp only
    rw [hipWalkFunc_id m.calls m.decls m.warnings
      (fun c hc callee results he => hok c hc _ callee results he)]

/-- Witness for C8 at an unrecognized callee name and at small modules. -/
theorem C8_unrecognized_names_witness :
    cudaRTtoCPUReplace [] 0 "myHelperFn" CallKind.funcCall [] [] =
      some ⟨[], [MOp.callOp CallKind.funcCall (some "myHelperFn") [] []], [],
        0⟩ ∧
    ConvertCudaRTtoCPURun
      ⟨[], [MOp.callOp CallKind.funcCall (some "myHelperFn") [] []], 0⟩ =
      some ⟨[], [MOp.callOp CallKind.funcCall (some "myHelperFn") [] []], 0⟩ ∧
    ConvertCudaRTtoHipRTRun
      ⟨[], [RTCall.active CallKind.funcCall "myHelperFn" []], []⟩ =
      some ⟨[], [RTCall.active CallKind.funcCall "myHelperFn" []], []⟩ :=
  ⟨C8_unrecognized_names_untouched.1 [] 0 "myHelperFn" CallKind.funcCall []
      [] (by decide),
    C8_unrecognized_names_untouched.2.1
      ⟨[], [MOp.callOp CallKind.funcCall (some "myHelperFn") [] []], 0⟩
      (by
        intro op hop k c ops res heq
        simp only [List.mem_singleton] at hop
        subst hop
        injection heq with hk hc hops hres
        injection hc with hc2
        subst hc2
        decide),
    C8_unrecognized_names_untouched.2.2
      ⟨[], [RTCall.active CallKind.funcCall "myHelperFn" []], []⟩
      (by
        intro c hc k callee res heq
        simp only [List.mem_singleton] at hc
        subst hc
        injection heq with hk hcallee hres
        subst hcallee
        decide)⟩

/-! ### C10: every rewrite branch reads the first result of the call -/

/-- Claim C10: `replaceCallWithSuccess` and every recognized branch of the
CPU policy derive the success constant from the call's first result with no
guard: with at least one result the access is in bounds
(`replaceCallWithSuccess` succeeds, and a recognized call with an
integer-typed single result rewrites successfully), while a recognized call
with zero results makes every branch fail (modelling the unguarded
out-of-bounds `call->getResult(0)`). -/
theorem C10_result_zero_access :
    (∀ results : List MTy, results ≠ [] →
      (replaceCallWithSuccess results).isSome) ∧
    replaceCallWithSuccess ([] : List MTy) = none ∧
    (∀ callee ∈ cpuMatchedNames, ∀ (ds : List SymDecl) (f : Nat)
        (k : CallKind) (ops : List TypedVal),
      cudaRTtoCPUReplace ds f callee k ops [] = none) ∧
    (∀ callee ∈ cpuMatchedNames, ∀ (ds : List SymDecl) (f : Nat)
        (k : CallKind) (v0 : TypedVal) (v1id : Nat) (v2 v3 : TypedVal)
        (vr : List TypedVal) (rid w w1 : Nat),
      (cudaRTtoCPUReplace ds f callee k
        (v0 :: ⟨v1id, MTy.int w1⟩ :: v2 :: v3 :: vr)
        [⟨rid, MTy.int w⟩]).isSome) := by
  refine ⟨?_, rfl, ?_, ?_⟩
  · intro results h
    cases results with
    | nil => exact absurd rfl h
    | cons t ts => rfl
  · intro callee hmem ds f k ops
    fin_cases hmem <;> rfl
  · intro callee hmem ds f k v0 v1id v2 v3 vr rid w w1
    fin_cases hmem <;>
      first
        | rfl
        | (simp only [cudaRTtoCPUReplace, List.getElem?_cons_zero,
            List.getElem?_cons_succ, String.reduceEq, decide_True,
            decide_False, Bool.true_or, Bool.or_true, Bool.or_false,
            Bool.false_or, Bool.or_self, if_true, ite_true, if_false,
            ite_false, Bool.false_eq_true]
           rfl)

/-- Witness for C10 at concrete calls. -/
theorem C10_result_zero_access_witness :
    (replaceCallWithSuccess [MTy.int 32]).isSome ∧
    replaceCallWithSuccess ([] : List MTy) = none ∧
    cudaRTtoCPUReplace [] 0 "cudaMalloc" CallKind.funcCall
      [⟨1, MTy.llvmPtr 64 0⟩, ⟨2, MTy.int 32⟩] [] = none ∧
    (cudaRTtoCPUReplace [] 0 "cudaMalloc" CallKind.funcCall
      [⟨1, MTy.llvmPtr 64 0⟩, ⟨2, MTy.int 32⟩, ⟨3, MTy.int 8⟩,
        ⟨4, MTy.int 8⟩] [⟨5, MTy.int 32⟩]).isSome :=
  ⟨C10_result_zero_access.1 [MTy.int 32] (by decide),
    C10_result_zero_access.2.1,
    C10_result_zero_access.2.2.1 "cudaMalloc" (by decide) [] 0
      CallKind.funcCall [⟨1, MTy.llvmPtr 64 0⟩, ⟨2, MTy.int 32⟩],
    C10_result_zero_access.2.2.2 "cudaMalloc" (by decide) [] 0
      CallKind.funcCall ⟨1, MTy.llvmPtr 64 0⟩ 2 ⟨3, MTy.int 8⟩
      ⟨4, MTy.int 8⟩ [] 5 32 32⟩

/-! ## ParallelLower: structural lowering of gpu.launch (lines 457-697)

The kernel body of a `gpu.launch` is a single block whose ops we model with
SSA ids given by their position.  A value in the original body is one of
the launch region's 12 block arguments (block ids, thread ids, grid sizes,
block sizes), the result of an earlier body op, or a value defined outside
the launch.  A value after lowering can additionally be one of the two
created index constants, an induction variable of the outer
(grid-dimension-bounded) or inner (block-dimension-bounded) scf.parallel,
or the result of a replacement alloca hoisted to the block scope for the
space-5 alloca with the same id. -/

inductive GpuDim where
  | x
  | y
  | z
deriving DecidableEq, Repr

inductive GVal where
  | arg (i : Fin 12)
  | res (n : Nat)
  | ext (n : Nat)
deriving DecidableEq, Repr

structure MemRefT where
  elem : Nat
  layoutCode : Nat
  space : Option Nat  -- memory-space attribute (IntegerAttr value, or absent)
deriving DecidableEq, Repr

structure LLVMPtrT where
  elem : Nat
  space : Nat
deriving DecidableEq, Repr

inductive KOp where
  | blockIdOp (d : GpuDim)
  | threadIdOp (d : GpuDim)
  | gridDimOp (d : GpuDim)
  | blockDimOp (d : GpuDim)
  | barrier0Op
  | memrefAllocaOp (ty : MemRefT)
  | llvmAllocaOp (ty : LLVMPtrT) (arraySize : GVal)
  | genericOp (code : Nat) (operands : List GVal)
deriving DecidableEq, Repr

inductive LVal where
  | constIndex (n : Nat)
  | blockArg (d : GpuDim)
  | threadArg (d : GpuDim)
  | hoisted (n : Nat)
  | res (n : Nat)
  | ext (n : Nat)
deriving DecidableEq, Repr

inductive SOp where
  | blockIdOp (d : GpuDim)
  | threadIdOp (d : GpuDim)
  | gridDimOp (d : GpuDim)
  | blockDimOp (d : GpuDim)
  | barrier0Op
  | polygeistBarrierOp (args : List LVal)
  | memrefAllocaOp (ty : MemRefT)
  | llvmAllocaOp (ty : LLVMPtrT) (arraySize : LVal)
  | memrefCastOp (ty : MemRefT) (operand : LVal)
  | llvmAddrSpaceCastOp (ty : LLVMPtrT) (operand : LVal)
  | genericOp (code : Nat) (operands : List LVal)
deriving DecidableEq, Repr

inductive AsyncDep where
  | streamToToken (source : Nat)  -- defined by a polygeist.StreamToTokenOp
  | otherDef (v : Nat)            -- defined by any other op
deriving DecidableEq, Repr

structure LaunchOp where
  gridSizeX : Nat
  gridSizeY : Nat
  gridSizeZ : Nat
  blockSizeX : Nat
  blockSizeY : Nat
  blockSizeZ : Nat
  asyncDependencies : List AsyncDep
  body : List KOp
deriving DecidableEq, Repr

def LaunchOp.gridSize (l : LaunchOp) : GpuDim → Nat
  | GpuDim.x => l.gridSizeX
  | GpuDim.y => l.gridSizeY
  | GpuDim.z => l.gridSizeZ

def LaunchOp.blockSize (l : LaunchOp) : GpuDim → Nat
  | GpuDim.x => l.blockSizeX
  | GpuDim.y => l.blockSizeY
  | GpuDim.z => l.blockSizeZ

/-- Modelled from the spec: the pass options of ParallelLower (wrap, and the
three-way kernel-structure mode with a discard default) declared in the
pass headers that are not part of the sources under study; the .cpp only
tests the three named values. -/
inductive PolygeistGPUStructureMode where
  | PGSM_Discard
  | PGSM_BlockThreadWrappers
  | PGSM_ThreadNoop
  | PGSM_BlockThreadNoops
deriving DecidableEq, Repr

/-- The mapping given to `mergeBlockBefore` (lines 564-574) for the launch
region's 12 block arguments: the three outer IVs, the three inner IVs, and
the six size operands of the launch. -/
def spliceArg (l : LaunchOp) : Fin 12 → LVal
  | ⟨0, _⟩ => LVal.blockArg GpuDim.x
  | ⟨1, _⟩ => LVal.blockArg GpuDim.y
  | ⟨2, _⟩ => LVal.blockArg GpuDim.z
  | ⟨3, _⟩ => LVal.threadArg GpuDim.x
  | ⟨4, _⟩ => LVal.threadArg GpuDim.y
  | ⟨5, _⟩ => LVal.threadArg GpuDim.z
  | ⟨6, _⟩ => LVal.ext l.gridSizeX
  | ⟨7, _⟩ => LVal.ext l.gridSizeY
  | ⟨8, _⟩ => LVal.ext l.gridSizeZ
  | ⟨9, _⟩ => LVal.ext l.blockSizeX
  | ⟨10, _⟩ => LVal.ext l.blockSizeY
  | ⟨11, _⟩ => LVal.ext l.blockSizeZ

def spliceVal (l : LaunchOp) : GVal → LVal
  | GVal.arg i => spliceArg l i
  | GVal.res n => LVal.res n
  | GVal.ext n => LVal.ext n

def spliceOp (l : LaunchOp) : KOp → SOp
  | KOp.blockIdOp d => SOp.blockIdOp d
  | KOp.threadIdOp d => SOp.threadIdOp d
  | KOp.gridDimOp d => SOp.gridDimOp d
  | KOp.blockDimOp d => SOp.blockDimOp d
  | KOp.barrier0Op => SOp.barrier0Op
  | KOp.memrefAllocaOp ty => SOp.memrefAllocaOp ty
  | KOp.llvmAllocaOp ty sz => SOp.llvmAllocaOp ty (spliceVal l sz)
  | KOp.genericOp c os => SOp.genericOp c (os.map (spliceVal l))

/-- The kernel body spliced into the innermost scope, each op keyed by its
SSA id (= original position). -/
def splicedBody (l : LaunchOp) : List (Nat × SOp) :=
  (l.body.map (spliceOp l)).enum

def substLVal (σ : Nat → Option LVal) : LVal → LVal
  | LVal.res n => (σ n).getD (LVal.res n)
  | v => v

def substSOp (σ : Nat → Option LVal) : SOp → SOp
  | SOp.polygeistBarrierOp args =>
    SOp.polygeistBarrierOp (args.map (substLVal σ))
  | SOp.llvmAllocaOp ty sz => SOp.llvmAllocaOp ty (substLVal σ sz)
  | SOp.memrefCastOp ty o => SOp.memrefCastOp ty (substLVal σ o)
  | SOp.llvmAddrSpaceCastOp ty o =>
    SOp.llvmAddrSpaceCastOp ty (substLVal σ o)
  | SOp.genericOp c os => SOp.genericOp c (os.map (substLVal σ))
  | op => op

structure WalkState where
  blockBody : List (Nat × SOp)
  innerBody : List (Nat × SOp)
deriving DecidableEq, Repr

def isBlockIdSOp : SOp → Bool
  | SOp.blockIdOp _ => true
  | _ => false

def isThreadIdSOp : SOp → Bool
  | SOp.threadIdOp _ => true
  | _ => false

def blockIdSubstOf (body : List (Nat × SOp)) : Nat → Option LVal := fun n =>
  match body.lookup n with
  | some (SOp.blockIdOp d) => some (LVal.blockArg d)
  | _ => none

def threadIdSubstOf (body : List (Nat × SOp)) : Nat → Option LVal := fun n =>
  match body.lookup n with
  | some (SOp.threadIdOp d) => some (LVal.threadArg d)
  | _ => none

def gridDimSubstOf (l : LaunchOp) (body : List (Nat × SOp)) :
    Nat → Option LVal := fun n =>
  match body.lookup n with
  | some (SOp.gridDimOp d) => some (LVal.ext (l.gridSize d))
  | _ => none

def blockDimSubstOf (l : LaunchOp) (body : List (Nat × SOp)) :
    Nat → Option LVal := fun n =>
  match body.lookup n with
  | some (SOp.blockDimOp d) => some (LVal.ext (l.blockSize d))
  | _ => none

/-- Walk at lines 578-590: `replaceOp` every gpu.BlockIdOp found inside the
thread parallel with the outer IV of the matching dimension.  `replaceOp`
rewrites every use in the whole function, so the substitution also applies
to the ops already hoisted to the block scope. -/
def walkBlockId (st : WalkState) : WalkState :=
  let σ := blockIdSubstOf st.innerBody
  { blockBody := st.blockBody.map (fun p => (p.1, substSOp σ p.2)),
    innerBody := (st.innerBody.filter (fun p => !isBlockIdSOp p.2)).map
      (fun p => (p.1, substSOp σ p.2)) }

/-- Walk at lines 592-605: a memref.alloca whose memory space is the
integer attribute 5 is rebuilt without the memory-space attribute at the
start of the grid-parallel body and replaced in place by a memref.cast from
the new alloca back to the original space-5 type.  Each insertion is at the
block start, so successive hoists end up in reverse walk order. -/
def walkMemrefAlloca (st : WalkState) : WalkState :=
  { blockBody :=
      (st.innerBody.filterMap (fun p =>
        match p.2 with
        | SOp.memrefAllocaOp ty =>
          if ty.space = some 5 then
            some (p.1, SOp.memrefAllocaOp { ty with space := none })
          else none
        | _ => none)).reverse ++ st.blockBody,
    innerBody := st.innerBody.map (fun p =>
      match p.2 with
      | SOp.memrefAllocaOp ty =>
        if ty.space = some 5 then (p.1, SOp.memrefCastOp ty (LVal.hoisted p.1))
        else p
      | _ => p) }

/-- Walk at lines 607-616: an llvm.alloca whose pointer type has address
space 5 is rebuilt in address space 0 at the start of the grid-parallel
body (with the already-rewritten array-size operand) and replaced in place
by an llvm.addrspacecast back to the original space-5 pointer type. -/
def walkLLVMAlloca (st : WalkState) : WalkState :=
  { blockBody :=
      (st.innerBody.filterMap (fun p =>
        match p.2 with
        | SOp.llvmAllocaOp ty sz =>
          if ty.space = 5 then
            some (p.1, SOp.llvmAllocaOp ⟨ty.elem, 0⟩ sz)
          else none
        | _ => none)).reverse ++ st.blockBody,
    innerBody := st.innerBody.map (fun p =>
      match p.2 with
      | SOp.llvmAllocaOp ty _ =>
        if ty.space = 5 then
          (p.1, SOp.llvmAddrSpaceCastOp ty (LVal.hoisted p.1))
        else p
      | _ => p) }

/-- Walk at lines 618-629: `replaceOp` every gpu.ThreadIdOp with the inner
IV of the matching dimension. -/
def walkThreadId (st : WalkState) : WalkState :=
  let σ := threadIdSubstOf st.innerBody
  { blockBody := st.blockBody.map (fun p => (p.1, substSOp σ p.2)),
    innerBody := (st.innerBody.filter (fun p => !isThreadIdSOp p.2)).map
      (fun p => (p.1, substSOp σ p.2)) }

/-- Walk at lines 631-635: every NVVM barrier is replaced in place by a
polygeist.barrier parameterized by the three inner IVs. -/
def walkBarrier (st : WalkState) : WalkState :=
  { st with
    innerBody := st.innerBody.map (fun p =>
      match p.2 with
      | SOp.barrier0Op =>
        (p.1, SOp.polygeistBarrierOp
          [LVal.threadArg GpuDim.x, LVal.threadArg GpuDim.y,
            LVal.threadArg GpuDim.z])
      | _ => p) }

def isGridDimSOp : SOp → Bool
  | SOp.gridDimOp _ => true
  | _ => false

def isBlockDimSOp : SOp → Bool
  | SOp.blockDimOp _ => true
  | _ => false

/-- Walk at lines 637-648: `replaceOp` every gpu.GridDimOp with the launch's
grid-size operand of the matching dimension. -/
def walkGridDim (l : LaunchOp) (st : WalkState) : WalkState :=
  let σ := gridDimSubstOf l st.innerBody
  { blockBody := st.blockBody.map (fun p => (p.1, substSOp σ p.2)),
    innerBody := (st.innerBody.filter (fun p => !isGridDimSOp p.2)).map
      (fun p => (p.1, substSOp σ p.2)) }

/-- Walk at lines 650-661: `replaceOp` every gpu.BlockDimOp with the
launch's block-size operand of the matching dimension. -/
def walkBlockDim (l : LaunchOp) (st : WalkState) : WalkState :=
  let σ := blockDimSubstOf l st.innerBody
  { blockBody := st.blockBody.map (fun p => (p.1, substSOp σ p.2)),
    innerBody := (st.innerBody.filter (fun p => !isBlockDimSOp p.2)).map
      (fun p => (p.1, substSOp σ p.2)) }

structure ScfParallelOp where
  lowerBounds : List LVal
  upperBounds : List LVal
  steps : List LVal
deriving DecidableEq, Repr

structure LoweredLaunch where
  asyncWrapped : Bool
  gpuWrapped : Bool
  structureMode : PolygeistGPUStructureMode
  gridParallel : ScfParallelOp
  threadParallel : ScfParallelOp
  blockBody : List (Nat × SOp)
  innerBody : List (Nat × SOp)
deriving DecidableEq, Repr

/-- Lines 485-492: each async dependency must be defined by a
polygeist.StreamToTokenOp (`v.getDefiningOp<polygeist::StreamToTokenOp>()`
is dereferenced unconditionally); any other defining op crashes. -/
def convertAsyncDeps : List AsyncDep → Option (List Nat)
  | [] => some []
  | AsyncDep.streamToToken s :: rest =>
    match convertAsyncDeps rest with
    | some ts => some (s :: ts)
    | none => none
  | AsyncDep.otherDef _ :: _ => none

/-- Embedding of the per-launch lowering in
`ParallelLower::runOnOperation` (lines 476-689): convert async
dependencies, build the outer grid parallel (lower bound 0, upper bounds
the three grid sizes, step 1), the optional structure markers, the inner
thread parallel (bounds the three block sizes), splice the body into the
innermost scope, and run the rewriting walks in source order. -/
def lowerLaunch (wrapParallelOps : Bool) (mode : PolygeistGPUStructureMode)
    (l : LaunchOp) : Option LoweredLaunch :=
  match convertAsyncDeps l.asyncDependencies with
  | none => none
  | some _ =>
    let st0 : WalkState := { blockBody := [], innerBody := splicedBody l }
    let st := walkBlockDim l (walkGridDim l (walkBarrier (walkThreadId
      (walkLLVMAlloca (walkMemrefAlloca (walkBlockId st0))))))
    some
      { asyncWrapped := !l.asyncDependencies.isEmpty,
        gpuWrapped := wrapParallelOps,
        structureMode := mode,
        gridParallel :=
          { lowerBounds :=
              [LVal.constIndex 0, LVal.constIndex 0, LVal.constIndex 0],
            upperBounds :=
              [LVal.ext l.gridSizeX, LVal.ext l.gridSizeY,
                LVal.ext l.gridSizeZ],
            steps :=
              [LVal.constIndex 1, LVal.constIndex 1, LVal.constIndex 1] },
        threadParallel :=
          { lowerBounds :=
              [LVal.constIndex 0, LVal.constIndex 0, LVal.constIndex 0],
            upperBounds :=
              [LVal.ext l.blockSizeX, LVal.ext l.blockSizeY,
                LVal.ext l.blockSizeZ],
            steps :=
              [LVal.constIndex 1, LVal.constIndex 1, LVal.constIndex 1] },
        blockBody := st.blockBody,
        innerBody := st.innerBody }

inductive TopItem where
  | launch (l : LaunchOp)
  | lowered (ll : LoweredLaunch)
  | otherTop (code : Nat)
deriving DecidableEq, Repr

/-- The per-module driver (lines 459-689): collect every launch, lower each
in place, and erase it (`builder.eraseOp(launchOp)`, line 688); everything
else is untouched.  (The final fold/canonicalize sweep at lines 692-696
runs with an empty pattern set.) -/
def parallelLowerKernels (wrap : Bool) (mode : PolygeistGPUStructureMode) :
    List TopItem → Option (List TopItem)
  | [] => some []
  | TopItem.launch l :: rest =>
    match lowerLaunch wrap mode l with
    | none => none
    | some ll =>
      match parallelLowerKernels wrap mode rest with
      | none => none
      | some rest2 => some (TopItem.lowered ll :: rest2)
  | it :: rest =>
    match parallelLowerKernels wrap mode rest with
    | none => none
    | some rest2 => some (it :: rest2)

/-! ### Machinery for characterizing the walk pipeline -/

/-- The total substitution the intrinsic walks implement, read off the
original kernel body: block-index results become the outer IV of the same
dimension, thread-index results the inner IV, grid/block-dimension results
the corresponding launch size operand. -/
def launchSubst (l : LaunchOp) : Nat → Option LVal := fun n =>
  match l.body.get? n with
  | some (KOp.blockIdOp d) => some (LVal.blockArg d)
  | some (KOp.threadIdOp d) => some (LVal.threadArg d)
  | some (KOp.gridDimOp d) => some (LVal.ext (l.gridSize d))
  | some (KOp.blockDimOp d) => some (LVal.ext (l.blockSize d))
  | _ => none

def blockIdLaunchSubst (l : LaunchOp) : Nat → Option LVal := fun n =>
  match l.body.get? n with
  | some (KOp.blockIdOp d) => some (LVal.blockArg d)
  | _ => none

def threadIdLaunchSubst (l : LaunchOp) : Nat → Option LVal := fun n =>
  match l.body.get? n with
  | some (KOp.threadIdOp d) => some (LVal.threadArg d)
  | _ => none

def gridDimLaunchSubst (l : LaunchOp) : Nat → Option LVal := fun n =>
  match l.body.get? n with
  | some (KOp.gridDimOp d) => some (LVal.ext (l.gridSize d))
  | _ => none

def blockDimLaunchSubst (l : LaunchOp) : Nat → Option LVal := fun n =>
  match l.body.get? n with
  | some (KOp.blockDimOp d) => some (LVal.ext (l.blockSize d))
  | _ => none

/-- What the whole walk sequence does to one spliced body entry: intrinsic
reads are erased (their results substituted per `launchSubst`), barriers
become polygeist.barrier over the inner IVs, space-5 allocas become casts
from their hoisted replacement, and every other op survives with its
operands rewritten through `launchSubst`. -/
def rewriteSpliced (l : LaunchOp) (p : Nat × SOp) : Option (Nat × SOp) :=
  match p.2 with
  | SOp.blockIdOp _ => none
  | SOp.threadIdOp _ => none
  | SOp.gridDimOp _ => none
  | SOp.blockDimOp _ => none
  | SOp.barrier0Op =>
    some (p.1, SOp.polygeistBarrierOp
      [LVal.threadArg GpuDim.x, LVal.threadArg GpuDim.y,
        LVal.threadArg GpuDim.z])
  | SOp.memrefAllocaOp ty =>
    if ty.space = some 5 then
      some (p.1, SOp.memrefCastOp ty (LVal.hoisted p.1))
    else some (p.1, SOp.memrefAllocaOp ty)
  | SOp.llvmAllocaOp ty sz =>
    if ty.space = 5 then
      some (p.1, SOp.llvmAddrSpaceCastOp ty (LVal.hoisted p.1))
    else some (p.1, SOp.llvmAllocaOp ty (substLVal (launchSubst l) sz))
  | op => some (p.1, substSOp (launchSubst l) op)

/-- The space-5 memref allocas hoisted (rebuilt without the memory-space
attribute) to the block scope. -/
def hoistMemref (p : Nat × SOp) : Option (Nat × SOp) :=
  match p.2 with
  | SOp.memrefAllocaOp ty =>
    if ty.space = some 5 then
      some (p.1, SOp.memrefAllocaOp { ty with space := none })
    else none
  | _ => none

/-- The space-5 llvm allocas hoisted (rebuilt in address space 0, with the
rewritten array-size operand) to the block scope. -/
def hoistLLVM (l : LaunchOp) (p : Nat × SOp) : Option (Nat × SOp) :=
  match p.2 with
  | SOp.llvmAllocaOp ty sz =>
    if ty.space = 5 then
      some (p.1, SOp.llvmAllocaOp ⟨ty.elem, 0⟩
        (substLVal (launchSubst l) sz))
    else none
  | _ => none

theorem list_filter_map_eq_filterMap {α β : Type} (p : α → Bool) (f : α → β)
    (l : List α) :
    (l.filter p).map f =
      l.filterMap (fun a => if p a then some (f a) else none) := by
  induction l with
  | nil => rfl
  | cons x xs ih =>
    by_cases hx : p x
    · simp [List.filter_cons, hx, List.filterMap_cons, ih]
    · simp [List.filter_cons, hx, List.filterMap_cons, ih]

theorem enumFrom_mem_facts {α : Type} :
    ∀ (xs : List α) (k m : Nat) (x : α), (m, x) ∈ List.enumFrom k xs →
      k ≤ m ∧ xs.get? (m - k) = some x := by
  intro xs
  induction xs with
  | nil => intro k m x h; simp [List.enumFrom] at h
  | cons y ys ih =>
    intro k m x h
    simp only [List.enumFrom, List.mem_cons] at h
    rcases h with h | h
    · simp only [Prod.mk.injEq] at h
      obtain ⟨rfl, rfl⟩ := h
      exact ⟨le_rfl, by simp⟩
    · obtain ⟨hle, hget⟩ := ih (k + 1) m x h
      refine ⟨le_trans (Nat.le_succ k) hle, ?_⟩
      have : m - k = (m - (k + 1)) + 1 := by omega
      rw [this]
      simpa using hget
theorem mem_enum_get? {α : Type} (xs : List α) (m : Nat) (x : α)
    (h : (m, x) ∈ xs.enum) : xs.get? m = some x := by
  have := enumFrom_mem_facts xs 0 m x h
  simpa using this.2

theorem lookup_enumFrom {α : Type} :
    ∀ (xs : List α) (k n : Nat),
      (List.enumFrom k xs).lookup (k + n) = xs.get? n := by
  intro xs
  induction xs with
  | nil => intro k n; rfl
  | cons y ys ih =>
    intro k n
    cases n with
    | zero => simp [List.enumFrom, List.lookup]
    | succ n =>
      have hne : (k + (n + 1) == k) = false :=
        beq_eq_false_iff_ne.mpr (by omega)
      simp only [List.enumFrom, List.lookup, hne]
      have heq2 : k + (n + 1) = (k + 1) + n := by omega
      rw [heq2, ih (k + 1) n]
      rfl

theorem lookup_enum {α : Type} (xs : List α) (n : Nat) :
    (xs.enum).lookup n = xs.get? n := by
  have := lookup_enumFrom xs 0 n
  simpa [List.enum] using this

theorem splicedBody_lookup (l : LaunchOp) (n : Nat) :
    (splicedBody l).lookup n = (l.body.get? n).map (spliceOp l) := by
  unfold splicedBody
  rw [lookup_enum, List.get?_map]

theorem splicedBody_keys (l : LaunchOp) :
    (splicedBody l).map Prod.fst = List.range l.body.length := by
  unfold splicedBody
  rw [List.enum_map_fst, List.length_map]

theorem lookup_none_of_not_mem_keys {xs : List (Nat × SOp)} {n : Nat}
    (h : n ∉ xs.map Prod.fst) : xs.lookup n = none := by
  induction xs with
  | nil => rfl
  | cons p ps ih =>
    simp only [List.map_cons, List.mem_cons, not_or] at h
    have hne : (n == p.1) = false := by simp [h.1]
    cases p with
    | mk k a =>
      simp only [List.lookup, hne]
      exact ih h.2

theorem keys_filterMap_sublist {F : (Nat × SOp) → Option (Nat × SOp)}
    (hF : ∀ p q, F p = some q → q.1 = p.1) :
    ∀ xs : List (Nat × SOp),
      ((xs.filterMap F).map Prod.fst).Sublist (xs.map Prod.fst) := by
  intro xs
  induction xs with
  | nil => simp
  | cons p ps ih =>
    cases hFp : F p with
    | none =>
      simp only [List.filterMap_cons, hFp, List.map_cons]
      exact ih.cons p.1
    | some q =>
      simp only [List.filterMap_cons, hFp, List.map_cons]
      rw [hF p q hFp]
      exact ih.cons₂ p.1

theorem lookup_filterMap_keyed {F : (Nat × SOp) → Option (Nat × SOp)}
    (hF : ∀ p q, F p = some q → q.1 = p.1) :
    ∀ (xs : List (Nat × SOp)), (xs.map Prod.fst).Nodup → ∀ n,
      (xs.filterMap F).lookup n =
        match xs.lookup n with
        | some a => (F (n, a)).map Prod.snd
        | none => none := by
  intro xs
  induction xs with
  | nil => intro _ n; rfl
  | cons p ps ih =>
    intro hnd n
    simp only [List.map_cons, List.nodup_cons] at hnd
    obtain ⟨hk, hnd2⟩ := hnd
    cases p with
    | mk k a =>
      by_cases hn : n = k
      · subst hn
        cases hFp : F (n, a) with
        | none =>
          simp only [List.filterMap_cons, hFp]
          have hnotin : n ∉ (ps.filterMap F).map Prod.fst := fun hmem =>
            hk ((keys_filterMap_sublist hF ps).mem hmem)
          rw [lookup_none_of_not_mem_keys hnotin]
          simp [List.lookup, hFp]
        | some q =>
          have hq1 : q.1 = n := hF _ _ hFp
          simp only [List.filterMap_cons, hFp]
          cases q with
          | mk q1 q2 =>
            simp only at hq1
            subst hq1
            simp [List.lookup, hFp]
      · have hne : (n == k) = false := by simp [hn]
        cases hFp : F (k, a) with
        | none =>
          simp only [List.filterMap_cons, hFp]
          rw [ih hnd2 n]
          simp [List.lookup, hne]
        | some q =>
          have hq1 : q.1 = k := hF _ _ hFp
          simp only [List.filterMap_cons, hFp]
          cases q with
          | mk q1 q2 =>
            simp only at hq1
            subst hq1
            simp only [List.lookup, hne]
            rw [ih hnd2 n]

/-! ### Closed forms of the walk pipeline, stage by stage -/

def stage1F (l : LaunchOp) (p : Nat × SOp) : Option (Nat × SOp) :=
  if !isBlockIdSOp p.2 then
    some (p.1, substSOp (blockIdLaunchSubst l) p.2)
  else none

def memrefAllocaRepl (p : Nat × SOp) : Nat × SOp :=
  match p.2 with
  | SOp.memrefAllocaOp ty =>
    if ty.space = some 5 then (p.1, SOp.memrefCastOp ty (LVal.hoisted p.1))
    else p
  | _ => p

def llvmAllocaRepl (p : Nat × SOp) : Nat × SOp :=
  match p.2 with
  | SOp.llvmAllocaOp ty _ =>
    if ty.space = 5 then (p.1, SOp.llvmAddrSpaceCastOp ty (LVal.hoisted p.1))
    else p
  | _ => p

def barrierRepl (p : Nat × SOp) : Nat × SOp :=
  match p.2 with
  | SOp.barrier0Op =>
    (p.1, SOp.polygeistBarrierOp
      [LVal.threadArg GpuDim.x, LVal.threadArg GpuDim.y,
        LVal.threadArg GpuDim.z])
  | _ => p

def stage2F (l : LaunchOp) (p : Nat × SOp) : Option (Nat × SOp) :=
  (stage1F l p).map memrefAllocaRepl

def stage3F (l : LaunchOp) (p : Nat × SOp) : Option (Nat × SOp) :=
  (stage2F l p).map llvmAllocaRepl

def stage4F (l : LaunchOp) (p : Nat × SOp) : Option (Nat × SOp) :=
  (stage3F l p).bind (fun q =>
    if !isThreadIdSOp q.2 then
      some (q.1, substSOp (threadIdLaunchSubst l) q.2)
    else none)

def stage5F (l : LaunchOp) (p : Nat × SOp) : Option (Nat × SOp) :=
  (stage4F l p).map barrierRepl

def stage6F (l : LaunchOp) (p : Nat × SOp) : Option (Nat × SOp) :=
  (stage5F l p).bind (fun q =>
    if !isGridDimSOp q.2 then
      some (q.1, substSOp (gridDimLaunchSubst l) q.2)
    else none)

def stage7F (l : LaunchOp) (p : Nat × SOp) : Option (Nat × SOp) :=
  (stage6F l p).bind (fun q =>
    if !isBlockDimSOp q.2 then
      some (q.1, substSOp (blockDimLaunchSubst l) q.2)
    else none)

theorem filterMap_fun_congr {α β : Type} {f g : α → Option β}
    (h : ∀ a, f a = g a) (l : List α) : l.filterMap f = l.filterMap g := by
  have hfg : f = g := funext h
  rw [hfg]

theorem stage1F_key {l : LaunchOp} (p q : Nat × SOp)
    (h : stage1F l p = some q) : q.1 = p.1 := by
  unfold stage1F at h
  by_cases hb : isBlockIdSOp p.2
  · exact absurd h (by simp [hb])
  · simp only [hb, Bool.not_false, if_true, Option.some.injEq] at h
    rw [← h]

theorem stage3F_key {l : LaunchOp} (p q : Nat × SOp)
    (h : stage3F l p = some q) : q.1 = p.1 := by
  unfold stage3F stage2F at h
  cases h1 : stage1F l p with
  | none => rw [h1] at h; exact Option.noConfusion h
  | some r =>
    rw [h1] at h
    have h2 : (memrefAllocaRepl r).1 = r.1 := by
      unfold memrefAllocaRepl
      cases r2 : r.2 <;>
        first
          | rfl
          | (split <;> first
              | rfl
              | (split <;> rfl))
    have h3 : (llvmAllocaRepl (memrefAllocaRepl r)).1 =
        (memrefAllocaRepl r).1 := by
      unfold llvmAllocaRepl
      cases r2 : (memrefAllocaRepl r).2 <;>
        first
          | rfl
          | (split <;> first
              | rfl
              | (split <;> rfl))
    have h4 : llvmAllocaRepl (memrefAllocaRepl r) = q := by
      have hmap := h
      simp only [Option.map_some', Option.some.injEq] at hmap
      exact hmap
    rw [← h4, h3, h2, stage1F_key p r h1]

theorem stage5F_key {l : LaunchOp} (p q : Nat × SOp)
    (h : stage5F l p = some q) : q.1 = p.1 := by
  unfold stage5F stage4F at h
  cases h3 : stage3F l p with
  | none => rw [h3] at h; exact Option.noConfusion h
  | some r =>
    rw [h3] at h
    simp only [Option.some_bind] at h
    by_cases ht : isThreadIdSOp r.2
    · exact absurd h (by simp [ht])
    · simp only [ht, Bool.not_false, if_true, Option.map_some',
        Option.some.injEq] at h
      have hb : (barrierRepl (r.1, substSOp (threadIdLaunchSubst l) r.2)).1
          = r.1 := by
        unfold barrierRepl
        cases r2 : substSOp (threadIdLaunchSubst l) r.2 <;> rfl
      rw [← h, hb, stage3F_key p r h3]

theorem stage6F_key {l : LaunchOp} (p q : Nat × SOp)
    (h : stage6F l p = some q) : q.1 = p.1 := by
  unfold stage6F at h
  cases h5 : stage5F l p with
  | none => rw [h5] at h; exact Option.noConfusion h
  | some r =>
    rw [h5] at h
    simp only [Option.some_bind] at h
    by_cases hg : isGridDimSOp r.2
    · exact absurd h (by simp [hg])
    · simp only [hg, Bool.not_false, if_true, Option.some.injEq] at h
      rw [← h]
      exact stage5F_key p r h5

theorem splicedBody_keys_nodup (l : LaunchOp) :
    ((splicedBody l).map Prod.fst).Nodup := by
  rw [splicedBody_keys]
  exact List.nodup_range _

theorem blockIdSubstOf_spliced (l : LaunchOp) :
    blockIdSubstOf (splicedBody l) = blockIdLaunchSubst l := by
  funext n
  unfold blockIdSubstOf blockIdLaunchSubst
  rw [splicedBody_lookup]
  cases hb : l.body.get? n with
  | none => rfl
  | some op => cases op <;> rfl

theorem threadIdSubstOf_stage3 (l : LaunchOp) :
    threadIdSubstOf ((splicedBody l).filterMap (stage3F l)) =
      threadIdLaunchSubst l := by
  funext n
  unfold threadIdSubstOf threadIdLaunchSubst
  rw [lookup_filterMap_keyed (fun p q h => stage3F_key p q h) (splicedBody l)
    (splicedBody_keys_nodup l) n]
  rw [splicedBody_lookup]
  cases hb : l.body.get? n with
  | none => rfl
  | some op =>
    cases op <;>
      simp only [Option.map_some', stage3F, stage2F, stage1F, spliceOp,
        substSOp, isBlockIdSOp, Bool.not_false, Bool.not_true, if_true,
        ite_true, Option.some_bind, memrefAllocaRepl, llvmAllocaRepl] <;>
      first
        | rfl
        | (split_ifs <;> rfl)

theorem gridDimSubstOf_stage5 (l : LaunchOp) :
    gridDimSubstOf l ((splicedBody l).filterMap (stage5F l)) =
      gridDimLaunchSubst l := by
  funext n
  unfold gridDimSubstOf gridDimLaunchSubst
  rw [lookup_filterMap_keyed (fun p q h => stage5F_key p q h) (splicedBody l)
    (splicedBody_keys_nodup l) n]
  rw [splicedBody_lookup]
  cases hb : l.body.get? n with
  | none => rfl
  | some op =>
    cases op <;>
      simp only [Option.map_some', stage5F, stage4F, stage3F, stage2F,
        stage1F, spliceOp, substSOp, isBlockIdSOp, isThreadIdSOp,
        Bool.not_false, Bool.not_true, if_true, ite_true, if_false,
        ite_false, Option.some_bind, Option.none_bind, Option.map_none',
        memrefAllocaRepl, llvmAllocaRepl, barrierRepl] <;>
      first
        | rfl
        | (split_ifs <;> rfl)

theorem blockDimSubstOf_stage6 (l : LaunchOp) :
    blockDimSubstOf l ((splicedBody l).filterMap (stage6F l)) =
      blockDimLaunchSubst l := by
  funext n
  unfold blockDimSubstOf blockDimLaunchSubst
  rw [lookup_filterMap_keyed (fun p q h => stage6F_key p q h) (splicedBody l)
    (splicedBody_keys_nodup l) n]
  rw [splicedBody_lookup]
  cases hb : l.body.get? n with
  | none => rfl
  | some op =>
    cases op <;>
      simp only [Option.map_some', stage6F, stage5F, stage4F, stage3F,
        stage2F, stage1F, spliceOp, substSOp, isBlockIdSOp, isThreadIdSOp,
        isGridDimSOp, Bool.not_false, Bool.not_true, if_true, ite_true,
        if_false, ite_false, Option.some_bind, Option.none_bind,
        Option.map_none', memrefAllocaRepl, llvmAllocaRepl, barrierRepl] <;>
      first
        | rfl
        | (split_ifs <;> rfl)

theorem substLVal_pipeline (l : LaunchOp) (v : LVal) :
    substLVal (blockDimLaunchSubst l) (substLVal (gridDimLaunchSubst l)
      (substLVal (threadIdLaunchSubst l)
        (substLVal (blockIdLaunchSubst l) v))) =
      substLVal (launchSubst l) v := by
  cases v with
  | res n =>
    simp only [substLVal, blockIdLaunchSubst, threadIdLaunchSubst,
      gridDimLaunchSubst, blockDimLaunchSubst, launchSubst,
      List.get?_eq_getElem?]
    cases hb : l.body[n]? with
    | none => simp [substLVal, hb]
    | some op => cases op <;> simp [substLVal, hb]
  | constIndex m => rfl
  | blockArg d => rfl
  | threadArg d => rfl
  | hoisted m => rfl
  | ext m => rfl

theorem substSOp_pipeline (l : LaunchOp) (op : SOp) :
    substSOp (blockDimLaunchSubst l) (substSOp (gridDimLaunchSubst l)
      (substSOp (threadIdLaunchSubst l)
        (substSOp (blockIdLaunchSubst l) op))) =
      substSOp (launchSubst l) op := by
  cases op <;>
    simp only [substSOp, List.map_map, Function.comp_def, substLVal_pipeline]

def hoistLLVMW (p : Nat × SOp) : Option (Nat × SOp) :=
  match p.2 with
  | SOp.llvmAllocaOp ty sz =>
    if ty.space = 5 then some (p.1, SOp.llvmAllocaOp ⟨ty.elem, 0⟩ sz)
    else none
  | _ => none

/-- The walk sequence collapses, entry by entry, to `rewriteSpliced`. -/
theorem stage7F_eq (l : LaunchOp) (p : Nat × SOp) :
    stage7F l p = rewriteSpliced l p := by
  obtain ⟨n, op⟩ := p
  unfold stage7F stage6F stage5F stage4F stage3F stage2F stage1F
  unfold rewriteSpliced
  cases op <;>
    simp only [isBlockIdSOp, isThreadIdSOp, isGridDimSOp, isBlockDimSOp,
      Bool.not_true, Bool.not_false, if_true, ite_true, if_false, ite_false,
      Option.map_some', Option.map_none', Option.some_bind, Option.none_bind,
      substSOp, memrefAllocaRepl, llvmAllocaRepl, barrierRepl]
  case blockIdOp d => rfl
  case threadIdOp d => rfl
  case gridDimOp d => rfl
  case blockDimOp d => rfl
  case barrier0Op => rfl
  case polygeistBarrierOp args =>
    simp only [List.map_map, Function.comp_def, substLVal_pipeline]
  case memrefAllocaOp ty =>
    by_cases hsp : ty.space = some 5 <;>
      simp [hsp, substSOp, substLVal, barrierRepl, llvmAllocaRepl,
        isGridDimSOp, isBlockDimSOp]
  case llvmAllocaOp ty sz =>
    by_cases hsp : ty.space = 5
    · simp [hsp, substSOp, substLVal, barrierRepl, memrefAllocaRepl,
        isGridDimSOp, isBlockDimSOp]
    · simp [hsp, substSOp, barrierRepl, memrefAllocaRepl,
        isGridDimSOp, isBlockDimSOp, substLVal_pipeline]
  case memrefCastOp ty o =>
    simp only [substLVal_pipeline]
  case llvmAddrSpaceCastOp ty o =>
    simp only [substLVal_pipeline]
  case genericOp c os =>
    simp only [List.map_map, Function.comp_def, substLVal_pipeline]

def hoistLLVM1 (l : LaunchOp) (p : Nat × SOp) : Option (Nat × SOp) :=
  match p.2 with
  | SOp.llvmAllocaOp ty sz =>
    if ty.space = 5 then
      some (p.1, SOp.llvmAllocaOp ⟨ty.elem, 0⟩
        (substLVal (blockIdLaunchSubst l) sz))
    else none
  | _ => none

theorem walkBlockId_state (l : LaunchOp) :
    walkBlockId ⟨[], splicedBody l⟩ =
      ⟨[], (splicedBody l).filterMap (stage1F l)⟩ := by
  simp only [walkBlockId, blockIdSubstOf_spliced, List.map_nil]
  rw [WalkState.mk.injEq]
  refine ⟨rfl, ?_⟩
  rw [list_filter_map_eq_filterMap]
  exact filterMap_fun_congr (fun p => rfl) _

theorem walkMemrefAlloca_state (l : LaunchOp) :
    walkMemrefAlloca ⟨[], (splicedBody l).filterMap (stage1F l)⟩ =
      ⟨((splicedBody l).filterMap hoistMemref).reverse,
        (splicedBody l).filterMap (stage2F l)⟩ := by
  simp only [walkMemrefAlloca, List.append_nil, List.filterMap_filterMap,
    List.map_filterMap]
  rw [WalkState.mk.injEq]
  constructor
  · congr 1
    refine filterMap_fun_congr (fun p => ?_) _
    obtain ⟨n, op⟩ := p
    cases op <;>
      simp only [stage1F, isBlockIdSOp, Bool.not_true, Bool.not_false,
        if_true, ite_true, if_false, ite_false, Option.some_bind,
        Option.none_bind, substSOp, hoistMemref] <;>
      first
        | rfl
        | (split_ifs <;> rfl)
  · refine filterMap_fun_congr (fun p => ?_) _
    rfl

theorem walkLLVMAlloca_state (l : LaunchOp) (M : List (Nat × SOp)) :
    walkLLVMAlloca ⟨M, (splicedBody l).filterMap (stage2F l)⟩ =
      ⟨((splicedBody l).filterMap (hoistLLVM1 l)).reverse ++ M,
        (splicedBody l).filterMap (stage3F l)⟩ := by
  simp only [walkLLVMAlloca, List.filterMap_filterMap, List.map_filterMap]
  rw [WalkState.mk.injEq]
  constructor
  · congr 2
    refine filterMap_fun_congr (fun p => ?_) _
    obtain ⟨n, op⟩ := p
    cases op <;>
      simp only [stage2F, stage1F, isBlockIdSOp, Bool.not_true,
        Bool.not_false, if_true, ite_true, if_false, ite_false,
        Option.some_bind, Option.none_bind, Option.map_some',
        Option.map_none', substSOp, memrefAllocaRepl, hoistLLVM1] <;>
      first
        | rfl
        | (split_ifs <;> rfl)
  · refine filterMap_fun_congr (fun p => ?_) _
    rfl

theorem walkThreadId_state (l : LaunchOp) (B : List (Nat × SOp)) :
    walkThreadId ⟨B, (splicedBody l).filterMap (stage3F l)⟩ =
      ⟨B.map (fun p => (p.1, substSOp (threadIdLaunchSubst l) p.2)),
        (splicedBody l).filterMap (stage4F l)⟩ := by
  simp only [walkThreadId, threadIdSubstOf_stage3]
  rw [WalkState.mk.injEq]
  refine ⟨rfl, ?_⟩
  rw [list_filter_map_eq_filterMap, List.filterMap_filterMap]
  refine filterMap_fun_congr (fun p => ?_) _
  rfl

theorem walkBarrier_state (l : LaunchOp) (B : List (Nat × SOp)) :
    walkBarrier ⟨B, (splicedBody l).filterMap (stage4F l)⟩ =
      ⟨B, (splicedBody l).filterMap (stage5F l)⟩ := by
  simp only [walkBarrier, List.map_filterMap]
  rw [WalkState.mk.injEq]
  refine ⟨rfl, ?_⟩
  refine filterMap_fun_congr (fun p => ?_) _
  rfl

theorem walkGridDim_state (l : LaunchOp) (B : List (Nat × SOp)) :
    walkGridDim l ⟨B, (splicedBody l).filterMap (stage5F l)⟩ =
      ⟨B.map (fun p => (p.1, substSOp (gridDimLaunchSubst l) p.2)),
        (splicedBody l).filterMap (stage6F l)⟩ := by
  simp only [walkGridDim, gridDimSubstOf_stage5]
  rw [WalkState.mk.injEq]
  refine ⟨rfl, ?_⟩
  rw [list_filter_map_eq_filterMap, List.filterMap_filterMap]
  refine filterMap_fun_congr (fun p => ?_) _
  rfl

theorem walkBlockDim_state (l : LaunchOp) (B : List (Nat × SOp)) :
    walkBlockDim l ⟨B, (splicedBody l).filterMap (stage6F l)⟩ =
      ⟨B.map (fun p => (p.1, substSOp (blockDimLaunchSubst l) p.2)),
        (splicedBody l).filterMap (stage7F l)⟩ := by
  simp only [walkBlockDim, blockDimSubstOf_stage6]
  rw [WalkState.mk.injEq]
  refine ⟨rfl, ?_⟩
  rw [list_filter_map_eq_filterMap, List.filterMap_filterMap]
  refine filterMap_fun_congr (fun p => ?_) _
  rfl

/-- The whole walk sequence in `lowerLaunch` collapses to a closed form:
the grid-parallel block body holds the hoisted space-5 allocas (llvm then
memref, each group in reverse walk order) and the inner body is the spliced
launch body rewritten entry by entry. -/
theorem pipeline_closed (l : LaunchOp) :
    walkBlockDim l (walkGridDim l (walkBarrier (walkThreadId (walkLLVMAlloca
      (walkMemrefAlloca (walkBlockId ⟨[], splicedBody l⟩)))))) =
      ⟨((splicedBody l).filterMap (hoistLLVM l)).reverse ++
          ((splicedBody l).filterMap hoistMemref).reverse,
        (splicedBody l).filterMap (rewriteSpliced l)⟩ := by
  rw [walkBlockId_state, walkMemrefAlloca_state, walkLLVMAlloca_state,
    walkThreadId_state, walkBarrier_state, walkGridDim_state,
    walkBlockDim_state]
  rw [WalkState.mk.injEq]
  constructor
  · simp only [List.map_append, List.map_reverse, List.map_filterMap]
    congr 2
    · refine filterMap_fun_congr (fun p => ?_) _
      obtain ⟨n, op⟩ := p
      cases op <;>
        simp only [hoistLLVM1, hoistLLVM, Option.map_some',
          Option.map_none', substSOp] <;>
        first
          | rfl
          | (split_ifs <;> simp [substSOp, substLVal_pipeline])
    · refine filterMap_fun_congr (fun p => ?_) _
      obtain ⟨n, op⟩ := p
      cases op <;>
        simp only [hoistMemref, Option.map_some', Option.map_none',
          substSOp] <;>
        first
          | rfl
          | (split_ifs <;> rfl)
  · exact filterMap_fun_congr (fun p => stage7F_eq l p) _

/-- The operand values an SOp reads. -/
def operandsOfSOp : SOp → List LVal
  | SOp.polygeistBarrierOp args => args
  | SOp.llvmAllocaOp _ sz => [sz]
  | SOp.memrefCastOp _ o => [o]
  | SOp.llvmAddrSpaceCastOp _ o => [o]
  | SOp.genericOp _ os => os
  | _ => []

theorem operandsOf_substSOp (σ : Nat → Option LVal) (op : SOp) :
    operandsOfSOp (substSOp σ op) = (operandsOfSOp op).map (substLVal σ) := by
  cases op <;> rfl

theorem launchSubst_shape (l : LaunchOp) (m : Nat) (w : LVal)
    (h : launchSubst l m = some w) :
    (∀ k, w ≠ LVal.res k) ∧ (∀ k, w ≠ LVal.hoisted k) := by
  unfold launchSubst at h
  cases hb : l.body.get? m with
  | none => rw [hb] at h; exact absurd h (by simp)
  | some op =>
    rw [hb] at h
    cases op <;> (cases h; try exact ⟨fun k => by simp, fun k => by simp⟩)

theorem substLVal_launchSubst_ne_res (l : LaunchOp) (n : Nat)
    (hn : launchSubst l n ≠ none) (v : LVal) :
    substLVal (launchSubst l) v ≠ LVal.res n := by
  cases v with
  | res m =>
    show (launchSubst l m).getD (LVal.res m) ≠ LVal.res n
    cases hm : launchSubst l m with
    | none =>
      simp only [Option.getD_none]
      intro heq
      injection heq with heq2
      rw [heq2] at hm
      exact hn hm
    | some w =>
      simp only [Option.getD_some]
      exact (launchSubst_shape l m w hm).1 n
  | constIndex m => simp [substLVal]
  | blockArg d => simp [substLVal]
  | threadArg d => simp [substLVal]
  | hoisted m => simp [substLVal]
  | ext m => simp [substLVal]

theorem rewriteSpliced_no_res (l : LaunchOp) (n : Nat)
    (hn : launchSubst l n ≠ none) (p q : Nat × SOp)
    (h : rewriteSpliced l p = some q) : LVal.res n ∉ operandsOfSOp q.2 := by
  obtain ⟨m, op⟩ := p
  unfold rewriteSpliced at h
  dsimp only at h
  cases op with
  | blockIdOp d => exact absurd h (by simp)
  | threadIdOp d => exact absurd h (by simp)
  | gridDimOp d => exact absurd h (by simp)
  | blockDimOp d => exact absurd h (by simp)
  | barrier0Op => cases h; simp [operandsOfSOp]
  | memrefAllocaOp ty =>
    dsimp only at h
    split_ifs at h <;> cases h <;> simp [operandsOfSOp]
  | llvmAllocaOp ty sz =>
    dsimp only at h
    split_ifs at h <;> cases h
    · simp [operandsOfSOp]
    · simp only [operandsOfSOp, List.mem_singleton]
      intro heq
      exact substLVal_launchSubst_ne_res l n hn sz heq.symm
  | polygeistBarrierOp args =>
    cases h
    simp only [operandsOfSOp, substSOp, List.mem_map]
    rintro ⟨v, hv, hveq⟩
    exact substLVal_launchSubst_ne_res l n hn v hveq
  | memrefCastOp ty o =>
    cases h
    simp only [operandsOfSOp, substSOp, List.mem_singleton]
    intro heq
    exact substLVal_launchSubst_ne_res l n hn o heq.symm
  | llvmAddrSpaceCastOp ty o =>
    cases h
    simp only [operandsOfSOp, substSOp, List.mem_singleton]
    intro heq
    exact substLVal_launchSubst_ne_res l n hn o heq.symm
  | genericOp c os =>
    cases h
    simp only [operandsOfSOp, substSOp, List.mem_map]
    rintro ⟨v, hv, hveq⟩
    exact substLVal_launchSubst_ne_res l n hn v hveq

theorem rewriteSpliced_not_intrinsic (l : LaunchOp) (p q : Nat × SOp)
    (h : rewriteSpliced l p = some q) :
    isBlockIdSOp q.2 = false ∧ isThreadIdSOp q.2 = false := by
  obtain ⟨m, op⟩ := p
  unfold rewriteSpliced at h
  dsimp only at h
  cases op <;>
    first
      | (cases h <;> exact ⟨rfl, rfl⟩)
      | (dsimp only at h; split_ifs at h <;> cases h <;> exact ⟨rfl, rfl⟩)

theorem parallelLowerKernels_no_launch (w : Bool)
    (m : PolygeistGPUStructureMode) :
    ∀ (items out : List TopItem),
      parallelLowerKernels w m items = some out →
      ∀ l2, TopItem.launch l2 ∉ out := by
  intro items
  induction items with
  | nil =>
    intro out h l2
    unfold parallelLowerKernels at h
    cases h
    simp
  | cons it rest ih =>
    intro out h l2
    cases it with
    | launch l =>
      unfold parallelLowerKernels at h
      cases hl : lowerLaunch w m l with
      | none => rw [hl] at h; cases h
      | some ll =>
        rw [hl] at h
        cases hr : parallelLowerKernels w m rest with
        | none => rw [hr] at h; cases h
        | some rest2 =>
          rw [hr] at h
          cases h
          simp only [List.mem_cons, not_or]
          exact ⟨(fun heq => by cases heq), ih rest2 hr l2⟩
    | lowered ll =>
      unfold parallelLowerKernels at h
      cases hr : parallelLowerKernels w m rest with
      | none => rw [hr] at h; cases h
      | some rest2 =>
        rw [hr] at h
        cases h
        simp only [List.mem_cons, not_or]
        exact ⟨(fun heq => by cases heq), ih rest2 hr l2⟩
    | otherTop c =>
      unfold parallelLowerKernels at h
      cases hr : parallelLowerKernels w m rest with
      | none => rw [hr] at h; cases h
      | some rest2 =>
        rw [hr] at h
        cases h
        simp only [List.mem_cons, not_or]
        exact ⟨(fun heq => by cases heq), ih rest2 hr l2⟩

/-- C1: lowering a gpu launch yields two nested three-dimensional scf
parallels with lower bound 0 and step 1 in all six dimensions and upper
bounds the grid sizes then the block sizes; every block-index read is
replaced by the outer IV of its dimension and every thread-index read by
the inner IV (the intrinsic ops themselves are gone and no surviving
operand references them), and the driver leaves no launch op in the
module. -/
theorem C1_launch_lowering (wrap : Bool) (mode : PolygeistGPUStructureMode)
    (l : LaunchOp) (ll : LoweredLaunch)
    (h : lowerLaunch wrap mode l = some ll) :
    ll.gridParallel =
        ⟨[LVal.constIndex 0, LVal.constIndex 0, LVal.constIndex 0],
          [LVal.ext l.gridSizeX, LVal.ext l.gridSizeY, LVal.ext l.gridSizeZ],
          [LVal.constIndex 1, LVal.constIndex 1, LVal.constIndex 1]⟩ ∧
      ll.threadParallel =
        ⟨[LVal.constIndex 0, LVal.constIndex 0, LVal.constIndex 0],
          [LVal.ext l.blockSizeX, LVal.ext l.blockSizeY,
            LVal.ext l.blockSizeZ],
          [LVal.constIndex 1, LVal.constIndex 1, LVal.constIndex 1]⟩ ∧
      ll.innerBody = (splicedBody l).filterMap (rewriteSpliced l) ∧
      (∀ n d, l.body.get? n = some (KOp.blockIdOp d) →
        substLVal (launchSubst l) (LVal.res n) = LVal.blockArg d ∧
          ∀ q ∈ ll.innerBody, LVal.res n ∉ operandsOfSOp q.2) ∧
      (∀ n d, l.body.get? n = some (KOp.threadIdOp d) →
        substLVal (launchSubst l) (LVal.res n) = LVal.threadArg d ∧
          ∀ q ∈ ll.innerBody, LVal.res n ∉ operandsOfSOp q.2) ∧
      (∀ q ∈ ll.innerBody,
        isBlockIdSOp q.2 = false ∧ isThreadIdSOp q.2 = false) ∧
      parallelLowerKernels wrap mode [TopItem.launch l] =
        some [TopItem.lowered ll] ∧
      (∀ items out, parallelLowerKernels wrap mode items = some out →
        ∀ l2, TopItem.launch l2 ∉ out) := by
  have horig := h
  simp only [lowerLaunch] at h
  cases hc : convertAsyncDeps l.asyncDependencies with
  | none => rw [hc] at h; cases h
  | some ts =>
    rw [hc] at h
    rw [Option.some.injEq] at h
    have hinner : ll.innerBody = (splicedBody l).filterMap (rewriteSpliced l) := by
      rw [← h]
      show (walkBlockDim l (walkGridDim l (walkBarrier (walkThreadId
        (walkLLVMAlloca (walkMemrefAlloca
          (walkBlockId ⟨[], splicedBody l⟩))))))).innerBody = _
      rw [pipeline_closed]
    refine ⟨?_, ?_, hinner, ?_, ?_, ?_, ?_, ?_⟩
    · rw [← h]
    · rw [← h]
    · intro n d hb
      have hσ : launchSubst l n = some (LVal.blockArg d) := by
        unfold launchSubst; rw [hb]
      refine ⟨?_, ?_⟩
      · show (launchSubst l n).getD (LVal.res n) = LVal.blockArg d
        rw [hσ]; rfl
      · intro q hq
        rw [hinner, List.mem_filterMap] at hq
        obtain ⟨p, hp, hpq⟩ := hq
        exact rewriteSpliced_no_res l n (by simp [hσ]) p q hpq
    · intro n d hb
      have hσ : launchSubst l n = some (LVal.threadArg d) := by
        unfold launchSubst; rw [hb]
      refine ⟨?_, ?_⟩
      · show (launchSubst l n).getD (LVal.res n) = LVal.threadArg d
        rw [hσ]; rfl
      · intro q hq
        rw [hinner, List.mem_filterMap] at hq
        obtain ⟨p, hp, hpq⟩ := hq
        exact rewriteSpliced_no_res l n (by simp [hσ]) p q hpq
    · intro q hq
      rw [hinner, List.mem_filterMap] at hq
      obtain ⟨p, hp, hpq⟩ := hq
      exact rewriteSpliced_not_intrinsic l p q hpq
    · simp [parallelLowerKernels, horig]
    · exact fun items out h2 l2 => parallelLowerKernels_no_launch
        wrap mode items out h2 l2

def exampleLaunch : LaunchOp :=
  ⟨2, 3, 4, 5, 6, 7, [],
    [KOp.blockIdOp GpuDim.x, KOp.threadIdOp GpuDim.y,
      KOp.genericOp 7 [GVal.res 0, GVal.res 1]]⟩

def exampleLowered : LoweredLaunch :=
  { asyncWrapped := false,
    gpuWrapped := true,
    structureMode := PolygeistGPUStructureMode.PGSM_Discard,
    gridParallel :=
      ⟨[LVal.constIndex 0, LVal.constIndex 0, LVal.constIndex 0],
        [LVal.ext 2, LVal.ext 3, LVal.ext 4],
        [LVal.constIndex 1, LVal.constIndex 1, LVal.constIndex 1]⟩,
    threadParallel :=
      ⟨[LVal.constIndex 0, LVal.constIndex 0, LVal.constIndex 0],
        [LVal.ext 5, LVal.ext 6, LVal.ext 7],
        [LVal.constIndex 1, LVal.constIndex 1, LVal.constIndex 1]⟩,
    blockBody := [],
    innerBody :=
      [(2, SOp.genericOp 7
        [LVal.blockArg GpuDim.x, LVal.threadArg GpuDim.y])] }

theorem C1_launch_lowering_witness :
    lowerLaunch true PolygeistGPUStructureMode.PGSM_Discard exampleLaunch =
        some exampleLowered ∧
      exampleLowered.innerBody =
        (splicedBody exampleLaunch).filterMap (rewriteSpliced exampleLaunch) :=
  ⟨by decide, (C1_launch_lowering true PolygeistGPUStructureMode.PGSM_Discard
    exampleLaunch exampleLowered (by decide)).2.2.1⟩

theorem substLVal_launchSubst_ne_hoisted (l : LaunchOp) (n : Nat) (v : LVal)
    (hv : v ≠ LVal.hoisted n) :
    substLVal (launchSubst l) v ≠ LVal.hoisted n := by
  cases v with
  | res m =>
    show (launchSubst l m).getD (LVal.res m) ≠ LVal.hoisted n
    cases hm : launchSubst l m with
    | none => simp
    | some w =>
      simp only [Option.getD_some]
      exact (launchSubst_shape l m w hm).2 n
  | hoisted k => simpa [substLVal] using hv
  | constIndex m => simp [substLVal]
  | blockArg d => simp [substLVal]
  | threadArg d => simp [substLVal]
  | ext m => simp [substLVal]

theorem spliceVal_ne_hoisted (l : LaunchOp) (v : GVal) (n : Nat) :
    spliceVal l v ≠ LVal.hoisted n := by
  cases v with
  | arg i => fin_cases i <;> simp [spliceVal, spliceArg]
  | res m => simp [spliceVal]
  | ext m => simp [spliceVal]

theorem splicedBody_no_hoisted (l : LaunchOp) :
    ∀ p ∈ splicedBody l, ∀ n, LVal.hoisted n ∉ operandsOfSOp p.2 := by
  intro p hp n hmem
  obtain ⟨m, x⟩ := p
  have hget : (l.body.map (spliceOp l)).get? m = some x :=
    mem_enum_get? _ m x hp
  rw [List.get?_map] at hget
  cases hb : l.body.get? m with
  | none => rw [hb] at hget; cases hget
  | some k =>
    rw [hb] at hget
    rw [Option.map_some', Option.some.injEq] at hget
    rw [← hget] at hmem
    cases k with
    | llvmAllocaOp ty sz =>
      simp only [spliceOp, operandsOfSOp, List.mem_singleton] at hmem
      exact spliceVal_ne_hoisted l sz n hmem.symm
    | genericOp c os =>
      simp only [spliceOp, operandsOfSOp, List.mem_map] at hmem
      obtain ⟨v, hv, hveq⟩ := hmem
      exact spliceVal_ne_hoisted l v n hveq
    | blockIdOp d => simp [spliceOp, operandsOfSOp] at hmem
    | threadIdOp d => simp [spliceOp, operandsOfSOp] at hmem
    | gridDimOp d => simp [spliceOp, operandsOfSOp] at hmem
    | blockDimOp d => simp [spliceOp, operandsOfSOp] at hmem
    | barrier0Op => simp [spliceOp, operandsOfSOp] at hmem
    | memrefAllocaOp ty => simp [spliceOp, operandsOfSOp] at hmem

theorem rewriteSpliced_hoisted (l : LaunchOp) (n : Nat) (p q : Nat × SOp)
    (hp : ∀ k, LVal.hoisted k ∉ operandsOfSOp p.2)
    (h : rewriteSpliced l p = some q)
    (hmem : LVal.hoisted n ∈ operandsOfSOp q.2) :
    q.1 = n ∧ ((∃ ty, q.2 = SOp.memrefCastOp ty (LVal.hoisted n)) ∨
      (∃ ty, q.2 = SOp.llvmAddrSpaceCastOp ty (LVal.hoisted n))) := by
  obtain ⟨m, op⟩ := p
  unfold rewriteSpliced at h
  dsimp only at h
  cases op with
  | blockIdOp d => cases h
  | threadIdOp d => cases h
  | gridDimOp d => cases h
  | blockDimOp d => cases h
  | barrier0Op => cases h; simp [operandsOfSOp] at hmem
  | memrefAllocaOp ty =>
    dsimp only at h
    split_ifs at h <;> cases h
    · simp only [operandsOfSOp, List.mem_singleton] at hmem
      injection hmem with hmn
      subst hmn
      exact ⟨rfl, Or.inl ⟨ty, rfl⟩⟩
    · simp [operandsOfSOp] at hmem
  | llvmAllocaOp ty sz =>
    dsimp only at h
    split_ifs at h <;> cases h
    · simp only [operandsOfSOp, List.mem_singleton] at hmem
      injection hmem with hmn
      subst hmn
      exact ⟨rfl, Or.inr ⟨ty, rfl⟩⟩
    · simp only [operandsOfSOp, List.mem_singleton] at hmem
      have hsz : sz ≠ LVal.hoisted n := by
        intro heq
        exact hp n (by simp [operandsOfSOp, heq])
      exact absurd hmem.symm (substLVal_launchSubst_ne_hoisted l n sz hsz)
  | polygeistBarrierOp args =>
    cases h
    simp only [operandsOfSOp, substSOp, List.mem_map] at hmem
    obtain ⟨v, hv, hveq⟩ := hmem
    have hvk : v ≠ LVal.hoisted n := by
      intro heq
      exact hp n (by rw [← heq]; simpa [operandsOfSOp] using hv)
    exact absurd hveq (substLVal_launchSubst_ne_hoisted l n v hvk)
  | memrefCastOp ty o =>
    cases h
    simp only [operandsOfSOp, substSOp, List.mem_singleton] at hmem
    have hok : o ≠ LVal.hoisted n := by
      intro heq
      exact hp n (by simp [operandsOfSOp, heq])
    exact absurd hmem.symm (substLVal_launchSubst_ne_hoisted l n o hok)
  | llvmAddrSpaceCastOp ty o =>
    cases h
    simp only [operandsOfSOp, substSOp, List.mem_singleton] at hmem
    have hok : o ≠ LVal.hoisted n := by
      intro heq
      exact hp n (by simp [operandsOfSOp, heq])
    exact absurd hmem.symm (substLVal_launchSubst_ne_hoisted l n o hok)
  | genericOp c os =>
    cases h
    simp only [operandsOfSOp, substSOp, List.mem_map] at hmem
    obtain ⟨v, hv, hveq⟩ := hmem
    have hvk : v ≠ LVal.hoisted n := by
      intro heq
      exact hp n (by rw [← heq]; simpa [operandsOfSOp] using hv)
    exact absurd hveq (substLVal_launchSubst_ne_hoisted l n v hvk)

theorem rewriteSpliced_no_space5 (l : LaunchOp) (p q : Nat × SOp)
    (h : rewriteSpliced l p = some q) :
    (∀ ty, q.2 = SOp.memrefAllocaOp ty → ty.space ≠ some 5) ∧
      (∀ ty sz, q.2 = SOp.llvmAllocaOp ty sz → ty.space ≠ 5) := by
  obtain ⟨m, op⟩ := p
  unfold rewriteSpliced at h
  dsimp only at h
  cases op with
  | blockIdOp d => cases h
  | threadIdOp d => cases h
  | gridDimOp d => cases h
  | blockDimOp d => cases h
  | barrier0Op =>
    cases h
    exact ⟨(fun ty heq => by cases heq), fun ty sz heq => by cases heq⟩
  | memrefAllocaOp ty =>
    dsimp only at h
    split_ifs at h with hsp <;> cases h
    · exact ⟨(fun ty2 heq => by cases heq), fun ty2 sz heq => by cases heq⟩
    · refine ⟨fun ty2 heq => ?_, fun ty2 sz heq => by cases heq⟩
      injection heq with h2
      rw [← h2]
      exact hsp
  | llvmAllocaOp ty sz =>
    dsimp only at h
    split_ifs at h with hsp <;> cases h
    · exact ⟨(fun ty2 heq => by cases heq), fun ty2 sz2 heq => by cases heq⟩
    · refine ⟨(fun ty2 heq => by cases heq), fun ty2 sz2 heq => ?_⟩
      injection heq with h2 h3
      rw [← h2]
      exact hsp
  | polygeistBarrierOp args =>
    cases h
    exact ⟨(fun ty heq => by cases heq), fun ty sz heq => by cases heq⟩
  | memrefCastOp ty o =>
    cases h
    exact ⟨(fun ty2 heq => by cases heq), fun ty2 sz heq => by cases heq⟩
  | llvmAddrSpaceCastOp ty o =>
    cases h
    exact ⟨(fun ty2 heq => by cases heq), fun ty2 sz heq => by cases heq⟩
  | genericOp c os =>
    cases h
    exact ⟨(fun ty heq => by cases heq), fun ty sz heq => by cases heq⟩

theorem hoistMemref_shape (p q : Nat × SOp) (h : hoistMemref p = some q) :
    operandsOfSOp q.2 = [] ∧
      (∀ ty, q.2 = SOp.memrefAllocaOp ty → ty.space ≠ some 5) ∧
      (∀ ty sz, q.2 = SOp.llvmAllocaOp ty sz → ty.space ≠ 5) := by
  obtain ⟨m, op⟩ := p
  unfold hoistMemref at h
  dsimp only at h
  cases op <;> first
    | cases h
    | (dsimp only at h
       split_ifs at h <;> cases h
       refine ⟨rfl, fun ty2 heq => ?_, fun ty2 sz heq => by cases heq⟩
       injection heq with h2
       rw [← h2]
       simp)

theorem hoistLLVM_shape (l : LaunchOp) (p q : Nat × SOp)
    (hp : ∀ k, LVal.hoisted k ∉ operandsOfSOp p.2)
    (h : hoistLLVM l p = some q) :
    (∀ n, LVal.hoisted n ∉ operandsOfSOp q.2) ∧
      (∀ ty, q.2 = SOp.memrefAllocaOp ty → ty.space ≠ some 5) ∧
      (∀ ty sz, q.2 = SOp.llvmAllocaOp ty sz → ty.space ≠ 5) := by
  obtain ⟨m, op⟩ := p
  unfold hoistLLVM at h
  dsimp only at h
  cases op with
  | llvmAllocaOp ty sz =>
    dsimp only at h
    split_ifs at h <;> cases h
    refine ⟨fun n hmem => ?_, (fun ty2 heq => by cases heq),
      fun ty2 sz2 heq => ?_⟩
    · simp only [operandsOfSOp, List.mem_singleton] at hmem
      have hsz : sz ≠ LVal.hoisted n := by
        intro heq
        exact hp n (by simp [operandsOfSOp, heq])
      exact absurd hmem.symm (substLVal_launchSubst_ne_hoisted l n sz hsz)
    · injection heq with h2 h3
      rw [← h2]
      simp
  | blockIdOp d => cases h
  | threadIdOp d => cases h
  | gridDimOp d => cases h
  | blockDimOp d => cases h
  | barrier0Op => cases h
  | polygeistBarrierOp args => cases h
  | memrefAllocaOp ty => cases h
  | memrefCastOp ty o => cases h
  | llvmAddrSpaceCastOp ty o => cases h
  | genericOp c os => cases h

/-- C4: after lowering, every space-5 stack allocation (memref or llvm
form) of the spliced body has a default-address-space replacement hoisted
to the start of the block scope, the original position holds an explicit
cast from the hoisted allocation back to the original type, the hoisted
allocation is referenced only through that single cast, and no space-5
allocation survives anywhere in the lowered bodies. -/
theorem C4_space5_alloca_hoisting (wrap : Bool)
    (mode : PolygeistGPUStructureMode) (l : LaunchOp) (ll : LoweredLaunch)
    (h : lowerLaunch wrap mode l = some ll) :
    (∀ n ty, (n, SOp.memrefAllocaOp ty) ∈ splicedBody l →
      ty.space = some 5 →
        (n, SOp.memrefAllocaOp ⟨ty.elem, ty.layoutCode, none⟩) ∈
            ll.blockBody ∧
          (n, SOp.memrefCastOp ty (LVal.hoisted n)) ∈ ll.innerBody) ∧
      (∀ n ty sz, (n, SOp.llvmAllocaOp ty sz) ∈ splicedBody l →
        ty.space = 5 →
          (n, SOp.llvmAllocaOp ⟨ty.elem, 0⟩
              (substLVal (launchSubst l) sz)) ∈ ll.blockBody ∧
            (n, SOp.llvmAddrSpaceCastOp ty (LVal.hoisted n)) ∈
              ll.innerBody) ∧
      (∀ n, ∀ q ∈ ll.innerBody, LVal.hoisted n ∈ operandsOfSOp q.2 →
        q.1 = n ∧ ((∃ ty, q.2 = SOp.memrefCastOp ty (LVal.hoisted n)) ∨
          (∃ ty, q.2 = SOp.llvmAddrSpaceCastOp ty (LVal.hoisted n)))) ∧
      (∀ n, ∀ q ∈ ll.blockBody, LVal.hoisted n ∉ operandsOfSOp q.2) ∧
      (∀ q ∈ ll.blockBody ++ ll.innerBody,
        (∀ ty, q.2 = SOp.memrefAllocaOp ty → ty.space ≠ some 5) ∧
          (∀ ty sz, q.2 = SOp.llvmAllocaOp ty sz → ty.space ≠ 5)) := by
  simp only [lowerLaunch] at h
  cases hc : convertAsyncDeps l.asyncDependencies with
  | none => rw [hc] at h; cases h
  | some ts =>
    rw [hc] at h
    rw [Option.some.injEq] at h
    have hblock : ll.blockBody =
        ((splicedBody l).filterMap (hoistLLVM l)).reverse ++
          ((splicedBody l).filterMap hoistMemref).reverse := by
      rw [← h]
      show (walkBlockDim l (walkGridDim l (walkBarrier (walkThreadId
        (walkLLVMAlloca (walkMemrefAlloca
          (walkBlockId ⟨[], splicedBody l⟩))))))).blockBody = _
      rw [pipeline_closed]
    have hinner : ll.innerBody =
        (splicedBody l).filterMap (rewriteSpliced l) := by
      rw [← h]
      show (walkBlockDim l (walkGridDim l (walkBarrier (walkThreadId
        (walkLLVMAlloca (walkMemrefAlloca
          (walkBlockId ⟨[], splicedBody l⟩))))))).innerBody = _
      rw [pipeline_closed]
    refine ⟨?_, ?_, ?_, ?_, ?_⟩
    · intro n ty hmem hsp
      constructor
      · rw [hblock]
        refine List.mem_append.mpr (Or.inr ?_)
        rw [List.mem_reverse]
        exact List.mem_filterMap.mpr
          ⟨(n, SOp.memrefAllocaOp ty), hmem, by simp [hoistMemref, hsp]⟩
      · rw [hinner]
        exact List.mem_filterMap.mpr
          ⟨(n, SOp.memrefAllocaOp ty), hmem, by simp [rewriteSpliced, hsp]⟩
    · intro n ty sz hmem hsp
      constructor
      · rw [hblock]
        refine List.mem_append.mpr (Or.inl ?_)
        rw [List.mem_reverse]
        exact List.mem_filterMap.mpr
          ⟨(n, SOp.llvmAllocaOp ty sz), hmem, by simp [hoistLLVM, hsp]⟩
      · rw [hinner]
        exact List.mem_filterMap.mpr
          ⟨(n, SOp.llvmAllocaOp ty sz), hmem,
            by simp [rewriteSpliced, hsp]⟩
    · intro n q hq hmemq
      rw [hinner, List.mem_filterMap] at hq
      obtain ⟨p, hp, hpq⟩ := hq
      exact rewriteSpliced_hoisted l n p q
        (splicedBody_no_hoisted l p hp) hpq hmemq
    · intro n q hq hmemq
      rw [hblock] at hq
      rcases List.mem_append.mp hq with hq2 | hq2
      · rw [List.mem_reverse, List.mem_filterMap] at hq2
        obtain ⟨p, hp, hpq⟩ := hq2
        exact (hoistLLVM_shape l p q
          (splicedBody_no_hoisted l p hp) hpq).1 n hmemq
      · rw [List.mem_reverse, List.mem_filterMap] at hq2
        obtain ⟨p, hp, hpq⟩ := hq2
        rw [(hoistMemref_shape p q hpq).1] at hmemq
        exact absurd hmemq (List.not_mem_nil _)
    · intro q hq
      rcases List.mem_append.mp hq with hq2 | hq2
      · rw [hblock] at hq2
        rcases List.mem_append.mp hq2 with hq3 | hq3
        · rw [List.mem_reverse, List.mem_filterMap] at hq3
          obtain ⟨p, hp, hpq⟩ := hq3
          exact ⟨(hoistLLVM_shape l p q
              (splicedBody_no_hoisted l p hp) hpq).2.1,
            (hoistLLVM_shape l p q
              (splicedBody_no_hoisted l p hp) hpq).2.2⟩
        · rw [List.mem_reverse, List.mem_filterMap] at hq3
          obtain ⟨p, hp, hpq⟩ := hq3
          exact ⟨(hoistMemref_shape p q hpq).2.1,
            (hoistMemref_shape p q hpq).2.2⟩
      · rw [hinner, List.mem_filterMap] at hq2
        obtain ⟨p, hp, hpq⟩ := hq2
        exact rewriteSpliced_no_space5 l p q hpq

def exampleAllocLaunch : LaunchOp :=
  ⟨2, 3, 4, 5, 6, 7, [],
    [KOp.memrefAllocaOp ⟨1, 0, some 5⟩,
      KOp.llvmAllocaOp ⟨2, 5⟩ (GVal.ext 9),
      KOp.genericOp 3 [GVal.res 0, GVal.res 1]]⟩

def exampleAllocLowered : LoweredLaunch :=
  { asyncWrapped := false,
    gpuWrapped := true,
    structureMode := PolygeistGPUStructureMode.PGSM_Discard,
    gridParallel :=
      ⟨[LVal.constIndex 0, LVal.constIndex 0, LVal.constIndex 0],
        [LVal.ext 2, LVal.ext 3, LVal.ext 4],
        [LVal.constIndex 1, LVal.constIndex 1, LVal.constIndex 1]⟩,
    threadParallel :=
      ⟨[LVal.constIndex 0, LVal.constIndex 0, LVal.constIndex 0],
        [LVal.ext 5, LVal.ext 6, LVal.ext 7],
        [LVal.constIndex 1, LVal.constIndex 1, LVal.constIndex 1]⟩,
    blockBody :=
      [(1, SOp.llvmAllocaOp ⟨2, 0⟩ (LVal.ext 9)),
        (0, SOp.memrefAllocaOp ⟨1, 0, none⟩)],
    innerBody :=
      [(0, SOp.memrefCastOp ⟨1, 0, some 5⟩ (LVal.hoisted 0)),
        (1, SOp.llvmAddrSpaceCastOp ⟨2, 5⟩ (LVal.hoisted 1)),
        (2, SOp.genericOp 3 [LVal.res 0, LVal.res 1])] }

theorem C4_space5_alloca_hoisting_witness :
    lowerLaunch true PolygeistGPUStructureMode.PGSM_Discard
        exampleAllocLaunch = some exampleAllocLowered ∧
      (0, SOp.memrefAllocaOp ⟨1, 0, none⟩) ∈ exampleAllocLowered.blockBody ∧
      (0, SOp.memrefCastOp ⟨1, 0, some 5⟩ (LVal.hoisted 0)) ∈
        exampleAllocLowered.innerBody :=
  ⟨by decide,
    ((C4_space5_alloca_hoisting true PolygeistGPUStructureMode.PGSM_Discard
        exampleAllocLaunch exampleAllocLowered (by decide)).1 0 ⟨1, 0, some 5⟩
      (by decide) rfl).1,
    ((C4_space5_alloca_hoisting true PolygeistGPUStructureMode.PGSM_Discard
        exampleAllocLaunch exampleAllocLowered (by decide)).1 0 ⟨1, 0, some 5⟩
      (by decide) rfl).2⟩

/-! ## The device-intrinsic closure builder (lines 370-455)

The pass walks the unit and collects every gpu.ThreadIdOp, gpu.GridDimOp
and NVVM.Barrier0Op occurrence (lines 376-381) into a work-list, then
repeatedly pops an op, finds its enclosing launch and function, and unless
the op sits inside a launch region nested in that function, inserts the
function into the to-inline SetVector and pushes every symbol-table user
of the function that is an LLVM or func call (lines 384-399); GetFuncOp
users go to the separate `toFollowOps` phase (lines 417-454).  We flatten
the unit to a list of op sites, each recording the enclosing function, an
inside-a-launch flag (in the flat model `lop->isAncestor(fop)` cannot
hold, as functions are top level), and the op kind; the work-list is
processed from the head (the C++ pops from the back; order does not
affect the accumulated set), with explicit fuel since the C++ loop has no
termination guarantee on recursive call graphs. -/

inductive GOp where
  | threadIdOp
  | blockIdOp
  | blockDimOp
  | gridDimOp
  | barrier0Op
  | callOp (callee : String)
  | getFuncOp (callee : String)
  | otherOp
deriving DecidableEq, Repr

structure GOpSite where
  func : String
  insideLaunch : Bool
  op : GOp
deriving DecidableEq, Repr

structure GUnit where
  sites : List GOpSite
deriving DecidableEq, Repr

/-- The three seeding walks at lines 376-381: every gpu.ThreadIdOp, then
every gpu.GridDimOp, then every NVVM.Barrier0Op.  (gpu.BlockDimOp and
gpu.BlockIdOp are not collected.) -/
def seedWorklist (u : GUnit) : List GOpSite :=
  u.sites.filter (fun s => s.op == GOp.threadIdOp) ++
    u.sites.filter (fun s => s.op == GOp.gridDimOp) ++
      u.sites.filter (fun s => s.op == GOp.barrier0Op)

/-- The symbol-table users of a function that are LLVM or func calls
(line 391-393). -/
def callersOf (u : GUnit) (g : String) : List GOpSite :=
  u.sites.filter (fun s => s.op == GOp.callOp g)

/-- The work-list loop at lines 384-399: pop an op site; if it is not
inside a launch, insert its function into the to-inline set (appending
keeps SetVector's dedup-insert semantics) and push every call-op user of
that function, whether or not the function was already present. -/
def closureLoop (u : GUnit) : Nat → List GOpSite → List String →
    (List String × List GOpSite)
  | 0, wl, toinl => (toinl, wl)
  | _ + 1, [], toinl => (toinl, [])
  | fuel + 1, s :: rest, toinl =>
    if s.insideLaunch then closureLoop u fuel rest toinl
    else
      closureLoop u fuel (callersOf u s.func ++ rest)
        (if s.func ∈ toinl then toinl else toinl ++ [s.func])

theorem closureLoop_mono (u : GUnit) : ∀ (fuel : Nat) (wl : List GOpSite)
    (acc res : List String) (rem : List GOpSite),
    closureLoop u fuel wl acc = (res, rem) → ∀ g ∈ acc, g ∈ res := by
  intro fuel
  induction fuel with
  | zero =>
    intro wl acc res rem h g hg
    cases h
    exact hg
  | succ n ih =>
    intro wl acc res rem h g hg
    cases wl with
    | nil => cases h; exact hg
    | cons s rest =>
      unfold closureLoop at h
      by_cases hs : s.insideLaunch
      · rw [if_pos hs] at h
        exact ih rest acc res rem h g hg
      · rw [if_neg hs] at h
        refine ih _ _ res rem h g ?_
        split_ifs
        · exact hg
        · exact List.mem_append.mpr (Or.inl hg)

theorem closureLoop_wl_done (u : GUnit) : ∀ (fuel : Nat)
    (wl : List GOpSite) (acc res : List String),
    closureLoop u fuel wl acc = (res, []) →
    ∀ s ∈ wl, s.insideLaunch = false → s.func ∈ res := by
  intro fuel
  induction fuel with
  | zero =>
    intro wl acc res h s hs hl
    injection h with h1 h2
    subst h2
    exact absurd hs (List.not_mem_nil s)
  | succ n ih =>
    intro wl acc res h s hs hl
    cases wl with
    | nil => exact absurd hs (List.not_mem_nil s)
    | cons t rest =>
      unfold closureLoop at h
      by_cases ht : t.insideLaunch
      · rw [if_pos ht] at h
        rcases List.mem_cons.mp hs with rfl | hs2
        · rw [hl] at ht; cases ht
        · exact ih rest acc res h s hs2 hl
      · rw [if_neg ht] at h
        rcases List.mem_cons.mp hs with rfl | hs2
        · refine closureLoop_mono u n _ _ res [] h s.func ?_
          split_ifs with hf
          · exact hf
          · exact List.mem_append.mpr (Or.inr (by simp))
        · exact ih _ _ res h s (List.mem_append.mpr (Or.inr hs2)) hl

theorem closureLoop_closed (u : GUnit) : ∀ (fuel : Nat)
    (wl : List GOpSite) (acc res : List String),
    closureLoop u fuel wl acc = (res, []) →
    (∀ g ∈ acc, ∀ s ∈ callersOf u g,
      s ∈ wl ∨ (s.insideLaunch = false → s.func ∈ res)) →
    ∀ g ∈ res, ∀ s ∈ callersOf u g,
      s.insideLaunch = false → s.func ∈ res := by
  intro fuel
  induction fuel with
  | zero =>
    intro wl acc res h hinv g hg s hs hl
    injection h with h1 h2
    subst h1
    subst h2
    rcases hinv g hg s hs with hcon | hd
    · exact absurd hcon (List.not_mem_nil s)
    · exact hd hl
  | succ n ih =>
    intro wl acc res h hinv g hg s hs hl
    cases wl with
    | nil =>
      injection h with h1 h2
      subst h1
      rcases hinv g hg s hs with hcon | hd
      · exact absurd hcon (List.not_mem_nil s)
      · exact hd hl
    | cons t rest =>
      unfold closureLoop at h
      by_cases ht : t.insideLaunch
      · rw [if_pos ht] at h
        refine ih rest acc res h ?_ g hg s hs hl
        intro g2 hg2 s2 hs2
        rcases hinv g2 hg2 s2 hs2 with hw | hd
        · rcases List.mem_cons.mp hw with rfl | hw2
          · exact Or.inr (fun hfalse => by rw [hfalse] at ht; cases ht)
          · exact Or.inl hw2
        · exact Or.inr hd
      · rw [if_neg ht] at h
        refine ih _ _ res h ?_ g hg s hs hl
        intro g2 hg2 s2 hs2
        have hg2' : g2 ∈ acc ∨ g2 = t.func := by
          revert hg2
          split_ifs with hf
          · exact fun h2 => Or.inl h2
          · intro h2
            rcases List.mem_append.mp h2 with h3 | h3
            · exact Or.inl h3
            · exact Or.inr (by simpa using h3)
        rcases hg2' with hg2a | hgeq
        · rcases hinv g2 hg2a s2 hs2 with hw | hd
          · rcases List.mem_cons.mp hw with rfl | hw2
            · refine Or.inr (fun hfalse => ?_)
              refine closureLoop_mono u n _ _ res [] h s2.func ?_
              split_ifs with hf
              · exact hf
              · exact List.mem_append.mpr (Or.inr (by simp))
            · exact Or.inl (List.mem_append.mpr (Or.inr hw2))
          · exact Or.inr hd
        · subst hgeq
          exact Or.inl (List.mem_append.mpr (Or.inl hs2))

def C2blockDimUnit : GUnit :=
  ⟨[⟨"f", false, GOp.blockDimOp⟩, ⟨"g", false, GOp.callOp "f"⟩]⟩

/-- C2 counterexample: a unit whose function "f" reads gpu.BlockDimOp
outside any launch region seeds nothing (the walks at lines 376-381 only
collect ThreadIdOp, GridDimOp and Barrier0Op), so the closure terminates
with an empty to-inline set and "f" is never marked for inlining, contrary
to the claim that block-dimension intrinsic uses seed the work-list. -/
theorem C2_counterexample :
    (∃ s ∈ C2blockDimUnit.sites,
      s.op = GOp.blockDimOp ∧ s.insideLaunch = false) ∧
      seedWorklist C2blockDimUnit = [] ∧
      closureLoop C2blockDimUnit 5 (seedWorklist C2blockDimUnit) [] =
        ([], []) ∧
      "f" ∉ (closureLoop C2blockDimUnit 5
        (seedWorklist C2blockDimUnit) []).1 := by
  decide

/-- The application phase at lines 400-416: for each function of the
to-inline set, in order, every symbol-table user that is an LLVM or func
call is collected and handed to `LLVMcallInliner` / `callInliner` to be
inlined (the per-call behaviour of those two utilities is the subject of
claim C5).  The list accumulates the handed-over call sites. -/
def inlinedCallSites (u : GUnit) (toinl : List String) : List GOpSite :=
  toinl.foldl (fun acc g => acc ++ callersOf u g) []

/-- A function transitively reaches a seeded device intrinsic through
ordinary calls when it holds a thread-index, grid-dimension or barrier
intrinsic outside a launch, or an out-of-launch call to a function that
does. -/
inductive ReachesIntrinsic (u : GUnit) : String → Prop where
  | direct (s : GOpSite) (hs : s ∈ u.sites)
      (hop : s.op = GOp.threadIdOp ∨ s.op = GOp.gridDimOp ∨
        s.op = GOp.barrier0Op)
      (hl : s.insideLaunch = false) : ReachesIntrinsic u s.func
  | call (s : GOpSite) (g : String) (hs : s ∈ u.sites)
      (hop : s.op = GOp.callOp g) (hl : s.insideLaunch = false)
      (hg : ReachesIntrinsic u g) : ReachesIntrinsic u s.func

theorem foldl_callers_mem_of_mem (u : GUnit) :
    ∀ (l : List String) (acc : List GOpSite) (x : GOpSite), x ∈ acc →
      x ∈ l.foldl (fun a g => a ++ callersOf u g) acc := by
  intro l
  induction l with
  | nil => intro acc x hx; exact hx
  | cons g rest ih =>
    intro acc x hx
    exact ih (acc ++ callersOf u g) x (List.mem_append.mpr (Or.inl hx))

theorem mem_inlinedCallSites (u : GUnit) :
    ∀ (l : List String) (acc : List GOpSite) (g : String), g ∈ l →
      ∀ s ∈ callersOf u g, s ∈ l.foldl (fun a g => a ++ callersOf u g) acc := by
  intro l
  induction l with
  | nil => intro acc g hg; exact absurd hg (List.not_mem_nil g)
  | cons g0 rest ih =>
    intro acc g hg s hs
    rcases List.mem_cons.mp hg with rfl | hg2
    · exact foldl_callers_mem_of_mem u rest (acc ++ callersOf u g) s
        (List.mem_append.mpr (Or.inr hs))
    · exact ih (acc ++ callersOf u g0) g hg2 s hs

/-- C2 (amended): the closure builder seeds its work-list with every
thread-index, grid-dimension and barrier intrinsic use (block-dimension
uses are not collected); whenever the work-list loop terminates, every
such intrinsic site outside a launch has its enclosing function in the
to-inline set, the set is closed under out-of-launch callers, hence every
function transitively reaching a seeded intrinsic through ordinary
out-of-launch calls is in the set, and every call site targeting a
to-inline function — in particular every call site targeting such a
transitively-reaching function — is handed to the call-graph inliner by
the application loop. -/
theorem C2_closure_builder (u : GUnit) (fuel : Nat) (toinl : List String)
    (h : closureLoop u fuel (seedWorklist u) [] = (toinl, [])) :
    (∀ s ∈ u.sites,
      (s.op = GOp.threadIdOp ∨ s.op = GOp.gridDimOp ∨
        s.op = GOp.barrier0Op) →
      s.insideLaunch = false → s.func ∈ toinl) ∧
      (∀ g ∈ toinl, ∀ s ∈ u.sites, s.op = GOp.callOp g →
        s.insideLaunch = false → s.func ∈ toinl) ∧
      (∀ f, ReachesIntrinsic u f → f ∈ toinl) ∧
      (∀ g ∈ toinl, ∀ s ∈ u.sites, s.op = GOp.callOp g →
        s ∈ inlinedCallSites u toinl) ∧
      (∀ f, ReachesIntrinsic u f → ∀ s ∈ u.sites, s.op = GOp.callOp f →
        s ∈ inlinedCallSites u toinl) := by
  have h1 : ∀ s ∈ u.sites,
      (s.op = GOp.threadIdOp ∨ s.op = GOp.gridDimOp ∨
        s.op = GOp.barrier0Op) →
      s.insideLaunch = false → s.func ∈ toinl := by
    intro s hs hop hl
    refine closureLoop_wl_done u fuel _ _ toinl h s ?_ hl
    unfold seedWorklist
    rcases hop with h1 | h1 | h1
    · exact List.mem_append.mpr (Or.inl (List.mem_append.mpr (Or.inl
        (List.mem_filter.mpr ⟨hs, by simp [h1]⟩))))
    · exact List.mem_append.mpr (Or.inl (List.mem_append.mpr (Or.inr
        (List.mem_filter.mpr ⟨hs, by simp [h1]⟩))))
    · exact List.mem_append.mpr (Or.inr
        (List.mem_filter.mpr ⟨hs, by simp [h1]⟩))
  have h2 : ∀ g ∈ toinl, ∀ s ∈ u.sites, s.op = GOp.callOp g →
      s.insideLaunch = false → s.func ∈ toinl := by
    intro g hg s hs hop hl
    have hcall : s ∈ callersOf u g :=
      List.mem_filter.mpr ⟨hs, by simp [hop]⟩
    exact closureLoop_closed u fuel _ _ toinl h
      (fun g2 hg2 => absurd hg2 (List.not_mem_nil g2)) g hg s hcall hl
  have h3 : ∀ f, ReachesIntrinsic u f → f ∈ toinl := by
    intro f hf
    induction hf with
    | direct s hs hop hl => exact h1 s hs hop hl
    | call s g hs hop hl hg ih => exact h2 g ih s hs hop hl
  have h4 : ∀ g ∈ toinl, ∀ s ∈ u.sites, s.op = GOp.callOp g →
      s ∈ inlinedCallSites u toinl := by
    intro g hg s hs hop
    exact mem_inlinedCallSites u toinl [] g hg s
      (List.mem_filter.mpr ⟨hs, by simp [hop]⟩)
  exact ⟨h1, h2, h3, h4, fun f hf s hs hop => h4 f (h3 f hf) s hs hop⟩

def C2exampleUnit : GUnit :=
  ⟨[⟨"k", false, GOp.threadIdOp⟩, ⟨"m", false, GOp.callOp "k"⟩]⟩

theorem C2_closure_builder_witness :
    closureLoop C2exampleUnit 5 (seedWorklist C2exampleUnit) [] =
        (["k", "m"], []) ∧
      "k" ∈ ["k", "m"] ∧
      (⟨"m", false, GOp.callOp "k"⟩ : GOpSite) ∈
        inlinedCallSites C2exampleUnit ["k", "m"] :=
  ⟨by decide,
    (C2_closure_builder C2exampleUnit 5 ["k", "m"] (by decide)).2.2.1 "k"
      (ReachesIntrinsic.direct ⟨"k", false, GOp.threadIdOp⟩ (by decide)
        (Or.inl rfl) rfl),
    (C2_closure_builder C2exampleUnit 5 ["k", "m"] (by decide)).2.2.2.2 "k"
      (ReachesIntrinsic.direct ⟨"k", false, GOp.threadIdOp⟩ (by decide)
        (Or.inl rfl) rfl)
      ⟨"m", false, GOp.callOp "k"⟩ (by decide) rfl⟩

/-! ## The call-graph inlining utility (lines 250-357)

`callInliner` (func.call) and `LLVMcallInliner` (llvm.call) are two
textually identical lambdas.  Each resolves the callee: a non-symbol
callable or a non-flat symbol reference returns immediately; a symbol that
does not resolve to a callable op leaves the interface handle null and the
subsequent `getCallableRegion` call dereferences it (modelled as a crash);
a null or empty callable region returns immediately.  Otherwise — after
recursively pre-inlining the calls inside the callee, which together with
the upstream `inlineCall` utility is outside these sources and is
abstracted into the `inlineOk` oracle bit — the call is wrapped at lines
282-302: a memref.alloca_scope holding an scf.execute_region is built at
the call, the call is moved into the execute-region block, every use of
the call's results is replaced by the alloca-scope results, and only if
`inlineCall` succeeds is the call erased; on rejection the already-built
scaffolding and rewired uses remain. -/

inductive CalleeRef where
  | valueCallee
  | nestedSymbol (path : List String)
  | flatSymbol (name : String)
deriving DecidableEq, Repr

structure CallableDef where
  name : String
  isCallable : Bool
  callableRegion : Option (List Nat)
  inlineOk : Bool
deriving DecidableEq, Repr

structure InlineCall where
  callee : CalleeRef
  results : List Nat
deriving DecidableEq, Repr

inductive InlineOutcome where
  | untouched
  | crashNoCallable
  | scaffolded (erased : Bool)
deriving DecidableEq, Repr

def callInliner (lookup : String → Option CallableDef)
    (c : InlineCall) : InlineOutcome :=
  match c.callee with
  | CalleeRef.valueCallee => InlineOutcome.untouched
  | CalleeRef.nestedSymbol _ => InlineOutcome.untouched
  | CalleeRef.flatSymbol name =>
    match lookup name with
    | none => InlineOutcome.crashNoCallable
    | some d =>
      if !d.isCallable then InlineOutcome.crashNoCallable
      else
        match d.callableRegion with
        | none => InlineOutcome.untouched
        | some [] => InlineOutcome.untouched
        | some (_ :: _) =>
          if d.inlineOk then InlineOutcome.scaffolded true
          else InlineOutcome.scaffolded false

def LLVMcallInliner (lookup : String → Option CallableDef)
    (c : InlineCall) : InlineOutcome :=
  match c.callee with
  | CalleeRef.valueCallee => InlineOutcome.untouched
  | CalleeRef.nestedSymbol _ => InlineOutcome.untouched
  | CalleeRef.flatSymbol name =>
    match lookup name with
    | none => InlineOutcome.crashNoCallable
    | some d =>
      if !d.isCallable then InlineOutcome.crashNoCallable
      else
        match d.callableRegion with
        | none => InlineOutcome.untouched
        | some [] => InlineOutcome.untouched
        | some (_ :: _) =>
          if d.inlineOk then InlineOutcome.scaffolded true
          else InlineOutcome.scaffolded false

def C5lookup : String → Option CallableDef := fun n =>
  if n = "callee" then some ⟨"callee", true, some [0], false⟩ else none

/-- C5 counterexample: when `inlineCall` rejects a call whose flat-symbol
callee has a nonempty callable region, the call is not left untouched —
the alloca-scope/execute-region scaffolding has already been built around
it and its uses rewired to the scope results (lines 282-294 run before the
`inlineCall` test at line 295, whose failure only skips the erase). -/
theorem C5_counterexample :
    callInliner C5lookup ⟨CalleeRef.flatSymbol "callee", [0]⟩ =
        InlineOutcome.scaffolded false ∧
      callInliner C5lookup ⟨CalleeRef.flatSymbol "callee", [0]⟩ ≠
        InlineOutcome.untouched := by
  decide

/-- C5 (amended): for both call kinds (the two inliner lambdas are
textually identical, so they agree on every call): a value callee or a
non-flat symbol reference leaves the call untouched, as does a callee with
a null or empty callable region; when the callee's region is nonempty the
call is wrapped in the alloca-scope/execute-region scaffolding with its
uses replaced by the scope results, and the call itself is erased exactly
when `inlineCall` succeeds — on rejection the scaffolding remains (the
call is not untouched). -/
theorem C5_call_inliner (lookup : String → Option CallableDef)
    (c : InlineCall) :
    (c.callee = CalleeRef.valueCallee →
      callInliner lookup c = InlineOutcome.untouched) ∧
      (∀ p, c.callee = CalleeRef.nestedSymbol p →
        callInliner lookup c = InlineOutcome.untouched) ∧
      (∀ name d, c.callee = CalleeRef.flatSymbol name →
        lookup name = some d → d.isCallable = true →
        ((d.callableRegion = none ∨ d.callableRegion = some []) →
          callInliner lookup c = InlineOutcome.untouched) ∧
          (∀ b bs, d.callableRegion = some (b :: bs) →
            callInliner lookup c = InlineOutcome.scaffolded d.inlineOk)) ∧
      LLVMcallInliner lookup c = callInliner lookup c := by
  obtain ⟨cal, res⟩ := c
  refine ⟨?_, ?_, ?_, ?_⟩
  · intro h
    dsimp only at h
    subst h
    rfl
  · intro p h
    dsimp only at h
    subst h
    rfl
  · intro name d h hl hc
    dsimp only at h
    subst h
    constructor
    · intro hro
      rcases hro with h1 | h1 <;> simp [callInliner, hl, hc, h1]
    · intro b bs h1
      cases hio : d.inlineOk <;> simp [callInliner, hl, hc, h1, hio]
  · cases cal <;> rfl

def C5okLookup : String → Option CallableDef := fun n =>
  if n = "h" then some ⟨"h", true, some [0], true⟩ else none

theorem C5_call_inliner_witness :
    callInliner C5okLookup ⟨CalleeRef.flatSymbol "h", [1]⟩ =
        InlineOutcome.scaffolded true ∧
      LLVMcallInliner C5okLookup ⟨CalleeRef.flatSymbol "h", [1]⟩ =
        callInliner C5okLookup ⟨CalleeRef.flatSymbol "h", [1]⟩ :=
  ⟨((C5_call_inliner C5okLookup ⟨CalleeRef.flatSymbol "h", [1]⟩).2.2.1
      "h" ⟨"h", true, some [0], true⟩ rfl (by decide) rfl).2 0 [] rfl,
    (C5_call_inliner C5okLookup ⟨CalleeRef.flatSymbol "h", [1]⟩).2.2.2⟩
